import Mathlib

/-!
# Task-Tracker: a shallow embedding of `main.go`

The program keeps two process-wide variables, the task slice `tasks` and the
counter `nextID`.  Every command is embedded as a function from the state (and
the command's arguments and clock readings) to the new state together with what
was printed; `main` wraps a command between `LoadTasks` and `SaveTasks`, with
the content of `tasks.json` passed along explicitly.

Conventions of the embedding:

* Go strings are byte sequences (`List Nat`, each byte below 256), so that
  arguments that are not valid UTF-8 are covered.
* Go's `int` is the 64-bit signed integer: values are `Int`, and the two
  additions of the program (`maxID + 1`, `nextID++`) wrap around.
* `time.Time` is kept broken down: civil date, clock reading and zone offset,
  which is all the program prints or stores; `time.Now()` is a parameter.
* The library calls are embedded from their documented behaviour (Go 1.22):
  `fmt.Sscanf` with `%d`, `fmt.Printf`, `Time.Format`, `json.MarshalIndent`,
  `json.Unmarshal`, `Time.MarshalJSON` and `Time.UnmarshalJSON`.
* Reading and writing the file itself succeeds, and the argument count is the
  one the command line parser admits.
-/

namespace TaskTracker

/-! ## Data model -/

/-- A Go string is a sequence of bytes, each a natural number below 256. -/
abbrev GoString := List Nat

/-- The bytes of an ASCII source literal. -/
def lit (s : String) : GoString := s.toList.map Char.toNat

/-- The largest value of Go's `int` on a 64-bit platform. -/
def maxInt : Int := 9223372036854775807

/-- The smallest value of Go's `int` on a 64-bit platform. -/
def minInt : Int := -9223372036854775808

/-- Two's-complement wrap-around of `int` arithmetic. -/
def wrapInt (x : Int) : Int := (x + 9223372036854775808) % 18446744073709551616 - 9223372036854775808

/-- A `time.Time` value as the program observes it: the civil date and clock
reading in the value's own zone, and that zone's offset east of UTC in seconds. -/
structure Time where
  year : Int
  month : Nat
  day : Nat
  hour : Nat
  minute : Nat
  second : Nat
  nsec : Nat
  offset : Int
deriving DecidableEq, Repr

/-- The `Task` struct of `main.go`. -/
structure Task where
  ID : Int
  Description : GoString
  Status : GoString
  CreatedAt : Time
  UpdatedAt : Time
deriving DecidableEq, Repr

/-- The package-level variables `tasks` and `nextID`.  `isNil` records whether
the slice `tasks` is still the nil slice (it is until something is stored). -/
structure State where
  tasks : List Task
  isNil : Bool
  nextID : Int
deriving DecidableEq, Repr

/-- The state a process starts in: `var tasks []Task` and `var nextID = 1`. -/
def initState : State := { tasks := [], isNil := true, nextID := 1 }

/-! ## Formatting (`fmt`, `time.Format`) -/

/-- Decimal digits of a natural number, most significant first. -/
def natDecAux : Nat → Nat → GoString → GoString
  | 0, _, acc => acc
  | fuel + 1, n, acc =>
    if n < 10 then (48 + n) :: acc else natDecAux fuel (n / 10) ((48 + n % 10) :: acc)

/-- Decimal rendering of a natural number. -/
def natDec (n : Nat) : GoString := natDecAux (n + 1) n []

/-- The verb `%d` applied to an `int`. -/
def fmtInt (i : Int) : GoString :=
  if i < 0 then 45 :: natDec i.natAbs else natDec i.natAbs

/-- Left padding with `0` up to `width` digits. -/
def padZero (width : Nat) (ds : GoString) : GoString :=
  List.replicate (width - ds.length) 48 ++ ds

/-- The function `appendInt` of package `time`: sign, then at least `width` digits. -/
def appendInt (x : Int) (width : Nat) : GoString :=
  if x < 0 then 45 :: padZero width (natDec x.natAbs) else padZero width (natDec x.natAbs)

/-- The call `t.Format("2006-01-02 15:04:05")`. -/
def formatDateTime (t : Time) : GoString :=
  appendInt t.year 4 ++ [45] ++ appendInt t.month 2 ++ [45] ++ appendInt t.day 2 ++ [32]
    ++ appendInt t.hour 2 ++ [58] ++ appendInt t.minute 2 ++ [58] ++ appendInt t.second 2

/-! ## UTF-8 (`unicode/utf8`) -/

/-- The rune `utf8.RuneError`, U+FFFD. -/
def runeError : Nat := 0xFFFD

/-- Continuation byte test, `0x80..0xBF`. -/
def isCont (b : Nat) : Bool := 0x80 ≤ b && b ≤ 0xBF

/-- The function `utf8.DecodeRune`: the first rune of the input and its width in
bytes; an invalid or truncated encoding gives `(RuneError, 1)`, the empty input
`(RuneError, 0)`. -/
def decodeRune : GoString → Nat × Nat
  | [] => (runeError, 0)
  | p0 :: rest =>
    if p0 < 0x80 then (p0, 1)
    else if p0 < 0xC2 then (runeError, 1)
    else if p0 < 0xE0 then
      match rest with
      | b1 :: _ =>
        if isCont b1 then ((p0 - 0xC0) * 64 + (b1 - 0x80), 2) else (runeError, 1)
      | _ => (runeError, 1)
    else if p0 < 0xF0 then
      match rest with
      | b1 :: b2 :: _ =>
        if (if p0 = 0xE0 then 0xA0 else 0x80) ≤ b1 && b1 ≤ (if p0 = 0xED then 0x9F else 0xBF)
            && isCont b2 then
          ((p0 - 0xE0) * 4096 + (b1 - 0x80) * 64 + (b2 - 0x80), 3)
        else (runeError, 1)
      | _ => (runeError, 1)
    else if p0 < 0xF5 then
      match rest with
      | b1 :: b2 :: b3 :: _ =>
        if (if p0 = 0xF0 then 0x90 else 0x80) ≤ b1 && b1 ≤ (if p0 = 0xF4 then 0x8F else 0xBF)
            && isCont b2 && isCont b3 then
          ((p0 - 0xF0) * 262144 + (b1 - 0x80) * 4096 + (b2 - 0x80) * 64 + (b3 - 0x80), 4)
        else (runeError, 1)
      | _ => (runeError, 1)
    else (runeError, 1)

/-! ## Scanning the id argument (`fmt.Sscanf(arg, "%d", &id)`) -/

/-- The errors `Sscanf` can return for the format `%d`. -/
inductive ScanError where
  | unexpectedEOF
  | unexpectedNewline
  | expectedInteger
  | outOfRange
deriving DecidableEq, Repr

instance instDecidableEqExcept {ε α : Type} [DecidableEq ε] [DecidableEq α] :
    DecidableEq (Except ε α)
  | .ok a, .ok b => if h : a = b then isTrue (by rw [h]) else isFalse (by intro h2; cases h2; exact h rfl)
  | .error a, .error b =>
    if h : a = b then isTrue (by rw [h]) else isFalse (by intro h2; cases h2; exact h rfl)
  | .ok _, .error _ => isFalse (by intro h; cases h)
  | .error _, .ok _ => isFalse (by intro h; cases h)

/-- The space table of package `fmt`. -/
def isSpace (r : Nat) : Bool :=
  (0x09 ≤ r && r ≤ 0x0d) || r = 0x20 || r = 0x85 || r = 0xa0 || r = 0x1680
    || (0x2000 ≤ r && r ≤ 0x200a) || r = 0x2028 || r = 0x2029 || r = 0x202f
    || r = 0x205f || r = 0x3000

/-- The method `SkipSpace` of the scan state when newlines are not spaces:
leading spaces are dropped, a newline is an error. -/
def skipSpace : Nat → GoString → Except ScanError GoString
  | 0, s => .ok s
  | fuel + 1, s =>
    match s with
    | [] => .ok []
    | c :: rest =>
      if c = 13 ∧ rest.head? = some 10 then skipSpace fuel rest
      else if c = 10 then .error .unexpectedNewline
      else if isSpace (decodeRune s).1 then skipSpace fuel (s.drop (decodeRune s).2)
      else .ok s

/-- An ASCII decimal digit. -/
def isDigit (c : Nat) : Bool := 48 ≤ c && c ≤ 57

/-- The value of a run of decimal digits, read left to right from `acc`. -/
def digitsValue (acc : Nat) : GoString → Nat
  | [] => acc
  | c :: cs => digitsValue (acc * 10 + (c - 48)) cs

/-- The scan of one `%d` operand into an `int`: spaces, an optional sign, at
least one digit, then every following digit; what follows the digits is left
unread.  The token must fit the 64-bit `int`. -/
def scanInt (arg : GoString) : Except ScanError Int :=
  match skipSpace arg.length arg with
  | .error e => .error e
  | .ok [] => .error .unexpectedEOF
  | .ok (c :: rest) =>
    let body := if c = 45 ∨ c = 43 then rest else c :: rest
    match body with
    | [] => .error .unexpectedEOF
    | d :: _ =>
      if isDigit d then
        let v : Int := digitsValue 0 (body.takeWhile isDigit)
        let i : Int := if c = 45 then -v else v
        if minInt ≤ i ∧ i ≤ maxInt then .ok i else .error .outOfRange
      else .error .expectedInteger

/-! ## Commands -/

/-- What one command run leaves behind: the new state, the chunks written to
standard output (one per `fmt` call), and, when `log.Fatalf` ended the process,
the scan error it logged. -/
structure Outcome where
  state : State
  stdout : List GoString
  fatal : Option ScanError
deriving DecidableEq, Repr

/-- The loop of `LoadTasks` that finds the largest id, started from `maxID`. -/
def maxIDLoop (maxID : Int) : List Task → Int
  | [] => maxID
  | task :: rest => maxIDLoop (if task.ID > maxID then task.ID else maxID) rest

/-- The end of `LoadTasks` once the snapshot is decoded into `ts`:
`maxID := 0`, the loop, `nextID = maxID + 1`. -/
def recomputeNextID (ts : List Task) : Int := wrapInt (maxIDLoop 0 ts + 1)

/-- The body of `addCmd`; `c1` and `c2` are its two readings of `time.Now()`. -/
def addCmd (s : State) (description : GoString) (c1 c2 : Time) : Outcome :=
  let task : Task :=
    { ID := s.nextID, Description := description, Status := lit "todo",
      CreatedAt := c1, UpdatedAt := c2 }
  { state := { tasks := s.tasks ++ [task], isNil := false, nextID := wrapInt (s.nextID + 1) },
    stdout := [lit "Task added successfully (ID: " ++ fmtInt task.ID ++ lit ")\n"],
    fatal := none }

/-- The loop of `updateCmd`: the first task with the id gets the description and
the clock reading; `none` when the loop ends without a match. -/
def updateLoop (id : Int) (description : GoString) (now : Time) : List Task → Option (List Task)
  | [] => none
  | t :: rest =>
    if t.ID = id then some ({ t with Description := description, UpdatedAt := now } :: rest)
    else (updateLoop id description now rest).map (t :: ·)

/-- The body of `updateCmd`. -/
def updateCmd (s : State) (idArg description : GoString) (now : Time) : Outcome :=
  match scanInt idArg with
  | .error e => { state := s, stdout := [], fatal := some e }
  | .ok id =>
    match updateLoop id description now s.tasks with
    | some ts =>
      { state := { s with tasks := ts },
        stdout := [lit "Task " ++ fmtInt id ++ lit " updated successfully\n"], fatal := none }
    | none =>
      { state := s, stdout := [lit "Task " ++ fmtInt id ++ lit " not found\n"], fatal := none }

/-- The loop of `deleteCmd`: `append(tasks[:i], tasks[i+1:]...)` at the first
index whose task has the id; `none` when the loop ends without a match. -/
def deleteLoop (id : Int) : List Task → Option (List Task)
  | [] => none
  | t :: rest => if t.ID = id then some rest else (deleteLoop id rest).map (t :: ·)

/-- The body of `deleteCmd`. -/
def deleteCmd (s : State) (idArg : GoString) : Outcome :=
  match scanInt idArg with
  | .error e => { state := s, stdout := [], fatal := some e }
  | .ok id =>
    match deleteLoop id s.tasks with
    | some ts =>
      { state := { s with tasks := ts },
        stdout := [lit "Task " ++ fmtInt id ++ lit " deleted successfully\n"], fatal := none }
    | none =>
      { state := s, stdout := [lit "Task " ++ fmtInt id ++ lit " not found\n"], fatal := none }

/-- The loop of `updateTaskStatus`. -/
def statusLoop (id : Int) (status : GoString) (now : Time) : List Task → Option (List Task)
  | [] => none
  | t :: rest =>
    if t.ID = id then some ({ t with Status := status, UpdatedAt := now } :: rest)
    else (statusLoop id status now rest).map (t :: ·)

/-- The function `updateTaskStatus`. -/
def updateTaskStatus (s : State) (idStr status : GoString) (now : Time) : Outcome :=
  match scanInt idStr with
  | .error e => { state := s, stdout := [], fatal := some e }
  | .ok id =>
    match statusLoop id status now s.tasks with
    | some ts =>
      { state := { s with tasks := ts },
        stdout := [lit "Task " ++ fmtInt id ++ lit " marked as " ++ status ++ lit "\n"],
        fatal := none }
    | none =>
      { state := s, stdout := [lit "Task " ++ fmtInt id ++ lit " not found\n"], fatal := none }

/-- The body of `markInProgressCmd`. -/
def markInProgressCmd (s : State) (idArg : GoString) (now : Time) : Outcome :=
  updateTaskStatus s idArg (lit "in-progress") now

/-- The body of `markDoneCmd`. -/
def markDoneCmd (s : State) (idArg : GoString) (now : Time) : Outcome :=
  updateTaskStatus s idArg (lit "done") now

/-- The `Printf` of one table row in `listCmd`. -/
def rowLine (task : Task) : GoString :=
  fmtInt task.ID ++ [9] ++ task.Status ++ [9] ++ formatDateTime task.CreatedAt ++ [9]
    ++ task.Description ++ [10]

/-- The loop of `listCmd`: one `Printf` per task that passes the status test. -/
def listLoop (status : GoString) : List Task → List GoString
  | [] => []
  | task :: rest =>
    if status = [] ∨ task.Status = status then rowLine task :: listLoop status rest
    else listLoop status rest

/-- The body of `listCmd`; `args` holds at most one element. -/
def listCmd (s : State) (args : List GoString) : Outcome :=
  let status : GoString := match args with
    | [] => []
    | a :: _ => a
  if s.tasks.length = 0 then
    { state := s, stdout := [lit "No tasks found\n"], fatal := none }
  else
    { state := s,
      stdout := [lit "\nID\tStatus\t\tCreated\t\t\tDescription\n",
                 lit "--\t------\t\t-------\t\t\t-----------\n"]
                ++ listLoop status s.tasks ++ [lit "\n"],
      fatal := none }

/-- A run of successive `add` commands in one process: the outcome of each
step, in order.  Every step takes its description and two clock readings. -/
def addSteps (s : State) : List (GoString × Time × Time) → List Outcome
  | [] => []
  | (d, c1, c2) :: rest => addCmd s d c1 c2 :: addSteps (addCmd s d c1 c2).state rest

/-- The id of the task at the end of the store an outcome leaves. -/
def Outcome.lastID (o : Outcome) : Option Int := o.state.tasks.getLast?.map (·.ID)

/-- The line `add` prints for the id it assigned. -/
def addedLine (id : Int) : GoString := lit "Task added successfully (ID: " ++ fmtInt id ++ lit ")\n"

/-- The line printed when no task has the id. -/
def notFoundLine (id : Int) : GoString := lit "Task " ++ fmtInt id ++ lit " not found\n"

/-- The specification's "maximum id present" of a store: `M` is an id of some
task and no task has a larger one; the empty store counts as `M = 0`, so that
its next id is 1. -/
def IsMaxID (ts : List Task) (M : Int) : Prop :=
  (ts = [] ∧ M = 0) ∨ ((∃ t ∈ ts, t.ID = M) ∧ ∀ t ∈ ts, t.ID ≤ M)

instance instDecidableIsMaxID (ts : List Task) (M : Int) : Decidable (IsMaxID ts M) := by
  unfold IsMaxID
  infer_instance

/-! ## Encoding strings, integers and times (`encoding/json`, `time`) -/

/-- The function `utf8.EncodeRune`: surrogates and values above U+10FFFF are
written as U+FFFD. -/
def encodeRune (r : Nat) : GoString :=
  if r < 0x80 then [r]
  else if r < 0x800 then [0xC0 + r / 64, 0x80 + r % 64]
  else if 0x10FFFF < r ∨ (0xD800 ≤ r ∧ r ≤ 0xDFFF) then [0xEF, 0xBF, 0xBD]
  else if r < 0x10000 then [0xE0 + r / 4096, 0x80 + r / 64 % 64, 0x80 + r % 64]
  else [0xF0 + r / 262144, 0x80 + r / 4096 % 64, 0x80 + r / 64 % 64, 0x80 + r % 64]

/-- The function `utf8.Valid`: no position decodes to an encoding error. -/
def utf8Valid : Nat → GoString → Bool
  | 0, s => s.isEmpty
  | fuel + 1, s =>
    match s with
    | [] => true
    | _ :: _ =>
      if (decodeRune s).1 = runeError ∧ (decodeRune s).2 = 1 then false
      else utf8Valid fuel (s.drop (decodeRune s).2)

/-- A Go string that is valid UTF-8. -/
def validUTF8 (s : GoString) : Bool := utf8Valid s.length s

/-- One lower-case hexadecimal digit. -/
def hexDigit (n : Nat) : Nat := if n < 10 then 48 + n else 87 + n

/-- The table `htmlSafeSet`: the ASCII bytes written unescaped. -/
def htmlSafe (b : Nat) : Bool :=
  0x20 ≤ b && b < 0x80 && b != 34 && b != 92 && b != 60 && b != 62 && b != 38

/-- The body of a JSON string as `appendString` writes it with HTML escaping
on: unsafe ASCII is escaped, an invalid byte becomes `�`, U+2028 and U+2029
are escaped, every other rune is copied. -/
def appendStringAux : Nat → GoString → GoString
  | 0, _ => []
  | fuel + 1, s =>
    match s with
    | [] => []
    | b :: rest =>
      if b < 0x80 then
        (if htmlSafe b then [b]
         else if b = 92 ∨ b = 34 then [92, b]
         else if b = 8 then [92, 98]
         else if b = 12 then [92, 102]
         else if b = 10 then [92, 110]
         else if b = 13 then [92, 114]
         else if b = 9 then [92, 116]
         else [92, 117, 48, 48, hexDigit (b / 16), hexDigit (b % 16)])
          ++ appendStringAux fuel rest
      else if (decodeRune s).1 = runeError ∧ (decodeRune s).2 = 1 then
        [92, 117, 102, 102, 102, 100] ++ appendStringAux fuel rest
      else if (decodeRune s).1 = 0x2028 ∨ (decodeRune s).1 = 0x2029 then
        [92, 117, 50, 48, 50, hexDigit ((decodeRune s).1 % 16)]
          ++ appendStringAux fuel (s.drop (decodeRune s).2)
      else s.take (decodeRune s).2 ++ appendStringAux fuel (s.drop (decodeRune s).2)

/-- A Go string as a JSON string literal. -/
def appendString (s : GoString) : GoString := [34] ++ appendStringAux s.length s ++ [34]

/-- The function `isLeap` of package `time`. -/
def isLeap (year : Int) : Bool := year % 4 = 0 && (year % 100 != 0 || year % 400 = 0)

/-- The function `daysIn` of package `time`. -/
def daysIn (month : Nat) (year : Int) : Nat :=
  if month = 2 then (if isLeap year then 29 else 28)
  else if month = 4 ∨ month = 6 ∨ month = 9 ∨ month = 11 then 30 else 31

/-- A run of digits without its trailing zeros. -/
def trimZeros (ds : GoString) : GoString := (ds.reverse.dropWhile (· == 48)).reverse

/-- The function `appendNano` for the layout `.999999999`: nothing for zero,
else the point and nine digits without trailing zeros. -/
def appendNano (nsec : Nat) : GoString :=
  if nsec = 0 then [] else 46 :: trimZeros (padZero 9 (natDec nsec))

/-- The zone of `appendFormatRFC3339`: `Z` for offset zero, else sign, hours
and minutes of the offset truncated to minutes. -/
def appendZone (offset : Int) : GoString :=
  if offset = 0 then [90]
  else
    (if Int.tdiv offset 60 < 0 then [45] else [43])
      ++ appendInt (((Int.tdiv offset 60).natAbs / 60 : Nat) : Int) 2 ++ [58]
      ++ appendInt (((Int.tdiv offset 60).natAbs % 60 : Nat) : Int) 2

/-- The method `appendFormatRFC3339` with nanoseconds. -/
def appendFormatRFC3339 (t : Time) : GoString :=
  appendInt t.year 4 ++ [45] ++ appendInt t.month 2 ++ [45] ++ appendInt t.day 2 ++ [84]
    ++ appendInt t.hour 2 ++ [58] ++ appendInt t.minute 2 ++ [58] ++ appendInt t.second 2
    ++ appendNano t.nsec ++ appendZone t.offset

/-- The method `Time.MarshalJSON`: the quoted RFC 3339 text; an error (`none`)
for a year outside 0..9999 or a zone hour outside 0..23. -/
def marshalTime (t : Time) : Option GoString :=
  if 0 ≤ t.year ∧ t.year ≤ 9999 ∧ (t.offset = 0 ∨ (Int.tdiv t.offset 60).natAbs / 60 < 24) then
    some ([34] ++ appendFormatRFC3339 t ++ [34])
  else none

/-- One task as `json.MarshalIndent(tasks, "", "  ")` writes an array element. -/
def marshalTask (t : Task) : Option GoString :=
  match marshalTime t.CreatedAt, marshalTime t.UpdatedAt with
  | some c, some u =>
    some (lit "\x7b\n    \"id\": " ++ fmtInt t.ID
      ++ lit ",\n    \"description\": " ++ appendString t.Description
      ++ lit ",\n    \"status\": " ++ appendString t.Status
      ++ lit ",\n    \"created_at\": " ++ c
      ++ lit ",\n    \"updated_at\": " ++ u ++ lit "\n  \x7d")
  | _, _ => none

/-- The elements of a non-empty array, separated by a comma and a new line. -/
def marshalElems : List Task → Option GoString
  | [] => some []
  | [t] => marshalTask t
  | t :: rest =>
    match marshalTask t, marshalElems rest with
    | some a, some b => some (a ++ lit ",\n  " ++ b)
    | _, _ => none

/-- The call `json.MarshalIndent(tasks, "", "  ")`: `null` for the nil slice,
`[]` for the empty one, else the indented array; `none` when a timestamp
cannot be marshalled. -/
def marshalIndent (s : State) : Option GoString :=
  match s.tasks with
  | [] => if s.isNil then some (lit "null") else some (lit "[]")
  | ts =>
    match marshalElems ts with
    | some b => some (lit "[\n  " ++ b ++ lit "\n]")
    | none => none

/-! ## Decoding (`json.Unmarshal`, `Time.UnmarshalJSON`) -/

/-- JSON white space: space, tab, carriage return, line feed. -/
def isWs (c : Nat) : Bool := c = 32 || c = 9 || c = 13 || c = 10

/-- The input without its leading white space. -/
def skipWs : GoString → GoString
  | [] => []
  | c :: rest => if isWs c then skipWs rest else c :: rest

/-- A hexadecimal digit of either case. -/
def isHex (c : Nat) : Bool := isDigit c || (97 ≤ c && c ≤ 102) || (65 ≤ c && c ≤ 70)

/-- The scanner inside a string literal, after the opening quote: the raw body
up to the closing quote, and the input after that quote.  Control characters
and unknown escapes are syntax errors. -/
def scanString : Nat → GoString → Option (GoString × GoString)
  | 0, _ => none
  | fuel + 1, s =>
    match s with
    | [] => none
    | c :: rest =>
      if c = 34 then some ([], rest)
      else if c = 92 then
        match rest with
        | [] => none
        | e :: rest2 =>
          if e = 117 then
            match rest2 with
            | h1 :: h2 :: h3 :: h4 :: rest3 =>
              if isHex h1 && isHex h2 && isHex h3 && isHex h4 then
                (scanString fuel rest3).map
                  (fun p => (92 :: 117 :: h1 :: h2 :: h3 :: h4 :: p.1, p.2))
              else none
            | _ => none
          else if e = 34 ∨ e = 92 ∨ e = 47 ∨ e = 98 ∨ e = 102 ∨ e = 110 ∨ e = 114 ∨ e = 116 then
            (scanString fuel rest2).map (fun p => (92 :: e :: p.1, p.2))
          else none
      else if c < 32 then none
      else (scanString fuel rest).map (fun p => (c :: p.1, p.2))

/-- The exponent of a number, after `e` or `E`: optional sign, then digits. -/
def scanExponent (s : GoString) : Option (GoString × GoString) :=
  match s with
  | [] => none
  | c :: rest =>
    let body := if c = 43 ∨ c = 45 then rest else c :: rest
    let sign := if c = 43 ∨ c = 45 then [c] else []
    match body with
    | [] => none
    | d :: _ =>
      if isDigit d then some (sign ++ body.takeWhile isDigit, body.dropWhile isDigit) else none

/-- What may follow the integer part of a number: a fraction, an exponent. -/
def scanFraction (s : GoString) : Option (GoString × GoString) :=
  let afterFrac : Option (GoString × GoString) :=
    match s with
    | 46 :: d :: rest =>
      if isDigit d then
        some (46 :: d :: rest.takeWhile isDigit, rest.dropWhile isDigit)
      else none
    | 46 :: [] => none
    | _ => some ([], s)
  match afterFrac with
  | none => none
  | some (frac, s2) =>
    match s2 with
    | e :: rest =>
      if e = 101 ∨ e = 69 then
        (scanExponent rest).map (fun p => (frac ++ e :: p.1, p.2))
      else some (frac, s2)
    | [] => some (frac, s2)

/-- The scanner on a number without sign: `0` or a digit run that does not
start with `0`, then the optional fraction and exponent. -/
def scanUnsigned (s : GoString) : Option (GoString × GoString) :=
  match s with
  | [] => none
  | d :: rest =>
    if d = 48 then (scanFraction rest).map (fun p => (48 :: p.1, p.2))
    else if isDigit d then
      (scanFraction (rest.dropWhile isDigit)).map
        (fun p => (d :: rest.takeWhile isDigit ++ p.1, p.2))
    else none

/-- The scanner on a number: its text and the input after it. -/
def scanNumber (s : GoString) : Option (GoString × GoString) :=
  match s with
  | [] => none
  | c :: rest =>
    if c = 45 then (scanUnsigned rest).map (fun p => (45 :: p.1, p.2)) else scanUnsigned (c :: rest)

/-- A JSON value as the scanner delimits it: numbers keep their text, strings
their raw body between the quotes. -/
inductive Json where
  | null
  | bool (b : Bool)
  | num (text : GoString)
  | str (body : GoString)
  | arr (items : List Json)
  | obj (members : List (GoString × Json))

/-- Where the parser stands: before a value, inside an array before an
element, or inside an object before a key. -/
inductive Frame where
  | value
  | elems (acc : List Json)
  | members (acc : List (GoString × Json))

/-- The limit `maxNestingDepth` of the scanner. -/
def maxNestingDepth : Nat := 10000

/-- The JSON grammar, as the scanner of `encoding/json` accepts it: the value
read (or the array or object completed) and the input after it. -/
def parseJson : Nat → Nat → Frame → GoString → Option (Json × GoString)
  | 0, _, _, _ => none
  | fuel + 1, depth, .value, s =>
    match skipWs s with
    | [] => none
    | c :: rest =>
      if c = 123 then
        if maxNestingDepth ≤ depth then none
        else
          match skipWs rest with
          | 125 :: rest2 => some (.obj [], rest2)
          | _ => parseJson fuel (depth + 1) (.members []) rest
      else if c = 91 then
        if maxNestingDepth ≤ depth then none
        else
          match skipWs rest with
          | 93 :: rest2 => some (.arr [], rest2)
          | _ => parseJson fuel (depth + 1) (.elems []) rest
      else if c = 34 then (scanString rest.length rest).map (fun p => (.str p.1, p.2))
      else if c = 45 ∨ isDigit c then (scanNumber (c :: rest)).map (fun p => (.num p.1, p.2))
      else if (c :: rest).take 4 = [116, 114, 117, 101] then some (.bool true, rest.drop 3)
      else if (c :: rest).take 5 = [102, 97, 108, 115, 101] then some (.bool false, rest.drop 4)
      else if (c :: rest).take 4 = [110, 117, 108, 108] then some (.null, rest.drop 3)
      else none
  | fuel + 1, depth, .elems acc, s =>
    match parseJson fuel depth .value s with
    | none => none
    | some (v, rest) =>
      match skipWs rest with
      | 44 :: rest2 => parseJson fuel depth (.elems (acc ++ [v])) rest2
      | 93 :: rest2 => some (.arr (acc ++ [v]), rest2)
      | _ => none
  | fuel + 1, depth, .members acc, s =>
    match skipWs s with
    | 34 :: rest =>
      match scanString rest.length rest with
      | none => none
      | some (key, rest2) =>
        match skipWs rest2 with
        | 58 :: rest3 =>
          match parseJson fuel depth .value rest3 with
          | none => none
          | some (v, rest4) =>
            match skipWs rest4 with
            | 44 :: rest5 => parseJson fuel depth (.members (acc ++ [(key, v)])) rest5
            | 125 :: rest5 => some (.obj (acc ++ [(key, v)]), rest5)
            | _ => none
        | _ => none
    | _ => none

/-- A whole document: one value, white space around it, nothing else. -/
def parseDocument (data : GoString) : Option Json :=
  match parseJson (data.length + 1) 0 .value data with
  | some (v, rest) => if skipWs rest = [] then some v else none
  | none => none

/-- The value of a hexadecimal digit. -/
def hexVal (c : Nat) : Nat :=
  if isDigit c then c - 48 else if 97 ≤ c ∧ c ≤ 102 then c - 87 else c - 55

/-- The function `getu4`: the code unit of a leading `\uXXXX`. -/
def getu4 : GoString → Option Nat
  | 92 :: 117 :: a :: b :: c :: d :: _ =>
    if isHex a && isHex b && isHex c && isHex d then
      some (hexVal a * 4096 + hexVal b * 256 + hexVal c * 16 + hexVal d)
    else none
  | _ => none

/-- The function `unquoteBytes` on the raw body of a string literal: escapes
are resolved, an unpaired surrogate escape and every invalid byte becomes
U+FFFD. -/
def unquoteAux : Nat → GoString → Option GoString
  | 0, _ => none
  | fuel + 1, s =>
    match s with
    | [] => some []
    | c :: rest =>
      if c = 92 then
        match rest with
        | [] => none
        | e :: rest2 =>
          if e = 117 then
            match getu4 s with
            | none => none
            | some rr =>
              if 0xD800 ≤ rr ∧ rr < 0xE000 then
                match getu4 (rest2.drop 4) with
                | some rr1 =>
                  if rr < 0xDC00 ∧ 0xDC00 ≤ rr1 ∧ rr1 < 0xE000 then
                    (unquoteAux fuel (rest2.drop 10)).map
                      (encodeRune ((rr - 0xD800) * 1024 + (rr1 - 0xDC00) + 0x10000) ++ ·)
                  else (unquoteAux fuel (rest2.drop 4)).map (encodeRune runeError ++ ·)
                | none => (unquoteAux fuel (rest2.drop 4)).map (encodeRune runeError ++ ·)
              else (unquoteAux fuel (rest2.drop 4)).map (encodeRune rr ++ ·)
          else if e = 34 ∨ e = 92 ∨ e = 47 ∨ e = 39 then (unquoteAux fuel rest2).map (e :: ·)
          else if e = 98 then (unquoteAux fuel rest2).map (8 :: ·)
          else if e = 102 then (unquoteAux fuel rest2).map (12 :: ·)
          else if e = 110 then (unquoteAux fuel rest2).map (10 :: ·)
          else if e = 114 then (unquoteAux fuel rest2).map (13 :: ·)
          else if e = 116 then (unquoteAux fuel rest2).map (9 :: ·)
          else none
      else if c = 34 ∨ c < 32 then none
      else if c < 0x80 then (unquoteAux fuel rest).map (c :: ·)
      else (unquoteAux fuel (s.drop (decodeRune s).2)).map (encodeRune (decodeRune s).1 ++ ·)

/-- The function `unquoteBytes` on a raw string body. -/
def unquote (body : GoString) : Option GoString := unquoteAux (body.length + 1) body

/-- A non-empty run of digits and its value. -/
def parseUintLit (digits : GoString) : Option Nat :=
  if digits ≠ [] ∧ digits.all isDigit = true then some (digitsValue 0 digits) else none

/-- The call `strconv.ParseInt(text, 10, 64)` on the text of a JSON number. -/
def parseIntLit (text : GoString) : Option Int :=
  match text with
  | [] => none
  | c :: rest =>
    match (if c = 45 then (parseUintLit rest).map (fun (v : Nat) => -(v : Int))
           else (parseUintLit (c :: rest)).map (fun (v : Nat) => (v : Int))) with
    | none => none
    | some i => if minInt ≤ i ∧ i ≤ maxInt then some i else none

/-- The function `getnum(s, true)` of package `time`: exactly two digits. -/
def getnum2 : GoString → Option (Nat × GoString)
  | a :: b :: rest =>
    if isDigit a && isDigit b then some ((a - 48) * 10 + (b - 48), rest) else none
  | _ => none

/-- The function `getnum(s, false)` of package `time`: one or two digits. -/
def getnum12 : GoString → Option (Nat × GoString)
  | [] => none
  | [a] => if isDigit a then some (a - 48, []) else none
  | a :: b :: rest =>
    if isDigit a then
      (if isDigit b then some ((a - 48) * 10 + (b - 48), rest) else some (a - 48, b :: rest))
    else none

/-- The four-digit year of the layout element `2006`. -/
def getYear : GoString → Option (Int × GoString)
  | a :: b :: c :: d :: rest =>
    if isDigit a && isDigit b && isDigit c && isDigit d then
      some (((digitsValue 0 [a, b, c, d] : Nat) : Int), rest)
    else none
  | _ => none

/-- One expected byte. -/
def expectByte (c : Nat) : GoString → Option GoString
  | [] => none
  | d :: rest => if d = c then some rest else none

/-- The function `parseNanoseconds` on a run of fraction digits: the first nine
count, scaled to nanoseconds. -/
def nanosOf (ds : GoString) : Nat := digitsValue 0 (ds.take 9) * 10 ^ (9 - (ds.take 9).length)

/-- The optional fractional second: a point or comma followed by digits. -/
def parseFraction (s : GoString) : Nat × GoString :=
  match s with
  | c :: d :: rest =>
    if (c = 46 ∨ c = 44) ∧ isDigit d = true then
      (nanosOf ((d :: rest).takeWhile isDigit), (d :: rest).dropWhile isDigit)
    else (0, s)
  | _ => (0, s)

/-- The zone `Z07:00` at the end of the input: `Z`, or sign, two digits, a
colon, two digits, with hours up to 24 and minutes up to 60; nothing after. -/
def parseZone (s : GoString) : Option Int :=
  match s with
  | [90] => some 0
  | [sg, h1, h2, c, m1, m2] =>
    if c = 58 ∧ (sg = 43 ∨ sg = 45) then
      match getnum2 [h1, h2], getnum2 [m1, m2] with
      | some (hr, _), some (mm, _) =>
        if hr ≤ 24 ∧ mm ≤ 60 then
          some (if sg = 45 then -(((hr * 60 + mm) * 60 : Nat) : Int) else (((hr * 60 + mm) * 60 : Nat) : Int))
        else none
      | _, _ => none
    else none
  | _ => none

/-- The method `Time.UnmarshalJSON` on the raw body of a string literal: the
parse of the layout `2006-01-02T15:04:05Z07:00`. -/
def parseTime (s : GoString) : Option Time :=
  match getYear s with
  | none => none
  | some (year, s) =>
  match expectByte 45 s with
  | none => none
  | some s =>
  match getnum2 s with
  | none => none
  | some (month, s) =>
  match expectByte 45 s with
  | none => none
  | some s =>
  match getnum2 s with
  | none => none
  | some (day, s) =>
  match expectByte 84 s with
  | none => none
  | some s =>
  match getnum12 s with
  | none => none
  | some (hour, s) =>
  match expectByte 58 s with
  | none => none
  | some s =>
  match getnum2 s with
  | none => none
  | some (minute, s) =>
  match expectByte 58 s with
  | none => none
  | some s =>
  match getnum2 s with
  | none => none
  | some (second, s) =>
  match parseZone (parseFraction s).2 with
  | none => none
  | some offset =>
    if 1 ≤ month ∧ month ≤ 12 ∧ hour < 24 ∧ minute < 60 ∧ second < 60
        ∧ 1 ≤ day ∧ day ≤ daysIn month year then
      some ⟨year, month, day, hour, minute, second, (parseFraction s).1, offset⟩
    else none

/-- The fields of `Task` by their JSON names. -/
inductive Field where
  | id
  | description
  | status
  | createdAt
  | updatedAt
deriving DecidableEq, Repr

/-- The representative of a rune under simple case folding, as far as ASCII
names are concerned: letters fold to upper case, U+017F to `S`, U+212A to `K`. -/
def foldRune (r : Nat) : Nat :=
  if 97 ≤ r ∧ r ≤ 122 then r - 32 else if r = 0x17F then 83 else if r = 0x212A then 75 else r

/-- The folded runes of a key. -/
def foldKey : Nat → GoString → List Nat
  | 0, _ => []
  | fuel + 1, s =>
    match s with
    | [] => []
    | _ :: _ => foldRune (decodeRune s).1 :: foldKey fuel (s.drop (decodeRune s).2)

/-- The field a key of an object selects: the field of that name, compared
without regard to case; `none` for an unknown key. -/
def fieldOf (key : GoString) : Option Field :=
  if foldKey key.length key = lit "ID" then some .id
  else if foldKey key.length key = lit "DESCRIPTION" then some .description
  else if foldKey key.length key = lit "STATUS" then some .status
  else if foldKey key.length key = lit "CREATED_AT" then some .createdAt
  else if foldKey key.length key = lit "UPDATED_AT" then some .updatedAt
  else none

/-- The zero `time.Time`: January 1 of year 1, 00:00:00 UTC. -/
def zeroTime : Time := ⟨1, 1, 1, 0, 0, 0, 0, 0⟩

/-- The zero `Task`. -/
def zeroTask : Task := ⟨0, [], [], zeroTime, zeroTime⟩

/-- Storing one value into a field: `null` leaves the field alone, a value of
the wrong kind or a text that does not parse is an error. -/
def setField (t : Task) (f : Field) (v : Json) : Option Task :=
  match f, v with
  | _, .null => some t
  | .id, .num text => (parseIntLit text).map (fun n => { t with ID := n })
  | .description, .str body => (unquote body).map (fun d => { t with Description := d })
  | .status, .str body => (unquote body).map (fun d => { t with Status := d })
  | .createdAt, .str body => (parseTime body).map (fun c => { t with CreatedAt := c })
  | .updatedAt, .str body => (parseTime body).map (fun c => { t with UpdatedAt := c })
  | _, _ => none

/-- Decoding the members of an object into a task, in input order; unknown
keys are skipped. -/
def decodeMembers (t : Task) : List (GoString × Json) → Option Task
  | [] => some t
  | (key, v) :: rest =>
    match unquote key with
    | none => none
    | some k =>
      match fieldOf k with
      | none => decodeMembers t rest
      | some f =>
        match setField t f v with
        | none => none
        | some t2 => decodeMembers t2 rest

/-- Decoding one array element into a fresh task. -/
def decodeElem : Json → Option Task
  | .obj members => decodeMembers zeroTask members
  | .null => some zeroTask
  | _ => none

/-- Decoding every element of the array. -/
def decodeElems : List Json → Option (List Task)
  | [] => some []
  | v :: rest =>
    match decodeElem v, decodeElems rest with
    | some t, some ts => some (t :: ts)
    | _, _ => none

/-- The call `json.Unmarshal(data, &tasks)` on the nil slice: `none` is an
error, `some none` leaves the slice nil (the document `null`), `some (some ts)`
stores the decoded array. -/
def unmarshalTasks (data : GoString) : Option (Option (List Task)) :=
  match parseDocument data with
  | some (.arr items) => (decodeElems items).map some
  | some .null => some none
  | _ => none

/-! ## Persistence and `main` -/

/-- The function `LoadTasks`, run in the fresh process state on the content of
`tasks.json` (`none`: the file does not exist).  The result is the file
afterwards and the state; `none` is the error return.  Reading and writing the
file itself is taken to succeed. -/
def LoadTasks (file : Option GoString) : Option (Option GoString × State) :=
  match file with
  | none => some (some (lit "[]"), initState)
  | some data =>
    match unmarshalTasks data with
    | none => none
    | some none => some (file, { tasks := [], isNil := true, nextID := recomputeNextID [] })
    | some (some ts) => some (file, { tasks := ts, isNil := false, nextID := recomputeNextID ts })

/-- The function `SaveTasks`: the file afterwards, and whether it returned
without error.  On a marshalling error nothing is written. -/
def SaveTasks (s : State) (file : Option GoString) : Option GoString × Bool :=
  match marshalIndent s with
  | some data => (some data, true)
  | none => (file, false)

/-- One validated command line. -/
inductive Command where
  | add (description : GoString)
  | update (id description : GoString)
  | delete (id : GoString)
  | markInProgress (id : GoString)
  | markDone (id : GoString)
  | list (args : List GoString)
deriving DecidableEq, Repr

/-- The `Run` function of the command, without persistence. -/
def runCommand (s : State) (cmd : Command) (c1 c2 : Time) : Outcome :=
  match cmd with
  | .add d => addCmd s d c1 c2
  | .update id d => updateCmd s id d c1
  | .delete id => deleteCmd s id
  | .markInProgress id => markInProgressCmd s id c1
  | .markDone id => markDoneCmd s id c1
  | .list args => listCmd s args

/-- What one process run leaves behind. -/
structure Invocation where
  loaded : Option State
  outcome : Option Outcome
  file : Option GoString
  saveOk : Bool
  exitCode : Nat
deriving DecidableEq, Repr

/-- The function `main` on one command: `LoadTasks`, the command, and, for
every command but `list`, `SaveTasks` through `withTaskPersistence` unless
`log.Fatalf` ended the process first. -/
def main (file : Option GoString) (cmd : Command) (c1 c2 : Time) : Invocation :=
  match LoadTasks file with
  | none => { loaded := none, outcome := none, file := file, saveOk := true, exitCode := 1 }
  | some (file1, s) =>
    let o := runCommand s cmd c1 c2
    match cmd with
    | .list _ => { loaded := some s, outcome := some o, file := file1, saveOk := true, exitCode := 0 }
    | _ =>
      if o.fatal.isSome then
        { loaded := some s, outcome := some o, file := file1, saveOk := true, exitCode := 1 }
      else
        { loaded := some s, outcome := some o, file := (SaveTasks o.state file1).1,
          saveOk := (SaveTasks o.state file1).2, exitCode := 0 }

/-- A sequence of process runs, each starting from the file the previous one
left. -/
def runAll (file : Option GoString) : List (Command × Time × Time) → List Invocation
  | [] => []
  | (cmd, c1, c2) :: rest => main file cmd c1 c2 :: runAll (main file cmd c1 c2).file rest

/-- The id an invocation assigned: the id of the task `add` appended. -/
def Invocation.assigned (cmd : Command) (r : Invocation) : Option Int :=
  match cmd, r.outcome with
  | .add _, some o => o.lastID
  | _, _ => none

/-! ## Well-formedness and the text the encoder writes -/

/-- The shapes of a multi-byte encoding that `decodeRune` accepts. -/
inductive RuneShape : GoString → Nat → Nat → Prop where
  | two (b0 b1 : Nat) (X : GoString) : 0xC2 ≤ b0 → b0 < 0xE0 → 0x80 ≤ b1 → b1 ≤ 0xBF →
      RuneShape (b0 :: b1 :: X) ((b0 - 0xC0) * 64 + (b1 - 0x80)) 2
  | three (b0 b1 b2 : Nat) (X : GoString) : 0xE0 ≤ b0 → b0 < 0xF0 → (b0 = 0xE0 → 0xA0 ≤ b1) →
      (b0 = 0xED → b1 ≤ 0x9F) → 0x80 ≤ b1 → b1 ≤ 0xBF → 0x80 ≤ b2 → b2 ≤ 0xBF →
      RuneShape (b0 :: b1 :: b2 :: X) ((b0 - 0xE0) * 4096 + (b1 - 0x80) * 64 + (b2 - 0x80)) 3
  | four (b0 b1 b2 b3 : Nat) (X : GoString) : 0xF0 ≤ b0 → b0 < 0xF5 → (b0 = 0xF0 → 0x90 ≤ b1) →
      (b0 = 0xF4 → b1 ≤ 0x8F) → 0x80 ≤ b1 → b1 ≤ 0xBF → 0x80 ≤ b2 → b2 ≤ 0xBF →
      0x80 ≤ b3 → b3 ≤ 0xBF →
      RuneShape (b0 :: b1 :: b2 :: b3 :: X)
        ((b0 - 0xF0) * 262144 + (b1 - 0x80) * 4096 + (b2 - 0x80) * 64 + (b3 - 0x80)) 4

/-- The chunk `appendStringAux` writes for one ASCII byte. -/
def asciiChunk (b : Nat) : GoString :=
  if htmlSafe b then [b]
  else if b = 92 ∨ b = 34 then [92, b]
  else if b = 8 then [92, 98]
  else if b = 12 then [92, 102]
  else if b = 10 then [92, 110]
  else if b = 13 then [92, 114]
  else if b = 9 then [92, 116]
  else [92, 117, 48, 48, hexDigit (b / 16), hexDigit (b % 16)]

/-- A civil time as every `time.Time` holds one: a month, a day of that month,
and a clock reading in range. -/
def Time.wellFormed (t : Time) : Prop :=
  1 ≤ t.month ∧ t.month ≤ 12 ∧ 1 ≤ t.day ∧ t.day ≤ daysIn t.month t.year
    ∧ t.hour < 24 ∧ t.minute < 60 ∧ t.second < 60 ∧ t.nsec < 1000000000

instance instDecidableTimeWellFormed (t : Time) : Decidable t.wellFormed := by
  unfold Time.wellFormed
  infer_instance

/-- A time that RFC 3339 can carry: a year of four digits and a zone offset of
whole minutes within a day. -/
def Time.marshalable (t : Time) : Prop :=
  t.wellFormed ∧ 0 ≤ t.year ∧ t.year ≤ 9999 ∧ t.offset % 60 = 0
    ∧ -86400 < t.offset ∧ t.offset < 86400

instance instDecidableTimeMarshalable (t : Time) : Decidable t.marshalable := by
  unfold Time.marshalable
  infer_instance

/-- The value the scanner delimits for one task written by `marshalTask`. -/
def taskJson (t : Task) : Json :=
  .obj [(lit "id", .num (fmtInt t.ID)),
        (lit "description", .str (appendStringAux t.Description.length t.Description)),
        (lit "status", .str (appendStringAux t.Status.length t.Status)),
        (lit "created_at", .str (appendFormatRFC3339 t.CreatedAt)),
        (lit "updated_at", .str (appendFormatRFC3339 t.UpdatedAt))]

/-- A task whose fields `MarshalIndent` and `Unmarshal` carry unchanged: an id
within `int`, description and status valid UTF-8, both timestamps
marshalable. -/
def Task.portable (t : Task) : Prop :=
  minInt ≤ t.ID ∧ t.ID ≤ maxInt ∧ validUTF8 t.Description = true ∧ validUTF8 t.Status = true
    ∧ t.CreatedAt.marshalable ∧ t.UpdatedAt.marshalable

instance instDecidableTaskPortable (t : Task) : Decidable t.portable := by
  unfold Task.portable
  infer_instance

/-- One member of an indented object after the brace or comma before it: the
new line, four spaces, the quoted key, the colon, a space, and what follows. -/
def memberText (key valueAndRest : GoString) : GoString :=
  10 :: 32 :: 32 :: 32 :: 32 :: 34 :: (key ++ 34 :: 58 :: 32 :: valueAndRest)

/-- The text `marshalTask` writes for a task, followed by `tail`. -/
def taskText (t : Task) (tail : GoString) : GoString :=
  123 :: memberText (lit "id") (fmtInt t.ID ++ 44 ::
    memberText (lit "description")
      (34 :: (appendStringAux t.Description.length t.Description ++ 34 :: 44 ::
    memberText (lit "status")
      (34 :: (appendStringAux t.Status.length t.Status ++ 34 :: 44 ::
    memberText (lit "created_at")
      (34 :: (appendFormatRFC3339 t.CreatedAt ++ 34 :: 44 ::
    memberText (lit "updated_at")
      (34 :: (appendFormatRFC3339 t.UpdatedAt ++ 34 :: 10 :: 32 :: 32 :: 125 :: tail)))))))))

/-- The text `marshalElems` writes for a non-empty list of tasks, followed by
`tail`. -/
def elemsText : List Task → GoString → GoString
  | [], tail => tail
  | [t], tail => taskText t tail
  | t :: rest, tail => taskText t (44 :: 10 :: 32 :: 32 :: elemsText rest tail)

/-! ## Predicates on stores and snapshots -/

/-- The closed set of status values: `todo`, `in-progress`, `done`. -/
def closedStatus (st : GoString) : Prop :=
  st = lit "todo" ∨ st = lit "in-progress" ∨ st = lit "done"

instance instDecidableClosedStatus (st : GoString) : Decidable (closedStatus st) := by
  unfold closedStatus
  infer_instance

/-- Every task of the state has a status of the closed set. -/
def State.statusesClosed (s : State) : Prop := ∀ t ∈ s.tasks, closedStatus t.Status

instance instDecidableStatusesClosed (s : State) : Decidable s.statusesClosed := by
  unfold State.statusesClosed
  infer_instance

/-- The snapshot, if `LoadTasks` accepts it, loads to a state whose statuses are
all of the closed set. -/
def fileStatusesClosed (file : Option GoString) : Prop :=
  match LoadTasks file with
  | none => True
  | some (_, s) => s.statusesClosed

instance instDecidableFileStatusesClosed (file : Option GoString) :
    Decidable (fileStatusesClosed file) := by
  unfold fileStatusesClosed
  split <;> infer_instance

/-- Days from January 1 of year 1 to January 1 of `year`, as `daysSinceEpoch`
of package `time` counts them in the proleptic Gregorian calendar. -/
def daysBeforeYear (year : Int) : Int :=
  365 * (year - 1) + (year - 1) / 4 - (year - 1) / 100 + (year - 1) / 400

/-- The table `daysBefore` of package `time`: days of a non-leap year before
the month. -/
def daysBefore (month : Nat) : Nat :=
  match month with
  | 1 => 0
  | 2 => 31
  | 3 => 59
  | 4 => 90
  | 5 => 120
  | 6 => 151
  | 7 => 181
  | 8 => 212
  | 9 => 243
  | 10 => 273
  | 11 => 304
  | _ => 334

/-- The instant of a time, as `time.Date` computes it from the civil fields and
the zone offset: nanoseconds since January 1 of year 1, 00:00:00 UTC.  The
comparisons of package `time` compare instants. -/
def Time.instant (t : Time) : Int :=
  ((daysBeforeYear t.year + (daysBefore t.month : Nat)
      + (if isLeap t.year = true ∧ 3 ≤ t.month then 1 else 0) + ((t.day : Int) - 1)) * 86400
    + (t.hour : Int) * 3600 + (t.minute : Int) * 60 + (t.second : Int) - t.offset) * 1000000000
  + (t.nsec : Int)

/-- The data-model invariant `updated_at >= created_at` on every task. -/
def State.updatedAfterCreated (s : State) : Prop :=
  ∀ t ∈ s.tasks, t.CreatedAt.instant ≤ t.UpdatedAt.instant

instance instDecidableUpdatedAfterCreated (s : State) : Decidable s.updatedAfterCreated := by
  unfold State.updatedAfterCreated
  infer_instance

/-- The counter is at least 1 and above every id in the store. -/
def State.nextIDDominates (s : State) : Prop :=
  1 ≤ s.nextID ∧ ∀ t ∈ s.tasks, t.ID < s.nextID

instance instDecidableNextIDDominates (s : State) : Decidable s.nextIDDominates := by
  unfold State.nextIDDominates
  infer_instance

/-! ## Theorems -/

theorem wrapInt_of_range (x : Int) (h1 : minInt ≤ x) (h2 : x ≤ maxInt) : wrapInt x = x := by
  unfold wrapInt
  unfold minInt at h1
  unfold maxInt at h2
  omega

theorem maxIDLoop_ge_start (a : Int) (ts : List Task) : a ≤ maxIDLoop a ts := by
  induction ts generalizing a with
  | nil => simp [maxIDLoop]
  | cons t rest ih =>
    simp only [maxIDLoop]
    split
    · have := ih t.ID; omega
    · exact ih a

theorem maxIDLoop_ge_mem (a : Int) (ts : List Task) : ∀ t ∈ ts, t.ID ≤ maxIDLoop a ts := by
  induction ts generalizing a with
  | nil => simp
  | cons t rest ih =>
    intro u hu
    simp only [maxIDLoop]
    rcases List.mem_cons.mp hu with h | h
    · subst h
      split
      · exact maxIDLoop_ge_start _ _
      · have := maxIDLoop_ge_start a rest; omega
    · exact ih _ u h

theorem maxIDLoop_attained (a : Int) (ts : List Task) :
    maxIDLoop a ts = a ∨ ∃ t ∈ ts, t.ID = maxIDLoop a ts := by
  induction ts generalizing a with
  | nil => simp [maxIDLoop]
  | cons t rest ih =>
    simp only [maxIDLoop]
    split
    · rcases ih t.ID with h | ⟨u, hu, h⟩
      · exact Or.inr ⟨t, List.mem_cons_self _ _, h.symm⟩
      · exact Or.inr ⟨u, List.mem_cons_of_mem _ hu, h⟩
    · rcases ih a with h | ⟨u, hu, h⟩
      · exact Or.inl h
      · exact Or.inr ⟨u, List.mem_cons_of_mem _ hu, h⟩

theorem maxIDLoop_eq_of_isMaxID (ts : List Task) (M : Int) (h : IsMaxID ts M) (h0 : 0 ≤ M) :
    maxIDLoop 0 ts = M := by
  rcases h with ⟨h1, h2⟩ | ⟨⟨t, ht, hM⟩, hle⟩
  · subst h1; subst h2; rfl
  · have hge := maxIDLoop_ge_mem 0 ts t ht
    rcases maxIDLoop_attained 0 ts with h | ⟨u, hu, h⟩
    · omega
    · have := hle u hu
      omega

theorem addSteps_from (s : State) (args : List (GoString × Time × Time)) (n : Int)
    (hn : s.nextID = n) (hlo : minInt ≤ n) (hhi : n + args.length ≤ maxInt + 1) :
    (addSteps s args).map (fun o => (o.stdout, o.lastID, o.fatal))
      = (List.range args.length).map (fun k : Nat => ([addedLine (n + (k : Int))], some (n + (k : Int)), (none : Option ScanError))) := by
  induction args generalizing s n with
  | nil => simp [addSteps]
  | cons a rest ih =>
    obtain ⟨d, c1, c2⟩ := a
    have hhead : ((addCmd s d c1 c2).stdout, (addCmd s d c1 c2).lastID, (addCmd s d c1 c2).fatal)
        = ([addedLine (n + (0 : Nat))], some (n + (0 : Nat)), none) := by
      simp [addCmd, Outcome.lastID, addedLine, hn]
    cases rest with
    | nil =>
      simp only [addSteps, List.map_cons, List.map_nil, List.length_cons, List.length_nil,
        Nat.zero_add, hhead]
      rfl
    | cons b rest2 =>
      simp only [List.length_cons, Nat.cast_add, Nat.cast_one] at hhi
      have hlen : (0 : Int) ≤ (rest2.length : Int) := Int.ofNat_nonneg _
      have hstep : (addCmd s d c1 c2).state.nextID = n + 1 := by
        simp only [addCmd, hn]
        apply wrapInt_of_range
        · omega
        · omega
      have ih2 := ih (addCmd s d c1 c2).state (n + 1) hstep (by omega)
        (by simp only [List.length_cons, Nat.cast_add, Nat.cast_one]; omega)
      rw [addSteps, List.map_cons, ih2, hhead]
      rw [List.length_cons (d, c1, c2), List.range_succ_eq_map (b :: rest2).length, List.map_cons,
        List.map_map]
      congr 1
      apply List.map_congr_left
      intro k _
      simp only [Function.comp, Nat.cast_succ]
      have : n + 1 + (k : Int) = n + ((k : Int) + 1) := by omega
      rw [this]

/-- C1 (counterexample): a loaded store whose only task has id -5 has maximum
id -5, yet the first task added receives id 1, not -4. -/
theorem id_monotonicity_fails_below_zero :
    IsMaxID [⟨-5, lit "a", lit "todo", ⟨2024, 1, 1, 0, 0, 0, 0, 0⟩, ⟨2024, 1, 1, 0, 0, 0, 0, 0⟩⟩] (-5)
    ∧ (addCmd ⟨[⟨-5, lit "a", lit "todo", ⟨2024, 1, 1, 0, 0, 0, 0, 0⟩, ⟨2024, 1, 1, 0, 0, 0, 0, 0⟩⟩],
          false,
          recomputeNextID [⟨-5, lit "a", lit "todo", ⟨2024, 1, 1, 0, 0, 0, 0, 0⟩, ⟨2024, 1, 1, 0, 0, 0, 0, 0⟩⟩]⟩
        (lit "b") ⟨2024, 1, 2, 0, 0, 0, 0, 0⟩ ⟨2024, 1, 2, 0, 0, 0, 0, 0⟩).lastID = some 1
    ∧ (1 : Int) ≠ -5 + 1 := by
  decide

/-- C1 (amended): for every loaded store whose maximum id `M` is not negative
(`M = 0` for the empty store) and every run of `N` successive add steps with
`M + N` within the 64-bit `int`, step `k` (counted from 0) prints and assigns
the id `M + 1 + k`: the ids are `M+1, ..., M+N` in order, without gap or repeat. -/
theorem id_monotonicity (s : State) (M : Int) (args : List (GoString × Time × Time))
    (hload : s.nextID = recomputeNextID s.tasks) (hM : IsMaxID s.tasks M) (h0 : 0 ≤ M)
    (hN : M + args.length ≤ maxInt) :
    (addSteps s args).map (fun o => (o.stdout, o.lastID, o.fatal))
      = (List.range args.length).map (fun k : Nat => ([addedLine (M + 1 + (k : Int))], some (M + 1 + (k : Int)), (none : Option ScanError))) := by
  have hmax := maxIDLoop_eq_of_isMaxID s.tasks M hM h0
  cases args with
  | nil => simp [addSteps]
  | cons a rest =>
    have hnext : s.nextID = M + 1 := by
      rw [hload, recomputeNextID, hmax]
      simp only [List.length_cons, Nat.cast_add, Nat.cast_one] at hN
      have : (0 : Int) ≤ (rest.length : Int) := Int.ofNat_nonneg _
      apply wrapInt_of_range
      · unfold minInt; omega
      · omega
    exact addSteps_from s (a :: rest) (M + 1) hnext (by unfold minInt; omega) (by omega)

/-- C1 (witness): the store holding ids 1 and 3, then three adds. -/
theorem id_monotonicity_witness :
    (addSteps ⟨[⟨1, lit "a", lit "todo", ⟨2024, 1, 1, 0, 0, 0, 0, 0⟩, ⟨2024, 1, 1, 0, 0, 0, 0, 0⟩⟩,
                ⟨3, lit "b", lit "done", ⟨2024, 1, 1, 0, 0, 0, 0, 0⟩, ⟨2024, 1, 1, 0, 0, 0, 0, 0⟩⟩],
               false, 4⟩
        [(lit "x", ⟨2024, 1, 2, 0, 0, 0, 0, 0⟩, ⟨2024, 1, 2, 0, 0, 0, 0, 0⟩),
         (lit "y", ⟨2024, 1, 2, 0, 0, 0, 0, 0⟩, ⟨2024, 1, 2, 0, 0, 0, 0, 0⟩),
         (lit "z", ⟨2024, 1, 2, 0, 0, 0, 0, 0⟩, ⟨2024, 1, 2, 0, 0, 0, 0, 0⟩)]).map
        (fun o => (o.stdout, o.lastID, o.fatal))
      = (List.range 3).map (fun k : Nat => ([addedLine (3 + 1 + (k : Int))], some (3 + 1 + (k : Int)), (none : Option ScanError))) :=
  id_monotonicity _ 3 _ (by decide) (by decide) (by decide) (by decide)

theorem deleteLoop_eq_none (id : Int) (ts : List Task) (h : ∀ t ∈ ts, t.ID ≠ id) :
    deleteLoop id ts = none := by
  induction ts with
  | nil => rfl
  | cons t rest ih =>
    have ht : t.ID ≠ id := h t (List.mem_cons_self _ _)
    simp only [deleteLoop, if_neg ht, ih (fun u hu => h u (List.mem_cons_of_mem _ hu)),
      Option.map_none']

theorem updateLoop_eq_none (id : Int) (d : GoString) (now : Time) (ts : List Task)
    (h : ∀ t ∈ ts, t.ID ≠ id) : updateLoop id d now ts = none := by
  induction ts with
  | nil => rfl
  | cons t rest ih =>
    have ht : t.ID ≠ id := h t (List.mem_cons_self _ _)
    simp only [updateLoop, if_neg ht, ih (fun u hu => h u (List.mem_cons_of_mem _ hu)),
      Option.map_none']

theorem statusLoop_eq_none (id : Int) (st : GoString) (now : Time) (ts : List Task)
    (h : ∀ t ∈ ts, t.ID ≠ id) : statusLoop id st now ts = none := by
  induction ts with
  | nil => rfl
  | cons t rest ih =>
    have ht : t.ID ≠ id := h t (List.mem_cons_self _ _)
    simp only [statusLoop, if_neg ht, ih (fun u hu => h u (List.mem_cons_of_mem _ hu)),
      Option.map_none']

theorem filter_ne_eq_self (id : Int) (ts : List Task) (h : ∀ t ∈ ts, t.ID ≠ id) :
    ts.filter (fun t => decide (t.ID ≠ id)) = ts := by
  apply List.filter_eq_self.mpr
  intro t ht
  exact decide_eq_true (h t ht)

theorem deleteLoop_of_count_one (id : Int) (ts : List Task)
    (h : ts.countP (fun t => decide (t.ID = id)) = 1) :
    deleteLoop id ts = some (ts.filter (fun t => decide (t.ID ≠ id))) := by
  induction ts with
  | nil => simp at h
  | cons t rest ih =>
    by_cases ht : t.ID = id
    · have h0 : rest.countP (fun t => decide (t.ID = id)) = 0 := by
        rw [List.countP_cons_of_pos _ _ (by simpa using ht)] at h
        omega
      have hall : ∀ u ∈ rest, u.ID ≠ id := by
        intro u hu hEq
        have := List.countP_eq_zero.mp h0 u hu
        simp [hEq] at this
      simp only [deleteLoop, if_pos ht]
      rw [List.filter_cons_of_neg (by simpa using ht), filter_ne_eq_self id rest hall]
    · rw [List.countP_cons_of_neg _ _ (by simpa using ht)] at h
      simp only [deleteLoop, if_neg ht, ih h, Option.map_some']
      rw [List.filter_cons_of_pos (by simpa using ht)]

theorem deleteLoop_length (id : Int) (ts r : List Task) (h : deleteLoop id ts = some r) :
    r.length + 1 = ts.length := by
  induction ts generalizing r with
  | nil => simp [deleteLoop] at h
  | cons t rest ih =>
    simp only [deleteLoop] at h
    split at h
    · simp only [Option.some.injEq] at h
      subst h
      simp
    · cases hr : deleteLoop id rest with
      | none => simp [hr] at h
      | some r2 =>
        simp only [hr, Option.map_some', Option.some.injEq] at h
        subst h
        simp only [List.length_cons]
        have := ih r2 hr
        omega

/-- C2 (counterexample): in a store where two tasks carry id 1, `delete 1`
leaves a task with id 1 in the store. -/
theorem delete_leaves_duplicate :
    (∃ t ∈ [(⟨1, lit "a", lit "todo", ⟨2024, 1, 1, 0, 0, 0, 0, 0⟩, ⟨2024, 1, 1, 0, 0, 0, 0, 0⟩⟩ : Task),
            ⟨1, lit "b", lit "todo", ⟨2024, 1, 1, 0, 0, 0, 0, 0⟩, ⟨2024, 1, 1, 0, 0, 0, 0, 0⟩⟩], t.ID = 1)
    ∧ ¬ (∀ t ∈ (deleteCmd
          ⟨[⟨1, lit "a", lit "todo", ⟨2024, 1, 1, 0, 0, 0, 0, 0⟩, ⟨2024, 1, 1, 0, 0, 0, 0, 0⟩⟩,
            ⟨1, lit "b", lit "todo", ⟨2024, 1, 1, 0, 0, 0, 0, 0⟩, ⟨2024, 1, 1, 0, 0, 0, 0, 0⟩⟩],
           false, 2⟩ (lit "1")).state.tasks, t.ID ≠ 1) := by
  decide

/-- C2 (amended): for every store and every id `X` that exactly one task of the
store carries, after `delete X` no task with id `X` is in the store and the
store is the old one without that task: every other task is still there with
all its fields, in the same relative order (and the counter is untouched). -/
theorem delete_removes_exactly_one (s : State) (idArg : GoString) (X : Int)
    (harg : scanInt idArg = .ok X)
    (hone : s.tasks.countP (fun t => decide (t.ID = X)) = 1) :
    (∀ t ∈ (deleteCmd s idArg).state.tasks, t.ID ≠ X)
    ∧ (deleteCmd s idArg).state.tasks = s.tasks.filter (fun t => decide (t.ID ≠ X))
    ∧ (deleteCmd s idArg).state.tasks.length + 1 = s.tasks.length
    ∧ (deleteCmd s idArg).state.nextID = s.nextID
    ∧ (deleteCmd s idArg).stdout = [lit "Task " ++ fmtInt X ++ lit " deleted successfully\n"]
    ∧ (deleteCmd s idArg).fatal = none := by
  have hdel := deleteLoop_of_count_one X s.tasks hone
  have htasks : (deleteCmd s idArg).state.tasks = s.tasks.filter (fun t => decide (t.ID ≠ X)) := by
    simp only [deleteCmd, harg, hdel]
  refine ⟨?_, htasks, ?_, ?_, ?_, ?_⟩
  · intro t ht
    rw [htasks] at ht
    simpa using (List.mem_filter.mp ht).2
  · rw [htasks]
    exact deleteLoop_length X s.tasks _ hdel
  · simp only [deleteCmd, harg, hdel]
  · simp only [deleteCmd, harg, hdel]
  · simp only [deleteCmd, harg, hdel]

/-- C2 (witness): deleting id 2 from the store with ids 1, 2, 3. -/
theorem delete_removes_exactly_one_witness :
    (deleteCmd ⟨[⟨1, lit "a", lit "todo", ⟨2024, 1, 1, 0, 0, 0, 0, 0⟩, ⟨2024, 1, 1, 0, 0, 0, 0, 0⟩⟩,
                 ⟨2, lit "b", lit "done", ⟨2024, 1, 1, 0, 0, 0, 0, 0⟩, ⟨2024, 1, 3, 0, 0, 0, 0, 0⟩⟩,
                 ⟨3, lit "c", lit "todo", ⟨2024, 1, 2, 0, 0, 0, 0, 0⟩, ⟨2024, 1, 2, 0, 0, 0, 0, 0⟩⟩],
                false, 4⟩ (lit "2")).state.tasks
      = [⟨1, lit "a", lit "todo", ⟨2024, 1, 1, 0, 0, 0, 0, 0⟩, ⟨2024, 1, 1, 0, 0, 0, 0, 0⟩⟩,
         ⟨3, lit "c", lit "todo", ⟨2024, 1, 2, 0, 0, 0, 0, 0⟩, ⟨2024, 1, 2, 0, 0, 0, 0, 0⟩⟩] :=
  (delete_removes_exactly_one _ (lit "2") 2 (by decide) (by decide)).2.1.trans (by decide)

/-- C3: for every store and every id that no task of the store carries, update,
delete, mark-in-progress and mark-done leave the whole state (task list and
counter) as it was, print `Task <id> not found`, and do not end fatally. -/
theorem not_found_is_non_fatal (s : State) (idArg d : GoString) (now : Time) (id : Int)
    (harg : scanInt idArg = .ok id) (habsent : ∀ t ∈ s.tasks, t.ID ≠ id) :
    updateCmd s idArg d now = ⟨s, [notFoundLine id], none⟩
    ∧ deleteCmd s idArg = ⟨s, [notFoundLine id], none⟩
    ∧ markInProgressCmd s idArg now = ⟨s, [notFoundLine id], none⟩
    ∧ markDoneCmd s idArg now = ⟨s, [notFoundLine id], none⟩ := by
  refine ⟨?_, ?_, ?_, ?_⟩
  · simp only [updateCmd, harg, updateLoop_eq_none id d now s.tasks habsent, notFoundLine]
  · simp only [deleteCmd, harg, deleteLoop_eq_none id s.tasks habsent, notFoundLine]
  · simp only [markInProgressCmd, updateTaskStatus, harg,
      statusLoop_eq_none id _ now s.tasks habsent, notFoundLine]
  · simp only [markDoneCmd, updateTaskStatus, harg,
      statusLoop_eq_none id _ now s.tasks habsent, notFoundLine]

/-- C3 (witness): id 7 in a store that holds ids 1 and 2 only. -/
theorem not_found_is_non_fatal_witness :
    (deleteCmd ⟨[⟨1, lit "a", lit "todo", ⟨2024, 1, 1, 0, 0, 0, 0, 0⟩, ⟨2024, 1, 1, 0, 0, 0, 0, 0⟩⟩,
                 ⟨2, lit "b", lit "done", ⟨2024, 1, 1, 0, 0, 0, 0, 0⟩, ⟨2024, 1, 3, 0, 0, 0, 0, 0⟩⟩],
                false, 3⟩ (lit "7")).stdout = [lit "Task 7 not found\n"] :=
  (congrArg Outcome.stdout
    (not_found_is_non_fatal _ (lit "7") (lit "x") ⟨2024, 1, 4, 0, 0, 0, 0, 0⟩ 7 (by decide)
      (by decide)).2.1).trans (by decide)

theorem listLoop_eq_filter (f : GoString) (ts : List Task) :
    listLoop f ts = (ts.filter (fun t => decide (f = [] ∨ t.Status = f))).map rowLine := by
  induction ts with
  | nil => rfl
  | cons t rest ih =>
    by_cases h : f = [] ∨ t.Status = f
    · rw [listLoop, if_pos h, List.filter_cons_of_pos (by simpa using h), List.map_cons, ih]
    · rw [listLoop, if_neg h, List.filter_cons_of_neg (by simpa using h), ih]

/-- C4: `list` never changes the state.  With a non-empty filter `f` the rows
printed between the two header lines and the closing blank line are exactly the
rows of the tasks whose status equals `f`, in store order; with no filter or the
empty filter they are the rows of all tasks, in store order (for the empty store
there are no rows: it prints `No tasks found`). -/
theorem list_filter_correct (s : State) (f : GoString) :
    (listCmd s [f]).state = s ∧ (listCmd s []).state = s
    ∧ (listCmd s [f]).stdout =
        (if s.tasks = [] then [lit "No tasks found\n"]
         else [lit "\nID\tStatus\t\tCreated\t\t\tDescription\n",
               lit "--\t------\t\t-------\t\t\t-----------\n"]
              ++ (if f = [] then s.tasks
                  else s.tasks.filter (fun t => decide (t.Status = f))).map rowLine
              ++ [lit "\n"])
    ∧ (listCmd s []).stdout =
        (if s.tasks = [] then [lit "No tasks found\n"]
         else [lit "\nID\tStatus\t\tCreated\t\t\tDescription\n",
               lit "--\t------\t\t-------\t\t\t-----------\n"]
              ++ s.tasks.map rowLine ++ [lit "\n"]) := by
  have hall : listLoop [] s.tasks = s.tasks.map rowLine := by
    rw [listLoop_eq_filter]
    simp
  have hf : listLoop f s.tasks
      = (if f = [] then s.tasks else s.tasks.filter (fun t => decide (t.Status = f))).map rowLine := by
    by_cases h : f = []
    · subst h
      simpa using hall
    · rw [listLoop_eq_filter, if_neg h]
      simp [h]
  refine ⟨?_, ?_, ?_, ?_⟩
  · simp only [listCmd]; split <;> rfl
  · simp only [listCmd]; split <;> rfl
  · by_cases h : s.tasks = []
    · simp [listCmd, h]
    · have hlen : ¬ s.tasks.length = 0 := by simpa using h
      simp only [listCmd, if_neg hlen, if_neg h, hf]
  · by_cases h : s.tasks = []
    · simp [listCmd, h]
    · have hlen : ¬ s.tasks.length = 0 := by simpa using h
      simp only [listCmd, if_neg hlen, if_neg h, hall]

theorem exists_first_match (id : Int) (ts : List Task) (h : ∃ t ∈ ts, t.ID = id) :
    ∃ pre t post, ts = pre ++ t :: post ∧ (∀ u ∈ pre, u.ID ≠ id) ∧ t.ID = id := by
  induction ts with
  | nil => simp at h
  | cons a rest ih =>
    by_cases ha : a.ID = id
    · exact ⟨[], a, rest, rfl, by simp, ha⟩
    · have hrest : ∃ t ∈ rest, t.ID = id := by
        obtain ⟨t, ht, hid⟩ := h
        rcases List.mem_cons.mp ht with h1 | h1
        · subst h1; exact absurd hid ha
        · exact ⟨t, h1, hid⟩
      obtain ⟨pre, t, post, hsplit, hpre, ht⟩ := ih hrest
      refine ⟨a :: pre, t, post, by rw [hsplit]; rfl, ?_, ht⟩
      intro u hu
      rcases List.mem_cons.mp hu with h1 | h1
      · subst h1; exact ha
      · exact hpre u h1

theorem updateLoop_first_match (id : Int) (d : GoString) (now : Time) (pre post : List Task)
    (t : Task) (hpre : ∀ u ∈ pre, u.ID ≠ id) (ht : t.ID = id) :
    updateLoop id d now (pre ++ t :: post)
      = some (pre ++ ⟨t.ID, d, t.Status, t.CreatedAt, now⟩ :: post) := by
  induction pre with
  | nil => simp [updateLoop, ht]
  | cons a pre ih =>
    have ha : a.ID ≠ id := hpre a (List.mem_cons_self _ _)
    rw [List.cons_append, updateLoop, if_neg ha, ih (fun u hu => hpre u (List.mem_cons_of_mem _ hu))]
    rfl

theorem statusLoop_first_match (id : Int) (st : GoString) (now : Time) (pre post : List Task)
    (t : Task) (hpre : ∀ u ∈ pre, u.ID ≠ id) (ht : t.ID = id) :
    statusLoop id st now (pre ++ t :: post)
      = some (pre ++ ⟨t.ID, t.Description, st, t.CreatedAt, now⟩ :: post) := by
  induction pre with
  | nil => simp [statusLoop, ht]
  | cons a pre ih =>
    have ha : a.ID ≠ id := hpre a (List.mem_cons_self _ _)
    rw [List.cons_append, statusLoop, if_neg ha, ih (fun u hu => hpre u (List.mem_cons_of_mem _ hu))]
    rfl

theorem deleteLoop_first_match (id : Int) (pre post : List Task)
    (t : Task) (hpre : ∀ u ∈ pre, u.ID ≠ id) (ht : t.ID = id) :
    deleteLoop id (pre ++ t :: post) = some (pre ++ post) := by
  induction pre with
  | nil => simp [deleteLoop, ht]
  | cons a pre ih =>
    have ha : a.ID ≠ id := hpre a (List.mem_cons_self _ _)
    rw [List.cons_append, deleteLoop, if_neg ha, ih (fun u hu => hpre u (List.mem_cons_of_mem _ hu))]
    rfl

theorem updateLoop_ids (id : Int) (d : GoString) (now : Time) (ts r : List Task)
    (h : updateLoop id d now ts = some r) : r.map (·.ID) = ts.map (·.ID) := by
  have hex : ∃ t ∈ ts, t.ID = id := by
    by_contra hne
    rw [updateLoop_eq_none id d now ts (fun t ht hid => hne ⟨t, ht, hid⟩)] at h
    cases h
  obtain ⟨pre, t, post, hsplit, hpre, ht⟩ := exists_first_match id ts hex
  rw [hsplit, updateLoop_first_match id d now pre post t hpre ht] at h
  cases h
  rw [hsplit]
  simp

theorem statusLoop_ids (id : Int) (st : GoString) (now : Time) (ts r : List Task)
    (h : statusLoop id st now ts = some r) : r.map (·.ID) = ts.map (·.ID) := by
  have hex : ∃ t ∈ ts, t.ID = id := by
    by_contra hne
    rw [statusLoop_eq_none id st now ts (fun t ht hid => hne ⟨t, ht, hid⟩)] at h
    cases h
  obtain ⟨pre, t, post, hsplit, hpre, ht⟩ := exists_first_match id ts hex
  rw [hsplit, statusLoop_first_match id st now pre post t hpre ht] at h
  cases h
  rw [hsplit]
  simp

theorem deleteLoop_sublist (id : Int) (ts r : List Task) (h : deleteLoop id ts = some r) :
    r.Sublist ts := by
  have hex : ∃ t ∈ ts, t.ID = id := by
    by_contra hne
    rw [deleteLoop_eq_none id ts (fun t ht hid => hne ⟨t, ht, hid⟩)] at h
    cases h
  obtain ⟨pre, t, post, hsplit, hpre, ht⟩ := exists_first_match id ts hex
  rw [hsplit, deleteLoop_first_match id pre post t hpre ht] at h
  cases h
  rw [hsplit]
  exact List.Sublist.append_left (List.sublist_cons_self t post) pre

theorem updateCmd_ids_nodup (s : State) (a d : GoString) (now : Time)
    (h : (s.tasks.map (·.ID)).Nodup) : ((updateCmd s a d now).state.tasks.map (·.ID)).Nodup := by
  unfold updateCmd
  split
  · exact h
  · split
    · next ts hts => simpa [updateLoop_ids _ _ _ _ _ hts] using h
    · exact h

theorem updateTaskStatus_ids_nodup (s : State) (a st : GoString) (now : Time)
    (h : (s.tasks.map (·.ID)).Nodup) :
    ((updateTaskStatus s a st now).state.tasks.map (·.ID)).Nodup := by
  unfold updateTaskStatus
  split
  · exact h
  · split
    · next ts hts => simpa [statusLoop_ids _ _ _ _ _ hts] using h
    · exact h

theorem deleteCmd_ids_nodup (s : State) (a : GoString)
    (h : (s.tasks.map (·.ID)).Nodup) : ((deleteCmd s a).state.tasks.map (·.ID)).Nodup := by
  unfold deleteCmd
  split
  · exact h
  · split
    · next ts hts => exact List.Nodup.sublist ((deleteLoop_sublist _ _ _ hts).map _) h
    · exact h

theorem listCmd_state (s : State) (args : List GoString) : (listCmd s args).state = s := by
  simp only [listCmd]; split <;> rfl

/-- C6 (counterexample): the loaded store with the two distinct ids 2^63-1 and
-2^63; the counter wraps to -2^63, and `add` stores a second task with that id. -/
theorem id_uniqueness_fails_at_wrap :
    ([(⟨9223372036854775807, lit "a", lit "todo", ⟨2024, 1, 1, 0, 0, 0, 0, 0⟩, ⟨2024, 1, 1, 0, 0, 0, 0, 0⟩⟩ : Task),
      ⟨-9223372036854775808, lit "b", lit "todo", ⟨2024, 1, 1, 0, 0, 0, 0, 0⟩, ⟨2024, 1, 1, 0, 0, 0, 0, 0⟩⟩].map
        (·.ID)).Nodup
    ∧ ¬ ((addCmd
          ⟨[⟨9223372036854775807, lit "a", lit "todo", ⟨2024, 1, 1, 0, 0, 0, 0, 0⟩, ⟨2024, 1, 1, 0, 0, 0, 0, 0⟩⟩,
            ⟨-9223372036854775808, lit "b", lit "todo", ⟨2024, 1, 1, 0, 0, 0, 0, 0⟩, ⟨2024, 1, 1, 0, 0, 0, 0, 0⟩⟩],
           false,
           recomputeNextID
             [⟨9223372036854775807, lit "a", lit "todo", ⟨2024, 1, 1, 0, 0, 0, 0, 0⟩, ⟨2024, 1, 1, 0, 0, 0, 0, 0⟩⟩,
              ⟨-9223372036854775808, lit "b", lit "todo", ⟨2024, 1, 1, 0, 0, 0, 0, 0⟩, ⟨2024, 1, 1, 0, 0, 0, 0, 0⟩⟩]⟩
          (lit "c") ⟨2024, 1, 2, 0, 0, 0, 0, 0⟩ ⟨2024, 1, 2, 0, 0, 0, 0, 0⟩).state.tasks.map
        (·.ID)).Nodup := by
  decide

/-- C6 (amended): for every loaded store whose task ids are pairwise distinct
and in which no task carries the largest `int`, 2^63-1, the ids are still
pairwise distinct after any one of add, update, delete, mark-in-progress,
mark-done and list, whatever the arguments. -/
theorem id_uniqueness_preserved (s : State) (a d : GoString) (args : List GoString)
    (c1 c2 : Time)
    (hload : s.nextID = recomputeNextID s.tasks)
    (hdistinct : (s.tasks.map (·.ID)).Nodup)
    (hbelow : ∀ t ∈ s.tasks, t.ID < maxInt) :
    ((addCmd s d c1 c2).state.tasks.map (·.ID)).Nodup
    ∧ ((updateCmd s a d c1).state.tasks.map (·.ID)).Nodup
    ∧ ((deleteCmd s a).state.tasks.map (·.ID)).Nodup
    ∧ ((markInProgressCmd s a c1).state.tasks.map (·.ID)).Nodup
    ∧ ((markDoneCmd s a c1).state.tasks.map (·.ID)).Nodup
    ∧ ((listCmd s args).state.tasks.map (·.ID)).Nodup := by
  refine ⟨?_, updateCmd_ids_nodup s a d c1 hdistinct, deleteCmd_ids_nodup s a hdistinct,
    updateTaskStatus_ids_nodup s a _ c1 hdistinct, updateTaskStatus_ids_nodup s a _ c1 hdistinct,
    by rw [listCmd_state]; exact hdistinct⟩
  have hmaxlt : maxIDLoop 0 s.tasks < maxInt := by
    rcases maxIDLoop_attained 0 s.tasks with h | ⟨u, hu, h⟩
    · rw [h]; decide
    · rw [← h]; exact hbelow u hu
  have hge0 := maxIDLoop_ge_start 0 s.tasks
  have hnext : s.nextID = maxIDLoop 0 s.tasks + 1 := by
    rw [hload, recomputeNextID]
    apply wrapInt_of_range
    · unfold minInt; omega
    · omega
  simp only [addCmd, List.map_append, List.map_cons, List.map_nil]
  rw [List.nodup_append]
  refine ⟨hdistinct, List.nodup_singleton _, ?_⟩
  intro x hx hx2
  rw [List.mem_singleton] at hx2
  obtain ⟨t, ht, hid⟩ := List.mem_map.mp hx
  have := maxIDLoop_ge_mem 0 s.tasks t ht
  omega

/-- C6 (witness): the loaded store with ids 1 and 3. -/
theorem id_uniqueness_preserved_witness :
    ((addCmd ⟨[⟨1, lit "a", lit "todo", ⟨2024, 1, 1, 0, 0, 0, 0, 0⟩, ⟨2024, 1, 1, 0, 0, 0, 0, 0⟩⟩,
               ⟨3, lit "b", lit "done", ⟨2024, 1, 1, 0, 0, 0, 0, 0⟩, ⟨2024, 1, 1, 0, 0, 0, 0, 0⟩⟩],
              false, 4⟩ (lit "c") ⟨2024, 1, 2, 0, 0, 0, 0, 0⟩ ⟨2024, 1, 2, 0, 0, 0, 0, 0⟩).state.tasks.map
      (·.ID)).Nodup :=
  (id_uniqueness_preserved _ (lit "1") (lit "c") [] ⟨2024, 1, 2, 0, 0, 0, 0, 0⟩
    ⟨2024, 1, 2, 0, 0, 0, 0, 0⟩ (by decide) (by decide) (by decide)).1

set_option maxRecDepth 100000 in
/-- C8 (counterexample): the snapshot holding one task with id 2^63-2 loads
with the counter at the largest `int`, 2^63-1; `add` then gives the new task
that id and the counter does not grow by one: it wraps to -2^63. -/
theorem add_counter_wraps :
    (LoadTasks (some (lit "[\x7b\"id\": 9223372036854775806\x7d]"))).map
        (fun r => (r.2.nextID,
          (addCmd r.2 (lit "a") ⟨2024, 1, 2, 0, 0, 0, 0, 0⟩ ⟨2024, 1, 2, 0, 0, 0, 0, 0⟩).lastID,
          (addCmd r.2 (lit "a") ⟨2024, 1, 2, 0, 0, 0, 0, 0⟩
            ⟨2024, 1, 2, 0, 0, 0, 0, 0⟩).state.nextID))
      = some (9223372036854775807, some 9223372036854775807, -9223372036854775808)
    ∧ (-9223372036854775808 : Int) ≠ 9223372036854775807 + 1 := by
  decide

/-- C8 (amended): for every store and every description `d`, `add d` leaves the
old task sequence in place followed by exactly one new last element, whose
description is `d`, whose status is `todo`, whose timestamps are the two clock
readings and whose id is the id it prints, and it does not end fatally; the
counter becomes the 64-bit wrap of its successor, which is the counter plus
exactly one provided the counter is an `int` below 2^63-1. -/
theorem add_postcondition (s : State) (d : GoString) (c1 c2 : Time) :
    (addCmd s d c1 c2).state.tasks = s.tasks ++ [⟨s.nextID, d, lit "todo", c1, c2⟩]
    ∧ (addCmd s d c1 c2).state.tasks.length = s.tasks.length + 1
    ∧ (addCmd s d c1 c2).lastID = some s.nextID
    ∧ (addCmd s d c1 c2).stdout = [addedLine s.nextID]
    ∧ (addCmd s d c1 c2).fatal = none
    ∧ (addCmd s d c1 c2).state.nextID = wrapInt (s.nextID + 1)
    ∧ (minInt ≤ s.nextID → s.nextID < maxInt →
        (addCmd s d c1 c2).state.nextID = s.nextID + 1) := by
  refine ⟨rfl, ?_, ?_, rfl, rfl, rfl, ?_⟩
  · simp [addCmd]
  · simp [addCmd, Outcome.lastID]
  · intro hlo hhi
    simp only [addCmd]
    exact wrapInt_of_range _ (by omega) (by omega)

/-- C8 (witness): adding to the store with the ids 1 and 3 and the counter at 4:
the new last task has id 4 and the counter is 5. -/
theorem add_postcondition_witness :
    (addCmd ⟨[⟨1, lit "a", lit "todo", ⟨2024, 1, 1, 0, 0, 0, 0, 0⟩, ⟨2024, 1, 1, 0, 0, 0, 0, 0⟩⟩,
              ⟨3, lit "b", lit "done", ⟨2024, 1, 1, 0, 0, 0, 0, 0⟩, ⟨2024, 1, 1, 12, 0, 0, 0, 0⟩⟩],
             false, 4⟩ (lit "buy milk") ⟨2024, 1, 2, 0, 0, 0, 0, 0⟩
        ⟨2024, 1, 2, 0, 0, 0, 1, 0⟩).state.tasks
      = [⟨1, lit "a", lit "todo", ⟨2024, 1, 1, 0, 0, 0, 0, 0⟩, ⟨2024, 1, 1, 0, 0, 0, 0, 0⟩⟩,
         ⟨3, lit "b", lit "done", ⟨2024, 1, 1, 0, 0, 0, 0, 0⟩, ⟨2024, 1, 1, 12, 0, 0, 0, 0⟩⟩,
         ⟨4, lit "buy milk", lit "todo", ⟨2024, 1, 2, 0, 0, 0, 0, 0⟩, ⟨2024, 1, 2, 0, 0, 0, 1, 0⟩⟩]
    ∧ (addCmd ⟨[⟨1, lit "a", lit "todo", ⟨2024, 1, 1, 0, 0, 0, 0, 0⟩, ⟨2024, 1, 1, 0, 0, 0, 0, 0⟩⟩,
                ⟨3, lit "b", lit "done", ⟨2024, 1, 1, 0, 0, 0, 0, 0⟩, ⟨2024, 1, 1, 12, 0, 0, 0, 0⟩⟩],
               false, 4⟩ (lit "buy milk") ⟨2024, 1, 2, 0, 0, 0, 0, 0⟩
          ⟨2024, 1, 2, 0, 0, 0, 1, 0⟩).state.nextID = 4 + 1 :=
  ⟨(add_postcondition
      ⟨[⟨1, lit "a", lit "todo", ⟨2024, 1, 1, 0, 0, 0, 0, 0⟩, ⟨2024, 1, 1, 0, 0, 0, 0, 0⟩⟩,
        ⟨3, lit "b", lit "done", ⟨2024, 1, 1, 0, 0, 0, 0, 0⟩, ⟨2024, 1, 1, 12, 0, 0, 0, 0⟩⟩],
       false, 4⟩ (lit "buy milk") ⟨2024, 1, 2, 0, 0, 0, 0, 0⟩ ⟨2024, 1, 2, 0, 0, 0, 1, 0⟩).1,
   (add_postcondition
      ⟨[⟨1, lit "a", lit "todo", ⟨2024, 1, 1, 0, 0, 0, 0, 0⟩, ⟨2024, 1, 1, 0, 0, 0, 0, 0⟩⟩,
        ⟨3, lit "b", lit "done", ⟨2024, 1, 1, 0, 0, 0, 0, 0⟩, ⟨2024, 1, 1, 12, 0, 0, 0, 0⟩⟩],
       false, 4⟩ (lit "buy milk") ⟨2024, 1, 2, 0, 0, 0, 0, 0⟩
      ⟨2024, 1, 2, 0, 0, 0, 1, 0⟩).2.2.2.2.2.2 (by decide) (by decide)⟩

/-- C9: for every store holding a task with id `X`, `update X d` rewrites the
first task with that id and nothing else: the store splits as `pre ++ t :: post`
with `t` the first task whose id is `X`, and afterwards it is `pre ++ t' :: post`
where `t'` has the id, status and created_at of `t`, the description `d` and
the clock reading as updated_at.  Length, order and the counter are unchanged. -/
theorem update_changes_only_description (s : State) (idArg d : GoString) (now : Time) (X : Int)
    (harg : scanInt idArg = .ok X) (hpresent : ∃ t ∈ s.tasks, t.ID = X) :
    ∃ pre t post, s.tasks = pre ++ t :: post ∧ (∀ u ∈ pre, u.ID ≠ X) ∧ t.ID = X
      ∧ (updateCmd s idArg d now).state.tasks
          = pre ++ ⟨t.ID, d, t.Status, t.CreatedAt, now⟩ :: post
      ∧ (updateCmd s idArg d now).state.tasks.length = s.tasks.length
      ∧ (updateCmd s idArg d now).state.nextID = s.nextID
      ∧ (updateCmd s idArg d now).stdout = [lit "Task " ++ fmtInt X ++ lit " updated successfully\n"]
      ∧ (updateCmd s idArg d now).fatal = none := by
  obtain ⟨pre, t, post, hsplit, hpre, ht⟩ := exists_first_match X s.tasks hpresent
  have hloop := updateLoop_first_match X d now pre post t hpre ht
  rw [← hsplit] at hloop
  refine ⟨pre, t, post, hsplit, hpre, ht, ?_, ?_, ?_, ?_, ?_⟩
  · simp only [updateCmd, harg, hloop]
  · simp only [updateCmd, harg, hloop]
    rw [hsplit]
    simp
  · simp only [updateCmd, harg, hloop]
  · simp only [updateCmd, harg, hloop]
  · simp only [updateCmd, harg, hloop]

/-- C9 (witness): updating id 2 in the store with ids 1, 2, 3. -/
theorem update_changes_only_description_witness :
    ∃ pre t post,
      [(⟨1, lit "a", lit "todo", ⟨2024, 1, 1, 0, 0, 0, 0, 0⟩, ⟨2024, 1, 1, 0, 0, 0, 0, 0⟩⟩ : Task),
       ⟨2, lit "b", lit "done", ⟨2024, 1, 1, 0, 0, 0, 0, 0⟩, ⟨2024, 1, 3, 0, 0, 0, 0, 0⟩⟩,
       ⟨3, lit "c", lit "todo", ⟨2024, 1, 2, 0, 0, 0, 0, 0⟩, ⟨2024, 1, 2, 0, 0, 0, 0, 0⟩⟩]
        = pre ++ t :: post
      ∧ (updateCmd
          ⟨[⟨1, lit "a", lit "todo", ⟨2024, 1, 1, 0, 0, 0, 0, 0⟩, ⟨2024, 1, 1, 0, 0, 0, 0, 0⟩⟩,
            ⟨2, lit "b", lit "done", ⟨2024, 1, 1, 0, 0, 0, 0, 0⟩, ⟨2024, 1, 3, 0, 0, 0, 0, 0⟩⟩,
            ⟨3, lit "c", lit "todo", ⟨2024, 1, 2, 0, 0, 0, 0, 0⟩, ⟨2024, 1, 2, 0, 0, 0, 0, 0⟩⟩],
           false, 4⟩ (lit "2") (lit "z") ⟨2024, 1, 5, 0, 0, 0, 0, 0⟩).state.tasks
          = pre ++ ⟨t.ID, lit "z", t.Status, t.CreatedAt, ⟨2024, 1, 5, 0, 0, 0, 0, 0⟩⟩ :: post := by
  obtain ⟨pre, t, post, h1, _, _, h2, _⟩ :=
    update_changes_only_description
      ⟨[⟨1, lit "a", lit "todo", ⟨2024, 1, 1, 0, 0, 0, 0, 0⟩, ⟨2024, 1, 1, 0, 0, 0, 0, 0⟩⟩,
        ⟨2, lit "b", lit "done", ⟨2024, 1, 1, 0, 0, 0, 0, 0⟩, ⟨2024, 1, 3, 0, 0, 0, 0, 0⟩⟩,
        ⟨3, lit "c", lit "todo", ⟨2024, 1, 2, 0, 0, 0, 0, 0⟩, ⟨2024, 1, 2, 0, 0, 0, 0, 0⟩⟩],
       false, 4⟩ (lit "2") (lit "z") ⟨2024, 1, 5, 0, 0, 0, 0, 0⟩ 2 (by decide) (by decide)
  exact ⟨pre, t, post, h1, h2⟩

theorem updateTaskStatus_found (s : State) (idArg st : GoString) (now : Time) (X : Int)
    (harg : scanInt idArg = .ok X) (pre post : List Task) (t : Task)
    (hsplit : s.tasks = pre ++ t :: post) (hpre : ∀ u ∈ pre, u.ID ≠ X) (ht : t.ID = X) :
    updateTaskStatus s idArg st now
      = ⟨{ s with tasks := pre ++ ⟨t.ID, t.Description, st, t.CreatedAt, now⟩ :: post },
         [lit "Task " ++ fmtInt X ++ lit " marked as " ++ st ++ lit "\n"], none⟩ := by
  have hloop := statusLoop_first_match X st now pre post t hpre ht
  rw [← hsplit] at hloop
  simp only [updateTaskStatus, harg, hloop]

set_option maxRecDepth 100000 in
/-- C10: for every store holding a task with id `X`, `mark-done X` (and
`mark-in-progress X`) rewrites the first task with that id and nothing else:
the store splits as `pre ++ t :: post` with `t` the first task whose id is `X`,
and afterwards it is `pre ++ t' :: post` where `t'` has the id, description
and created_at of `t`, the status `done` (`in-progress`) and the clock reading
as updated_at.  And from the fresh state, add "buy milk", add "write report",
mark-done 1, list done prints, between the header and the closing blank line,
exactly one row: id 1, status done, description "buy milk"; the same four
commands run as four processes, starting without a snapshot, print the same. -/
theorem mark_sets_status (s : State) (idArg : GoString) (now : Time) (X : Int)
    (harg : scanInt idArg = .ok X) (hpresent : ∃ t ∈ s.tasks, t.ID = X) :
    (∃ pre t post, s.tasks = pre ++ t :: post ∧ (∀ u ∈ pre, u.ID ≠ X) ∧ t.ID = X
      ∧ markDoneCmd s idArg now
          = ⟨{ s with tasks := pre ++ ⟨t.ID, t.Description, lit "done", t.CreatedAt, now⟩ :: post },
             [lit "Task " ++ fmtInt X ++ lit " marked as " ++ lit "done" ++ lit "\n"], none⟩
      ∧ markInProgressCmd s idArg now
          = ⟨{ s with tasks :=
                pre ++ ⟨t.ID, t.Description, lit "in-progress", t.CreatedAt, now⟩ :: post },
             [lit "Task " ++ fmtInt X ++ lit " marked as " ++ lit "in-progress" ++ lit "\n"], none⟩)
    ∧ (∀ c1 c2 c3 c4 c5 : Time,
        (listCmd
          (markDoneCmd
            (addCmd (addCmd initState (lit "buy milk") c1 c2).state (lit "write report") c3 c4).state
            (lit "1") c5).state
          [lit "done"]).stdout
        = [lit "\nID\tStatus\t\tCreated\t\t\tDescription\n",
           lit "--\t------\t\t-------\t\t\t-----------\n",
           lit "1\tdone\t" ++ formatDateTime c1 ++ lit "\tbuy milk\n",
           lit "\n"])
    ∧ (runAll none
        [(.add (lit "buy milk"), ⟨2024, 1, 2, 10, 0, 0, 0, 0⟩, ⟨2024, 1, 2, 10, 0, 0, 500, 0⟩),
         (.add (lit "write report"), ⟨2024, 1, 2, 11, 0, 0, 0, 0⟩, ⟨2024, 1, 2, 11, 0, 0, 500, 0⟩),
         (.markDone (lit "1"), ⟨2024, 1, 2, 12, 0, 0, 0, 0⟩, ⟨2024, 1, 2, 12, 0, 0, 0, 0⟩),
         (.list [lit "done"], ⟨2024, 1, 2, 13, 0, 0, 0, 0⟩, ⟨2024, 1, 2, 13, 0, 0, 0, 0⟩)]).map
        (fun r => r.outcome.map (fun o => o.stdout))
      = [some [lit "Task added successfully (ID: 1)\n"],
         some [lit "Task added successfully (ID: 2)\n"],
         some [lit "Task 1 marked as done\n"],
         some [lit "\nID\tStatus\t\tCreated\t\t\tDescription\n",
               lit "--\t------\t\t-------\t\t\t-----------\n",
               lit "1\tdone\t2024-01-02 10:00:00\tbuy milk\n",
               lit "\n"]] := by
  refine ⟨?_, ?_, by decide⟩
  · obtain ⟨pre, t, post, hsplit, hpre, ht⟩ := exists_first_match X s.tasks hpresent
    refine ⟨pre, t, post, hsplit, hpre, ht, ?_, ?_⟩
    · rw [markDoneCmd, updateTaskStatus_found s idArg _ now X harg pre post t hsplit hpre ht]
    · rw [markInProgressCmd, updateTaskStatus_found s idArg _ now X harg pre post t hsplit hpre ht]
  · intro c1 c2 c3 c4 c5
    have h1 : scanInt (lit "1") = .ok 1 := by decide
    have hw : wrapInt (1 + 1) = 2 := by decide
    have hne : ¬ ((2 : Int) = 1) := by decide
    have hd : lit "todo" ≠ lit "done" := by decide
    simp [listCmd, markDoneCmd, updateTaskStatus, h1, addCmd, initState, statusLoop, listLoop,
      rowLine, hw, hne, hd]
    refine ⟨?_, by decide⟩
    have e1 : lit "1\tdone\t" = fmtInt 1 ++ 9 :: (lit "done" ++ [9]) := by decide
    have e2 : lit "\tbuy milk\n" = 9 :: (lit "buy milk" ++ [10]) := by decide
    rw [e1, e2]
    simp

/-- C10 (witness): marking id 2 done in the store with ids 1, 2. -/
theorem mark_sets_status_witness :
    ∃ pre t post,
      [(⟨1, lit "a", lit "todo", ⟨2024, 1, 1, 0, 0, 0, 0, 0⟩, ⟨2024, 1, 1, 0, 0, 0, 0, 0⟩⟩ : Task),
       ⟨2, lit "b", lit "todo", ⟨2024, 1, 1, 0, 0, 0, 0, 0⟩, ⟨2024, 1, 3, 0, 0, 0, 0, 0⟩⟩]
        = pre ++ t :: post
      ∧ (markDoneCmd
          ⟨[⟨1, lit "a", lit "todo", ⟨2024, 1, 1, 0, 0, 0, 0, 0⟩, ⟨2024, 1, 1, 0, 0, 0, 0, 0⟩⟩,
            ⟨2, lit "b", lit "todo", ⟨2024, 1, 1, 0, 0, 0, 0, 0⟩, ⟨2024, 1, 3, 0, 0, 0, 0, 0⟩⟩],
           false, 3⟩ (lit "2") ⟨2024, 1, 5, 0, 0, 0, 0, 0⟩).state.tasks
          = pre ++ ⟨t.ID, t.Description, lit "done", t.CreatedAt, ⟨2024, 1, 5, 0, 0, 0, 0, 0⟩⟩ :: post := by
  obtain ⟨pre, t, post, h1, _, _, h2, _⟩ :=
    (mark_sets_status
      ⟨[⟨1, lit "a", lit "todo", ⟨2024, 1, 1, 0, 0, 0, 0, 0⟩, ⟨2024, 1, 1, 0, 0, 0, 0, 0⟩⟩,
        ⟨2, lit "b", lit "todo", ⟨2024, 1, 1, 0, 0, 0, 0, 0⟩, ⟨2024, 1, 3, 0, 0, 0, 0, 0⟩⟩],
       false, 3⟩ (lit "2") ⟨2024, 1, 5, 0, 0, 0, 0, 0⟩ 2 (by decide) (by decide)).1
  exact ⟨pre, t, post, h1, by rw [h2]⟩

/-! ### Decimal digits -/

theorem natDecAux_eq (n : Nat) : ∀ (fuel : Nat) (acc : GoString), n < fuel →
    natDecAux fuel n acc = natDecAux (n + 1) n [] ++ acc := by
  induction n using Nat.strong_induction_on with
  | _ n ih =>
    intro fuel acc hlt
    cases fuel with
    | zero => omega
    | succ f =>
      by_cases h10 : n < 10
      · simp [natDecAux, h10]
      · simp only [natDecAux, if_neg h10]
        have hdiv : n / 10 < n := by omega
        rw [ih (n / 10) hdiv f _ (by omega), ih (n / 10) hdiv n [48 + n % 10] hdiv]
        simp

theorem natDec_lt_ten (n : Nat) (h : n < 10) : natDec n = [48 + n] := by
  simp [natDec, natDecAux, h]

theorem natDec_ge_ten (n : Nat) (h : ¬ n < 10) : natDec n = natDec (n / 10) ++ [48 + n % 10] := by
  have hdiv : n / 10 < n := by omega
  rw [natDec, natDecAux, if_neg h, natDecAux_eq (n / 10) n _ hdiv]
  rfl

theorem digitsValue_nil (acc : Nat) : digitsValue acc [] = acc := rfl

theorem digitsValue_cons (acc c : Nat) (cs : GoString) :
    digitsValue acc (c :: cs) = digitsValue (acc * 10 + (c - 48)) cs := rfl

theorem digitsValue_append (acc : Nat) (xs ys : GoString) :
    digitsValue acc (xs ++ ys) = digitsValue (digitsValue acc xs) ys := by
  induction xs generalizing acc with
  | nil => rfl
  | cons x xs ih => rw [List.cons_append, digitsValue_cons, digitsValue_cons, ih]

theorem digitsValue_natDec (n : Nat) : digitsValue 0 (natDec n) = n := by
  induction n using Nat.strong_induction_on with
  | _ n ih =>
    by_cases h10 : n < 10
    · rw [natDec_lt_ten n h10, digitsValue_cons, digitsValue_nil]
      omega
    · rw [natDec_ge_ten n h10, digitsValue_append, ih (n / 10) (by omega), digitsValue_cons,
        digitsValue_nil]
      omega

theorem natDec_all_digits (n : Nat) : ∀ c ∈ natDec n, isDigit c = true := by
  induction n using Nat.strong_induction_on with
  | _ n ih =>
    by_cases h10 : n < 10
    · rw [natDec_lt_ten n h10]
      intro c hc
      simp only [List.mem_singleton] at hc
      subst hc
      simp only [isDigit, Bool.and_eq_true, decide_eq_true_eq]
      omega
    · rw [natDec_ge_ten n h10]
      intro c hc
      rcases List.mem_append.mp hc with h | h
      · exact ih (n / 10) (by omega) c h
      · simp only [List.mem_singleton] at h
        subst h
        simp only [isDigit, Bool.and_eq_true, decide_eq_true_eq]
        omega

theorem natDec_ne_nil (n : Nat) : natDec n ≠ [] := by
  by_cases h10 : n < 10
  · rw [natDec_lt_ten n h10]; simp
  · rw [natDec_ge_ten n h10]; simp

/-- No leading zero: the first digit of a positive number is not `0`. -/
theorem natDec_head (n : Nat) (hn : 0 < n) :
    ∃ d ds, natDec n = d :: ds ∧ 49 ≤ d ∧ d ≤ 57 := by
  induction n using Nat.strong_induction_on with
  | _ n ih =>
    by_cases h10 : n < 10
    · exact ⟨48 + n, [], natDec_lt_ten n h10, by omega, by omega⟩
    · obtain ⟨d, ds, hds, h1, h2⟩ := ih (n / 10) (by omega) (by omega)
      exact ⟨d, ds ++ [48 + n % 10], by rw [natDec_ge_ten n h10, hds]; rfl, h1, h2⟩

theorem natDec_length_le (k : Nat) : ∀ n, n < 10 ^ (k + 1) → (natDec n).length ≤ k + 1 := by
  induction k with
  | zero =>
    intro n hn
    rw [natDec_lt_ten n (by simpa using hn)]
    simp
  | succ k ih =>
    intro n hn
    by_cases h10 : n < 10
    · rw [natDec_lt_ten n h10]; simp
    · rw [natDec_ge_ten n h10, List.length_append]
      have hdiv : n / 10 < 10 ^ (k + 1) := by
        rw [Nat.div_lt_iff_lt_mul (by decide)]
        calc n < 10 ^ (k + 1 + 1) := hn
          _ = 10 ^ (k + 1) * 10 := by rw [Nat.pow_succ]
      have := ih (n / 10) hdiv
      simp only [List.length_singleton]
      omega

theorem digitsValue_zeros (k : Nat) (acc : Nat) (ds : GoString) :
    digitsValue acc (List.replicate k 48 ++ ds) = digitsValue (acc * 10 ^ k) ds := by
  induction k generalizing acc with
  | zero => simp
  | succ k ih =>
    rw [List.replicate_succ, List.cons_append, digitsValue_cons, ih]
    congr 1
    rw [Nat.pow_succ]
    ring

theorem padZero_length (k n : Nat) (h : n < 10 ^ (k + 1)) :
    (padZero (k + 1) (natDec n)).length = k + 1 := by
  have := natDec_length_le k n h
  simp only [padZero, List.length_append, List.length_replicate]
  omega

theorem padZero_all_digits (w n : Nat) : ∀ c ∈ padZero w (natDec n), isDigit c = true := by
  intro c hc
  rcases List.mem_append.mp hc with h | h
  · rw [List.eq_of_mem_replicate h]; decide
  · exact natDec_all_digits n c h

theorem digitsValue_padZero (w n : Nat) : digitsValue 0 (padZero w (natDec n)) = n := by
  rw [padZero, digitsValue_zeros]
  simpa using digitsValue_natDec n

/-- A two-digit field as `appendInt` writes it. -/
theorem appendInt_two (x : Nat) (h : x < 100) :
    ∃ a b, appendInt (x : Int) 2 = [a, b] ∧ isDigit a = true ∧ isDigit b = true
      ∧ (a - 48) * 10 + (b - 48) = x := by
  have hnn : ¬ ((x : Int) < 0) := by omega
  have hlen := padZero_length 1 x (by simpa using h)
  have hall := padZero_all_digits 2 x
  have hval := digitsValue_padZero 2 x
  simp only [appendInt, if_neg hnn, Int.natAbs_ofNat]
  match hp : padZero 2 (natDec x), hlen with
  | [a, b], _ =>
    rw [hp] at hall hval
    refine ⟨a, b, rfl, hall a (by simp), hall b (by simp), ?_⟩
    rw [digitsValue_cons, digitsValue_cons, digitsValue_nil] at hval
    omega

/-- A four-digit year as `appendInt` writes it. -/
theorem appendInt_four (y : Int) (h0 : 0 ≤ y) (h1 : y ≤ 9999) :
    ∃ a b c d, appendInt y 4 = [a, b, c, d] ∧ isDigit a = true ∧ isDigit b = true
      ∧ isDigit c = true ∧ isDigit d = true ∧ ((digitsValue 0 [a, b, c, d] : Nat) : Int) = y := by
  have hnn : ¬ (y < 0) := by omega
  have hx : y.natAbs < 10 ^ (3 + 1) := by norm_num; omega
  have hlen := padZero_length 3 y.natAbs hx
  have hall := padZero_all_digits 4 y.natAbs
  have hval := digitsValue_padZero 4 y.natAbs
  simp only [appendInt, if_neg hnn]
  match hp : padZero 4 (natDec y.natAbs), hlen with
  | [a, b, c, d], _ =>
    rw [hp] at hall hval
    refine ⟨a, b, c, d, rfl, hall a (by simp), hall b (by simp), hall c (by simp),
      hall d (by simp), ?_⟩
    rw [hval]
    omega

theorem takeWhile_append_stop (p : Nat → Bool) (ds rest : GoString) (c : Nat)
    (h : ∀ x ∈ ds, p x = true) (hc : p c = false) :
    (ds ++ c :: rest).takeWhile p = ds ∧ (ds ++ c :: rest).dropWhile p = c :: rest := by
  induction ds with
  | nil => simp [List.takeWhile, List.dropWhile, hc]
  | cons d ds ih =>
    have hd : p d = true := h d (List.mem_cons_self _ _)
    have ih2 := ih (fun x hx => h x (List.mem_cons_of_mem _ hx))
    simp [List.takeWhile, List.dropWhile, hd, ih2.1, ih2.2]

theorem takeWhile_all (p : Nat → Bool) (ds : GoString) (h : ∀ x ∈ ds, p x = true) :
    ds.takeWhile p = ds ∧ ds.dropWhile p = [] := by
  induction ds with
  | nil => simp
  | cons d ds ih =>
    have hd : p d = true := h d (List.mem_cons_self _ _)
    have ih2 := ih (fun x hx => h x (List.mem_cons_of_mem _ hx))
    simp [List.takeWhile, List.dropWhile, hd, ih2.1, ih2.2]

theorem scanFraction_comma (rest : GoString) : scanFraction (44 :: rest) = some ([], 44 :: rest) := by
  simp [scanFraction]

theorem scanUnsigned_natDec (m : Nat) (rest : GoString) :
    scanUnsigned (natDec m ++ 44 :: rest) = some (natDec m, 44 :: rest) := by
  by_cases hm : m = 0
  · subst hm
    rw [natDec_lt_ten 0 (by decide)]
    simp [scanUnsigned, scanFraction_comma]
  · obtain ⟨d, ds, hds, h1, h2⟩ := natDec_head m (by omega)
    have hall : ∀ x ∈ ds, isDigit x = true := by
      intro x hx
      exact natDec_all_digits m x (by rw [hds]; exact List.mem_cons_of_mem _ hx)
    have hstop := takeWhile_append_stop isDigit ds rest 44 hall (by decide)
    have hd48 : ¬ d = 48 := by omega
    have hdig : isDigit d = true := by
      simp only [isDigit, Bool.and_eq_true, decide_eq_true_eq]; omega
    rw [hds]
    simp [scanUnsigned, hd48, hdig, hstop.1, hstop.2, scanFraction_comma]

theorem scanNumber_fmtInt (i : Int) (rest : GoString) :
    scanNumber (fmtInt i ++ 44 :: rest) = some (fmtInt i, 44 :: rest) := by
  by_cases hneg : i < 0
  · simp only [fmtInt, if_pos hneg, List.cons_append, scanNumber, if_true,
      scanUnsigned_natDec, Option.map_some']
  · obtain ⟨d, ds, hds⟩ : ∃ d ds, natDec i.natAbs = d :: ds := by
      cases h : natDec i.natAbs with
      | nil => exact absurd h (natDec_ne_nil _)
      | cons d ds => exact ⟨d, ds, rfl⟩
    have hd : isDigit d = true := natDec_all_digits i.natAbs d (by rw [hds]; simp)
    have hd45 : ¬ d = 45 := by
      intro h; subst h; simp [isDigit] at hd
    have h := scanUnsigned_natDec i.natAbs rest
    rw [hds] at h
    simp only [fmtInt, if_neg hneg, hds, List.cons_append, scanNumber, if_neg hd45]
    exact h

theorem parseUintLit_natDec (m : Nat) : parseUintLit (natDec m) = some m := by
  have hall2 : (natDec m).all isDigit = true := List.all_eq_true.mpr (natDec_all_digits m)
  rw [parseUintLit, if_pos ⟨natDec_ne_nil m, hall2⟩, digitsValue_natDec]

theorem parseIntLit_fmtInt (i : Int) (hlo : minInt ≤ i) (hhi : i ≤ maxInt) :
    parseIntLit (fmtInt i) = some i := by
  by_cases hneg : i < 0
  · have : -((i.natAbs : Nat) : Int) = i := by omega
    simp only [fmtInt, if_pos hneg, parseIntLit, if_true, parseUintLit_natDec, Option.map_some',
      this]
    rw [if_pos ⟨hlo, hhi⟩]
  · obtain ⟨d, ds, hds⟩ : ∃ d ds, natDec i.natAbs = d :: ds := by
      cases h : natDec i.natAbs with
      | nil => exact absurd h (natDec_ne_nil _)
      | cons d ds => exact ⟨d, ds, rfl⟩
    have hd : isDigit d = true := natDec_all_digits i.natAbs d (by rw [hds]; simp)
    have hd45 : ¬ d = 45 := by
      intro h; subst h; simp [isDigit] at hd
    have h := parseUintLit_natDec i.natAbs
    rw [hds] at h
    have : ((i.natAbs : Nat) : Int) = i := by omega
    simp only [fmtInt, if_neg hneg, hds, parseIntLit, if_neg hd45, h, Option.map_some', this]
    rw [if_pos ⟨hlo, hhi⟩]

/-! ### UTF-8 -/

theorem isCont_iff (b : Nat) : isCont b = true ↔ 0x80 ≤ b ∧ b ≤ 0xBF := by
  simp [isCont]

theorem decodeRune_two (b0 b1 : Nat) (X : GoString) (h0 : 0xC2 ≤ b0) (h1 : b0 < 0xE0)
    (h2 : 0x80 ≤ b1) (h3 : b1 ≤ 0xBF) :
    decodeRune (b0 :: b1 :: X) = ((b0 - 0xC0) * 64 + (b1 - 0x80), 2) := by
  have c1 : ¬ b0 < 0x80 := by omega
  have c2 : ¬ b0 < 0xC2 := by omega
  have hc : isCont b1 = true := (isCont_iff b1).mpr ⟨h2, h3⟩
  simp only [decodeRune, if_neg c1, if_neg c2, if_pos h1, hc, if_true]

theorem decodeRune_three (b0 b1 b2 : Nat) (X : GoString) (h0 : 0xE0 ≤ b0) (h1 : b0 < 0xF0)
    (hlo : b0 = 0xE0 → 0xA0 ≤ b1) (hhi : b0 = 0xED → b1 ≤ 0x9F)
    (h2 : 0x80 ≤ b1) (h3 : b1 ≤ 0xBF) (h4 : 0x80 ≤ b2) (h5 : b2 ≤ 0xBF) :
    decodeRune (b0 :: b1 :: b2 :: X)
      = ((b0 - 0xE0) * 4096 + (b1 - 0x80) * 64 + (b2 - 0x80), 3) := by
  have c1 : ¬ b0 < 0x80 := by omega
  have c2 : ¬ b0 < 0xC2 := by omega
  have c3 : ¬ b0 < 0xE0 := by omega
  have hc : isCont b2 = true := (isCont_iff b2).mpr ⟨h4, h5⟩
  have hA : (if b0 = 0xE0 then 0xA0 else 0x80) ≤ b1 := by
    split
    · next h => exact hlo h
    · exact h2
  have hB : b1 ≤ (if b0 = 0xED then 0x9F else 0xBF) := by
    split
    · next h => exact hhi h
    · exact h3
  simp only [decodeRune, if_neg c1, if_neg c2, if_neg c3, if_pos h1, hc, decide_eq_true hA,
    decide_eq_true hB, Bool.and_self, if_true]

theorem decodeRune_four (b0 b1 b2 b3 : Nat) (X : GoString) (h0 : 0xF0 ≤ b0) (h1 : b0 < 0xF5)
    (hlo : b0 = 0xF0 → 0x90 ≤ b1) (hhi : b0 = 0xF4 → b1 ≤ 0x8F)
    (h2 : 0x80 ≤ b1) (h3 : b1 ≤ 0xBF) (h4 : 0x80 ≤ b2) (h5 : b2 ≤ 0xBF)
    (h6 : 0x80 ≤ b3) (h7 : b3 ≤ 0xBF) :
    decodeRune (b0 :: b1 :: b2 :: b3 :: X)
      = ((b0 - 0xF0) * 262144 + (b1 - 0x80) * 4096 + (b2 - 0x80) * 64 + (b3 - 0x80), 4) := by
  have c1 : ¬ b0 < 0x80 := by omega
  have c2 : ¬ b0 < 0xC2 := by omega
  have c3 : ¬ b0 < 0xE0 := by omega
  have c4 : ¬ b0 < 0xF0 := by omega
  have hc2 : isCont b2 = true := (isCont_iff b2).mpr ⟨h4, h5⟩
  have hc3 : isCont b3 = true := (isCont_iff b3).mpr ⟨h6, h7⟩
  have hA : (if b0 = 0xF0 then 0x90 else 0x80) ≤ b1 := by
    split
    · next h => exact hlo h
    · exact h2
  have hB : b1 ≤ (if b0 = 0xF4 then 0x8F else 0xBF) := by
    split
    · next h => exact hhi h
    · exact h3
  simp only [decodeRune, if_neg c1, if_neg c2, if_neg c3, if_neg c4, if_pos h1, hc2, hc3,
    decide_eq_true hA, decide_eq_true hB, Bool.and_self, if_true]

theorem decodeRune_shape (b0 : Nat) (rest : GoString) (hb : 0x80 ≤ b0)
    (h : ¬ ((decodeRune (b0 :: rest)).1 = runeError ∧ (decodeRune (b0 :: rest)).2 = 1)) :
    RuneShape (b0 :: rest) (decodeRune (b0 :: rest)).1 (decodeRune (b0 :: rest)).2 := by
  have c1 : ¬ b0 < 0x80 := by omega
  by_cases c2 : b0 < 0xC2
  · exact absurd (by simp [decodeRune, c1, c2]) h
  by_cases c3 : b0 < 0xE0
  · cases rest with
    | nil => exact absurd (by simp [decodeRune, c1, c2, c3]) h
    | cons b1 X =>
      by_cases hc : isCont b1 = true
      · have hc2 := (isCont_iff b1).mp hc
        rw [decodeRune_two b0 b1 X (by omega) c3 hc2.1 hc2.2]
        exact RuneShape.two b0 b1 X (by omega) c3 hc2.1 hc2.2
      · exact absurd (by simp [decodeRune, c1, c2, c3, hc]) h
  by_cases c4 : b0 < 0xF0
  · match rest with
    | [] => exact absurd (by simp [decodeRune, c1, c2, c3, c4]) h
    | [_] => exact absurd (by simp [decodeRune, c1, c2, c3, c4]) h
    | b1 :: b2 :: X =>
      by_cases hA : (if b0 = 0xE0 then 0xA0 else 0x80) ≤ b1
      · by_cases hB : b1 ≤ (if b0 = 0xED then 0x9F else 0xBF)
        · by_cases hc : isCont b2 = true
          · have hc2 := (isCont_iff b2).mp hc
            have e1 : b0 = 0xE0 → 0xA0 ≤ b1 := fun e => by rw [if_pos e] at hA; exact hA
            have e2 : b0 = 0xED → b1 ≤ 0x9F := fun e => by rw [if_pos e] at hB; exact hB
            have e3 : 0x80 ≤ b1 := by
              split at hA <;> omega
            have e4 : b1 ≤ 0xBF := by
              split at hB <;> omega
            rw [decodeRune_three b0 b1 b2 X (by omega) c4 e1 e2 e3 e4 hc2.1 hc2.2]
            exact RuneShape.three b0 b1 b2 X (by omega) c4 e1 e2 e3 e4 hc2.1 hc2.2
          · exact absurd (by simp [decodeRune, c1, c2, c3, c4, hc]) h
        · exact absurd (by simp [decodeRune, c1, c2, c3, c4, hB]) h
      · exact absurd (by simp [decodeRune, c1, c2, c3, c4, hA]) h
  by_cases c5 : b0 < 0xF5
  · match rest with
    | [] => exact absurd (by simp [decodeRune, c1, c2, c3, c4, c5]) h
    | [_] => exact absurd (by simp [decodeRune, c1, c2, c3, c4, c5]) h
    | [_, _] => exact absurd (by simp [decodeRune, c1, c2, c3, c4, c5]) h
    | b1 :: b2 :: b3 :: X =>
      by_cases hA : (if b0 = 0xF0 then 0x90 else 0x80) ≤ b1
      · by_cases hB : b1 ≤ (if b0 = 0xF4 then 0x8F else 0xBF)
        · by_cases hc : isCont b2 = true
          · by_cases hd : isCont b3 = true
            · have hc2 := (isCont_iff b2).mp hc
              have hd2 := (isCont_iff b3).mp hd
              have e1 : b0 = 0xF0 → 0x90 ≤ b1 := fun e => by rw [if_pos e] at hA; exact hA
              have e2 : b0 = 0xF4 → b1 ≤ 0x8F := fun e => by rw [if_pos e] at hB; exact hB
              have e3 : 0x80 ≤ b1 := by
                split at hA <;> omega
              have e4 : b1 ≤ 0xBF := by
                split at hB <;> omega
              rw [decodeRune_four b0 b1 b2 b3 X (by omega) c5 e1 e2 e3 e4 hc2.1 hc2.2 hd2.1 hd2.2]
              exact RuneShape.four b0 b1 b2 b3 X (by omega) c5 e1 e2 e3 e4 hc2.1 hc2.2 hd2.1 hd2.2
            · exact absurd (by simp [decodeRune, c1, c2, c3, c4, c5, hd]) h
          · exact absurd (by simp [decodeRune, c1, c2, c3, c4, c5, hc]) h
        · exact absurd (by simp [decodeRune, c1, c2, c3, c4, c5, hB]) h
      · exact absurd (by simp [decodeRune, c1, c2, c3, c4, c5, hA]) h
  · exact absurd (by simp [decodeRune, c1, c2, c3, c4, c5]) h

theorem RuneShape.encode {s : GoString} {r n : Nat} (h : RuneShape s r n) :
    encodeRune r = s.take n := by
  cases h with
  | two b0 b1 X h0 h1 h2 h3 =>
    have c1 : ¬ (b0 - 0xC0) * 64 + (b1 - 0x80) < 0x80 := by omega
    have c2 : (b0 - 0xC0) * 64 + (b1 - 0x80) < 0x800 := by omega
    simp only [encodeRune, if_neg c1, if_pos c2, List.take_succ_cons, List.take_zero]
    exact congrArg₂ List.cons (by omega) (congrArg₂ List.cons (by omega) rfl)
  | three b0 b1 b2 X h0 h1 hlo hhi h2 h3 h4 h5 =>
    have c1 : ¬ (b0 - 0xE0) * 4096 + (b1 - 0x80) * 64 + (b2 - 0x80) < 0x80 := by omega
    have c2 : ¬ (b0 - 0xE0) * 4096 + (b1 - 0x80) * 64 + (b2 - 0x80) < 0x800 := by
      by_cases e : b0 = 0xE0
      · have := hlo e; omega
      · omega
    have c3 : ¬ (0x10FFFF < (b0 - 0xE0) * 4096 + (b1 - 0x80) * 64 + (b2 - 0x80)
        ∨ (0xD800 ≤ (b0 - 0xE0) * 4096 + (b1 - 0x80) * 64 + (b2 - 0x80)
          ∧ (b0 - 0xE0) * 4096 + (b1 - 0x80) * 64 + (b2 - 0x80) ≤ 0xDFFF)) := by
      by_cases e : b0 = 0xED
      · have := hhi e; omega
      · omega
    have c4 : (b0 - 0xE0) * 4096 + (b1 - 0x80) * 64 + (b2 - 0x80) < 0x10000 := by omega
    simp only [encodeRune, if_neg c1, if_neg c2, if_neg c3, if_pos c4, List.take_succ_cons,
      List.take_zero]
    exact congrArg₂ List.cons (by omega)
      (congrArg₂ List.cons (by omega) (congrArg₂ List.cons (by omega) rfl))
  | four b0 b1 b2 b3 X h0 h1 hlo hhi h2 h3 h4 h5 h6 h7 =>
    have c1 : ¬ (b0 - 0xF0) * 262144 + (b1 - 0x80) * 4096 + (b2 - 0x80) * 64 + (b3 - 0x80) < 0x80 := by
      by_cases e : b0 = 0xF0
      · have := hlo e; omega
      · omega
    have c2 : ¬ (b0 - 0xF0) * 262144 + (b1 - 0x80) * 4096 + (b2 - 0x80) * 64 + (b3 - 0x80) < 0x800 := by
      by_cases e : b0 = 0xF0
      · have := hlo e; omega
      · omega
    have c4 : ¬ (b0 - 0xF0) * 262144 + (b1 - 0x80) * 4096 + (b2 - 0x80) * 64 + (b3 - 0x80) < 0x10000 := by
      by_cases e : b0 = 0xF0
      · have := hlo e; omega
      · omega
    have c3 : ¬ (0x10FFFF < (b0 - 0xF0) * 262144 + (b1 - 0x80) * 4096 + (b2 - 0x80) * 64 + (b3 - 0x80)
        ∨ (0xD800 ≤ (b0 - 0xF0) * 262144 + (b1 - 0x80) * 4096 + (b2 - 0x80) * 64 + (b3 - 0x80)
          ∧ (b0 - 0xF0) * 262144 + (b1 - 0x80) * 4096 + (b2 - 0x80) * 64 + (b3 - 0x80) ≤ 0xDFFF)) := by
      by_cases e : b0 = 0xF4
      · have := hhi e; omega
      · omega
    simp only [encodeRune, if_neg c1, if_neg c2, if_neg c3, if_neg c4, List.take_succ_cons,
      List.take_zero]
    exact congrArg₂ List.cons (by omega)
      (congrArg₂ List.cons (by omega)
        (congrArg₂ List.cons (by omega) (congrArg₂ List.cons (by omega) rfl)))

theorem RuneShape.length_le {s : GoString} {r n : Nat} (h : RuneShape s r n) :
    n ≤ s.length ∧ 2 ≤ n := by
  cases h <;> simp

theorem RuneShape.bytes_high {s : GoString} {r n : Nat} (h : RuneShape s r n) :
    ∀ x ∈ s.take n, 0x80 ≤ x := by
  cases h with
  | two b0 b1 X h0 h1 h2 h3 =>
    intro x hx
    simp only [List.take_succ_cons, List.take_zero, List.mem_cons, List.mem_nil_iff,
      or_false] at hx
    omega
  | three b0 b1 b2 X h0 h1 hlo hhi h2 h3 h4 h5 =>
    intro x hx
    simp only [List.take_succ_cons, List.take_zero, List.mem_cons, List.mem_nil_iff,
      or_false] at hx
    omega
  | four b0 b1 b2 b3 X h0 h1 hlo hhi h2 h3 h4 h5 h6 h7 =>
    intro x hx
    simp only [List.take_succ_cons, List.take_zero, List.mem_cons, List.mem_nil_iff,
      or_false] at hx
    omega

theorem RuneShape.decode_prefix {s : GoString} {r n : Nat} (h : RuneShape s r n) (Y : GoString) :
    decodeRune (s.take n ++ Y) = (r, n) := by
  cases h with
  | two b0 b1 X h0 h1 h2 h3 => exact decodeRune_two b0 b1 Y h0 h1 h2 h3
  | three b0 b1 b2 X h0 h1 hlo hhi h2 h3 h4 h5 =>
    exact decodeRune_three b0 b1 b2 Y h0 h1 hlo hhi h2 h3 h4 h5
  | four b0 b1 b2 b3 X h0 h1 hlo hhi h2 h3 h4 h5 h6 h7 =>
    exact decodeRune_four b0 b1 b2 b3 Y h0 h1 hlo hhi h2 h3 h4 h5 h6 h7

/-! ### String literals -/

theorem scanString_quote (fuel : Nat) (rest : GoString) :
    scanString (fuel + 1) (34 :: rest) = some ([], rest) := by
  simp [scanString]

theorem scanString_plain_byte (fuel c : Nat) (tail : GoString) (h1 : 32 ≤ c) (h2 : c ≠ 34)
    (h3 : c ≠ 92) :
    scanString (fuel + 1) (c :: tail) = (scanString fuel tail).map (fun p => (c :: p.1, p.2)) := by
  have h4 : ¬ c < 32 := by omega
  simp only [scanString, if_neg h2, if_neg h3, if_neg h4]

theorem scanString_plain (chunk : GoString) (fuel : Nat) (tail : GoString)
    (h : ∀ c ∈ chunk, 32 ≤ c ∧ c ≠ 34 ∧ c ≠ 92) :
    scanString (fuel + chunk.length) (chunk ++ tail)
      = (scanString fuel tail).map (fun p => (chunk ++ p.1, p.2)) := by
  induction chunk with
  | nil => simp
  | cons c chunk ih =>
    obtain ⟨h1, h2, h3⟩ := h c (List.mem_cons_self _ _)
    rw [List.length_cons, ← Nat.add_assoc, List.cons_append,
      scanString_plain_byte _ c _ h1 h2 h3, ih (fun x hx => h x (List.mem_cons_of_mem _ hx))]
    cases scanString fuel tail <;> rfl

theorem scanString_escape (fuel e : Nat) (tail : GoString)
    (he : e = 34 ∨ e = 92 ∨ e = 47 ∨ e = 98 ∨ e = 102 ∨ e = 110 ∨ e = 114 ∨ e = 116) :
    scanString (fuel + 1) (92 :: e :: tail)
      = (scanString fuel tail).map (fun p => (92 :: e :: p.1, p.2)) := by
  have h117 : ¬ e = 117 := by omega
  simp only [scanString, if_neg h117, if_pos he]
  simp

theorem scanString_u4 (fuel h1 h2 h3 h4 : Nat) (tail : GoString)
    (e1 : isHex h1 = true) (e2 : isHex h2 = true) (e3 : isHex h3 = true) (e4 : isHex h4 = true) :
    scanString (fuel + 1) (92 :: 117 :: h1 :: h2 :: h3 :: h4 :: tail)
      = (scanString fuel tail).map (fun p => (92 :: 117 :: h1 :: h2 :: h3 :: h4 :: p.1, p.2)) := by
  simp [scanString, e1, e2, e3, e4]

theorem isHex_hexDigit (x : Nat) (h : x < 16) : isHex (hexDigit x) = true := by
  simp only [isHex, isDigit, hexDigit]
  split
  · simp; omega
  · simp; omega

theorem hexVal_hexDigit (x : Nat) (h : x < 16) : hexVal (hexDigit x) = x := by
  simp only [hexVal, isDigit, hexDigit]
  by_cases hx : x < 10
  · have : 48 ≤ 48 + x ∧ 48 + x ≤ 57 := by omega
    simp [hx, this]
  · have h1 : ¬ (48 ≤ 87 + x ∧ 87 + x ≤ 57) := by omega
    have h2 : 97 ≤ 87 + x ∧ 87 + x ≤ 102 := by omega
    simp only [if_neg hx, Bool.and_eq_true, decide_eq_true_eq, if_neg h1, if_pos h2]
    omega

theorem scanString_asciiChunk (b fuel : Nat) (tail : GoString) (hb : b < 0x80) :
    scanString (fuel + 1) (asciiChunk b ++ tail)
      = (scanString fuel tail).map (fun p => (asciiChunk b ++ p.1, p.2)) := by
  unfold asciiChunk
  split
  · next hs =>
    simp only [htmlSafe, Bool.and_eq_true, decide_eq_true_eq, bne_iff_ne, ne_eq] at hs
    exact scanString_plain_byte fuel b tail hs.1.1.1.1.1.1 hs.1.1.1.1.2 hs.1.1.1.2
  · split
    · next h => exact scanString_escape fuel b tail (by omega)
    · split
      · exact scanString_escape fuel 98 tail (by omega)
      · split
        · exact scanString_escape fuel 102 tail (by omega)
        · split
          · exact scanString_escape fuel 110 tail (by omega)
          · split
            · exact scanString_escape fuel 114 tail (by omega)
            · split
              · exact scanString_escape fuel 116 tail (by omega)
              · exact scanString_u4 fuel 48 48 _ _ tail (by decide) (by decide)
                  (isHex_hexDigit _ (by omega)) (isHex_hexDigit _ (by omega))

theorem asciiChunk_length (b : Nat) : 1 ≤ (asciiChunk b).length := by
  unfold asciiChunk
  repeat' split
  all_goals simp

theorem appendStringAux_nil (n : Nat) : appendStringAux n [] = [] := by
  cases n <;> rfl

theorem appendStringAux_ascii (n b : Nat) (rest : GoString) (hb : b < 0x80) :
    appendStringAux (n + 1) (b :: rest) = asciiChunk b ++ appendStringAux n rest := by
  simp only [appendStringAux, if_pos hb, asciiChunk]

theorem appendStringAux_invalid (n b : Nat) (rest : GoString) (hb : ¬ b < 0x80)
    (h : (decodeRune (b :: rest)).1 = runeError ∧ (decodeRune (b :: rest)).2 = 1) :
    appendStringAux (n + 1) (b :: rest) = [92, 117, 102, 102, 102, 100] ++ appendStringAux n rest := by
  simp only [appendStringAux, if_neg hb, if_pos h]

theorem appendStringAux_separator (n b : Nat) (rest : GoString) (hb : ¬ b < 0x80)
    (h : ¬ ((decodeRune (b :: rest)).1 = runeError ∧ (decodeRune (b :: rest)).2 = 1))
    (h2 : (decodeRune (b :: rest)).1 = 0x2028 ∨ (decodeRune (b :: rest)).1 = 0x2029) :
    appendStringAux (n + 1) (b :: rest)
      = [92, 117, 50, 48, 50, hexDigit ((decodeRune (b :: rest)).1 % 16)]
        ++ appendStringAux n ((b :: rest).drop (decodeRune (b :: rest)).2) := by
  simp only [appendStringAux, if_neg hb, if_neg h, if_pos h2]

theorem appendStringAux_raw (n b : Nat) (rest : GoString) (hb : ¬ b < 0x80)
    (h : ¬ ((decodeRune (b :: rest)).1 = runeError ∧ (decodeRune (b :: rest)).2 = 1))
    (h2 : ¬ ((decodeRune (b :: rest)).1 = 0x2028 ∨ (decodeRune (b :: rest)).1 = 0x2029)) :
    appendStringAux (n + 1) (b :: rest)
      = (b :: rest).take (decodeRune (b :: rest)).2
        ++ appendStringAux n ((b :: rest).drop (decodeRune (b :: rest)).2) := by
  simp only [appendStringAux, if_neg hb, if_neg h, if_neg h2]

/-- The scanner reads back the body `appendStringAux` wrote, up to the closing quote. -/
theorem scanString_appendStringAux (n : Nat) : ∀ (s : GoString) (fuel : Nat) (rest : GoString),
    s.length ≤ n → (appendStringAux n s).length + 1 ≤ fuel →
    scanString fuel (appendStringAux n s ++ 34 :: rest) = some (appendStringAux n s, rest) := by
  induction n with
  | zero =>
    intro s fuel rest hs hf
    obtain ⟨f, rfl⟩ : ∃ f, fuel = f + 1 := ⟨fuel - 1, by omega⟩
    have : s = [] := List.length_eq_zero.mp (by omega)
    subst this
    simp [appendStringAux, scanString_quote]
  | succ n ih =>
    intro s fuel rest hs hf
    cases s with
    | nil =>
      obtain ⟨f, rfl⟩ : ∃ f, fuel = f + 1 := ⟨fuel - 1, by omega⟩
      simp [appendStringAux, scanString_quote]
    | cons b tl =>
      have htl : tl.length ≤ n := by simpa using hs
      by_cases hb : b < 0x80
      · rw [appendStringAux_ascii n b tl hb] at hf ⊢
        have hlen := asciiChunk_length b
        rw [List.length_append] at hf
        obtain ⟨f, rfl⟩ : ∃ f, fuel = f + 1 := ⟨fuel - 1, by omega⟩
        rw [List.append_assoc, scanString_asciiChunk b f _ hb, ih tl f rest htl (by omega)]
        rfl
      · by_cases herr : (decodeRune (b :: tl)).1 = runeError ∧ (decodeRune (b :: tl)).2 = 1
        · rw [appendStringAux_invalid n b tl hb herr] at hf ⊢
          rw [List.length_append] at hf
          obtain ⟨f, rfl⟩ : ∃ f, fuel = f + 1 := ⟨fuel - 1, by omega⟩
          simp only [List.length_cons, List.length_nil] at hf
          rw [List.append_assoc]
          simp only [List.cons_append, List.nil_append]
          rw [scanString_u4 f 102 102 102 100 _ (by decide) (by decide) (by decide) (by decide),
            ih tl f rest htl (by omega)]
          rfl
        · have hshape := decodeRune_shape b tl (by omega) herr
          have hk := hshape.length_le
          have hdrop : ((b :: tl).drop (decodeRune (b :: tl)).2).length ≤ n := by
            rw [List.length_drop]
            simp only [List.length_cons] at hk ⊢
            omega
          by_cases hsep : (decodeRune (b :: tl)).1 = 0x2028 ∨ (decodeRune (b :: tl)).1 = 0x2029
          · rw [appendStringAux_separator n b tl hb herr hsep] at hf ⊢
            rw [List.length_append] at hf
            obtain ⟨f, rfl⟩ : ∃ f, fuel = f + 1 := ⟨fuel - 1, by omega⟩
            simp only [List.length_cons, List.length_nil] at hf
            rw [List.append_assoc]
            simp only [List.cons_append, List.nil_append]
            rw [scanString_u4 f 50 48 50 _ _ (by decide) (by decide) (by decide)
                (isHex_hexDigit _ (Nat.mod_lt _ (by decide))),
              ih _ f rest hdrop (by omega)]
            rfl
          · rw [appendStringAux_raw n b tl hb herr hsep] at hf ⊢
            rw [List.length_append] at hf
            have hplain : ∀ c ∈ (b :: tl).take (decodeRune (b :: tl)).2, 32 ≤ c ∧ c ≠ 34 ∧ c ≠ 92 := by
              intro c hc
              have := hshape.bytes_high c hc
              omega
            obtain ⟨f, rfl⟩ : ∃ f, fuel = f + ((b :: tl).take (decodeRune (b :: tl)).2).length :=
              ⟨fuel - ((b :: tl).take (decodeRune (b :: tl)).2).length, by omega⟩
            rw [List.append_assoc, scanString_plain _ f _ hplain, ih _ f rest hdrop (by omega)]
            rfl

theorem unquoteAux_plain_byte (fuel c : Nat) (tail : GoString) (h1 : 32 ≤ c) (h2 : c ≠ 34)
    (h3 : c ≠ 92) (h4 : c < 0x80) :
    unquoteAux (fuel + 1) (c :: tail) = (unquoteAux fuel tail).map (c :: ·) := by
  have h5 : ¬ (c = 34 ∨ c < 32) := by omega
  simp only [unquoteAux, if_neg h3, if_neg h5, if_pos h4]

theorem unquoteAux_u4 (fuel h1 h2 h3 h4 rr : Nat) (tail : GoString)
    (hg : getu4 (92 :: 117 :: h1 :: h2 :: h3 :: h4 :: tail) = some rr)
    (hs : ¬ (0xD800 ≤ rr ∧ rr < 0xE000)) :
    unquoteAux (fuel + 1) (92 :: 117 :: h1 :: h2 :: h3 :: h4 :: tail)
      = (unquoteAux fuel tail).map (encodeRune rr ++ ·) := by
  simp only [unquoteAux, if_true, hg, if_neg hs, List.drop_succ_cons, List.drop_zero]

theorem getu4_ascii (b : Nat) (tail : GoString) (hb : b < 0x80) :
    getu4 (92 :: 117 :: 48 :: 48 :: hexDigit (b / 16) :: hexDigit (b % 16) :: tail) = some b := by
  have e1 := isHex_hexDigit (b / 16) (by omega)
  have e2 := isHex_hexDigit (b % 16) (by omega)
  have v1 := hexVal_hexDigit (b / 16) (by omega)
  have v2 := hexVal_hexDigit (b % 16) (by omega)
  have z : isHex 48 = true := by decide
  have zv : hexVal 48 = 0 := by decide
  simp only [getu4, z, e1, e2, Bool.and_self, if_true, zv, v1, v2, Option.some.injEq]
  omega

theorem unquoteAux_asciiChunk (b fuel : Nat) (tail : GoString) (hb : b < 0x80) :
    unquoteAux (fuel + 1) (asciiChunk b ++ tail) = (unquoteAux fuel tail).map (b :: ·) := by
  unfold asciiChunk
  split
  · next hs =>
    simp only [htmlSafe, Bool.and_eq_true, decide_eq_true_eq, bne_iff_ne, ne_eq] at hs
    exact unquoteAux_plain_byte fuel b tail hs.1.1.1.1.1.1 hs.1.1.1.1.2 hs.1.1.1.2 hb
  · split
    · next h =>
      have h117 : ¬ b = 117 := by omega
      have he : b = 34 ∨ b = 92 ∨ b = 47 ∨ b = 39 := by omega
      simp only [List.cons_append, List.nil_append, unquoteAux, if_true, if_neg h117, if_pos he]
    · split
      · next h => subst h; simp [unquoteAux]
      · split
        · next h => subst h; simp [unquoteAux]
        · split
          · next h => subst h; simp [unquoteAux]
          · split
            · next h => subst h; simp [unquoteAux]
            · split
              · next h => subst h; simp [unquoteAux]
              · simp only [List.cons_append, List.nil_append]
                rw [unquoteAux_u4 fuel 48 48 _ _ b tail (getu4_ascii b tail hb) (by omega)]
                have : encodeRune b = [b] := by simp [encodeRune, hb]
                rw [this]
                rfl

theorem unquoteAux_raw {s : GoString} {r k : Nat} (h : RuneShape s r k) (fuel : Nat)
    (tail : GoString) :
    unquoteAux (fuel + 1) (s.take k ++ tail) = (unquoteAux fuel tail).map (s.take k ++ ·) := by
  have hdec := h.decode_prefix tail
  have henc := h.encode
  have hk := h.length_le
  have hhigh := h.bytes_high
  obtain ⟨c, rest, hcr⟩ : ∃ c rest, s.take k ++ tail = c :: rest := by
    cases hs : s.take k ++ tail with
    | nil =>
      have := congrArg List.length hs
      simp only [List.length_append, List.length_take, List.length_nil] at this
      omega
    | cons c rest => exact ⟨c, rest, rfl⟩
  have hc : 0x80 ≤ c := by
    apply hhigh c
    cases hsk : s.take k with
    | nil =>
      have := congrArg List.length hsk
      simp only [List.length_take, List.length_nil] at this
      omega
    | cons x xs =>
      rw [hsk] at hcr
      simp only [List.cons_append, List.cons.injEq] at hcr
      rw [← hcr.1]
      simp
  have c1 : ¬ c = 92 := by omega
  have c2 : ¬ (c = 34 ∨ c < 32) := by omega
  have c3 : ¬ c < 0x80 := by omega
  have hlen : (s.take k).length = k := by
    rw [List.length_take]; omega
  rw [hcr] at hdec ⊢
  simp only [unquoteAux, if_neg c1, if_neg c2, if_neg c3, hdec]
  rw [← hcr, List.drop_append_of_le_length (by omega), henc]
  have : (s.take k).drop k = [] := by
    apply List.drop_eq_nil_of_le; omega
  rw [this, List.nil_append]

theorem utf8Valid_cons_ascii (m b : Nat) (tl : GoString) (hb : b < 0x80)
    (h : utf8Valid (m + 1) (b :: tl) = true) : utf8Valid m tl = true := by
  have hd : decodeRune (b :: tl) = (b, 1) := by simp [decodeRune, hb]
  simp only [utf8Valid, hd] at h
  split at h
  · cases h
  · simpa using h

theorem utf8Valid_cons_multi (m b : Nat) (tl : GoString)
    (h : utf8Valid (m + 1) (b :: tl) = true) :
    ¬ ((decodeRune (b :: tl)).1 = runeError ∧ (decodeRune (b :: tl)).2 = 1)
    ∧ utf8Valid m ((b :: tl).drop (decodeRune (b :: tl)).2) = true := by
  simp only [utf8Valid] at h
  split at h
  · cases h
  · next hne => exact ⟨hne, h⟩

/-- Unquoting the body `appendStringAux` wrote gives the string back when the
string is valid UTF-8. -/
theorem unquoteAux_appendStringAux (n : Nat) : ∀ (s : GoString) (fuel m : Nat),
    s.length ≤ n → utf8Valid m s = true → s.length ≤ m →
    (appendStringAux n s).length + 1 ≤ fuel →
    unquoteAux fuel (appendStringAux n s) = some s := by
  induction n with
  | zero =>
    intro s fuel m hs _ _ hf
    obtain ⟨f, rfl⟩ : ∃ f, fuel = f + 1 := ⟨fuel - 1, by omega⟩
    have : s = [] := List.length_eq_zero.mp (by omega)
    subst this
    simp [appendStringAux, unquoteAux]
  | succ n ih =>
    intro s fuel m hs hv hm hf
    cases s with
    | nil =>
      obtain ⟨f, rfl⟩ : ∃ f, fuel = f + 1 := ⟨fuel - 1, by omega⟩
      simp [appendStringAux, unquoteAux]
    | cons b tl =>
      have htl : tl.length ≤ n := by simpa using hs
      obtain ⟨m', rfl⟩ : ∃ m', m = m' + 1 := ⟨m - 1, by simp at hm; omega⟩
      have hm' : tl.length ≤ m' := by simpa using hm
      by_cases hb : b < 0x80
      · rw [appendStringAux_ascii n b tl hb] at hf ⊢
        have hlen := asciiChunk_length b
        rw [List.length_append] at hf
        obtain ⟨f, rfl⟩ : ∃ f, fuel = f + 1 := ⟨fuel - 1, by omega⟩
        rw [unquoteAux_asciiChunk b f _ hb,
          ih tl f m' htl (utf8Valid_cons_ascii m' b tl hb hv) hm' (by omega)]
        rfl
      · obtain ⟨herr, hvt⟩ := utf8Valid_cons_multi m' b tl hv
        have hshape := decodeRune_shape b tl (by omega) herr
        have hk := hshape.length_le
        have hdrop : ((b :: tl).drop (decodeRune (b :: tl)).2).length ≤ n := by
          rw [List.length_drop]
          simp only [List.length_cons] at hk ⊢
          omega
        have hdropm : ((b :: tl).drop (decodeRune (b :: tl)).2).length ≤ m' := by
          rw [List.length_drop]
          simp only [List.length_cons] at hk hm ⊢
          omega
        by_cases hsep : (decodeRune (b :: tl)).1 = 0x2028 ∨ (decodeRune (b :: tl)).1 = 0x2029
        · rw [appendStringAux_separator n b tl hb herr hsep] at hf ⊢
          rw [List.length_append] at hf
          obtain ⟨f, rfl⟩ : ∃ f, fuel = f + 1 := ⟨fuel - 1, by omega⟩
          simp only [List.length_cons, List.length_nil] at hf
          have hg : getu4 (92 :: 117 :: 50 :: 48 :: 50 :: hexDigit ((decodeRune (b :: tl)).1 % 16)
              :: appendStringAux n ((b :: tl).drop (decodeRune (b :: tl)).2))
              = some (decodeRune (b :: tl)).1 := by
            rcases hsep with h | h <;> rw [h] <;> rfl
          simp only [List.cons_append, List.nil_append]
          rw [unquoteAux_u4 f 50 48 50 _ _ _ hg (by omega), ih _ f m' hdrop hvt hdropm (by omega),
            hshape.encode]
          simp
        · rw [appendStringAux_raw n b tl hb herr hsep] at hf ⊢
          rw [List.length_append] at hf
          have hlen : ((b :: tl).take (decodeRune (b :: tl)).2).length = (decodeRune (b :: tl)).2 := by
            rw [List.length_take]; omega
          obtain ⟨f, rfl⟩ : ∃ f, fuel = f + 1 := ⟨fuel - 1, by omega⟩
          rw [unquoteAux_raw hshape f _, ih _ f m' hdrop hvt hdropm (by omega)]
          simp

/-- A JSON string literal written by `appendString` scans and unquotes back to
the string, for a string that is valid UTF-8. -/
theorem unquote_appendString (s : GoString) (hv : validUTF8 s = true) :
    unquote (appendStringAux s.length s) = some s :=
  unquoteAux_appendStringAux s.length s _ s.length (Nat.le_refl _) hv (Nat.le_refl _)
    (Nat.le_refl _)

/-! ### Timestamps -/

theorem digitsValue_trailing_zeros (k : Nat) (acc : Nat) (ds : GoString) :
    digitsValue acc (ds ++ List.replicate k 48) = digitsValue acc ds * 10 ^ k := by
  rw [digitsValue_append]
  generalize digitsValue acc ds = v
  induction k generalizing v with
  | zero => simp [digitsValue_nil]
  | succ k ih =>
    rw [List.replicate_succ, digitsValue_cons, ih, Nat.pow_succ]
    ring

theorem trimZeros_spec (l : GoString) : ∃ k, l = trimZeros l ++ List.replicate k 48 := by
  refine ⟨(l.reverse.takeWhile (· == 48)).length, ?_⟩
  have h1 : l.reverse = l.reverse.takeWhile (· == 48) ++ l.reverse.dropWhile (· == 48) :=
    (List.takeWhile_append_dropWhile _ _).symm
  have h2 : l.reverse.takeWhile (· == 48)
      = List.replicate (l.reverse.takeWhile (· == 48)).length 48 := by
    apply List.eq_replicate_iff.mpr
    refine ⟨rfl, ?_⟩
    intro b hb
    have := List.mem_takeWhile_imp hb
    simpa using this
  have h3 : l = (l.reverse.dropWhile (· == 48)).reverse ++ (l.reverse.takeWhile (· == 48)).reverse := by
    rw [← List.reverse_append, ← h1, List.reverse_reverse]
  rw [h2, List.reverse_replicate] at h3
  exact h3

theorem trimZeros_all_digits (l : GoString) (h : ∀ c ∈ l, isDigit c = true) :
    ∀ c ∈ trimZeros l, isDigit c = true := by
  intro c hc
  obtain ⟨k, hk⟩ := trimZeros_spec l
  apply h
  rw [hk]
  exact List.mem_append_left _ hc

theorem parseFraction_nonfraction (c : Nat) (rest : GoString) (h1 : c ≠ 46) (h2 : c ≠ 44) :
    parseFraction (c :: rest) = (0, c :: rest) := by
  cases rest with
  | nil => rfl
  | cons d rest =>
    have : ¬ ((c = 46 ∨ c = 44) ∧ isDigit d = true) := by
      intro h; omega
    simp only [parseFraction, if_neg this]

/-- The fraction `appendNano` wrote is read back, up to the zone. -/
theorem parseFraction_appendNano (n c : Nat) (zone : GoString) (hn : n < 1000000000)
    (hc : isDigit c = false) (h1 : c ≠ 46) (h2 : c ≠ 44) :
    parseFraction (appendNano n ++ c :: zone) = (n, c :: zone) := by
  by_cases h0 : n = 0
  · subst h0
    simp only [appendNano, if_true, List.nil_append]
    exact parseFraction_nonfraction c zone h1 h2
  · simp only [appendNano, if_neg h0, List.cons_append]
    obtain ⟨k, hk⟩ := trimZeros_spec (padZero 9 (natDec n))
    have hall := trimZeros_all_digits _ (padZero_all_digits 9 n)
    have hval := digitsValue_padZero 9 n
    have hlen := padZero_length 8 n (by norm_num; omega)
    have hlen2 : (trimZeros (padZero 9 (natDec n))).length + k = 9 := by
      have := congrArg List.length hk
      rw [List.length_append, List.length_replicate, hlen] at this
      omega
    rw [hk, digitsValue_trailing_zeros] at hval
    cases htr : trimZeros (padZero 9 (natDec n)) with
    | nil =>
      rw [htr, digitsValue_nil] at hval
      omega
    | cons d ds =>
      rw [htr] at hall hval hlen2
      have hd : isDigit d = true := hall d (List.mem_cons_self _ _)
      have hstop := takeWhile_append_stop isDigit (d :: ds) zone c hall hc
      have hcond : (46 = 46 ∨ 46 = 44) ∧ isDigit d = true := ⟨Or.inl rfl, hd⟩
      simp only [List.cons_append] at hstop ⊢
      simp only [parseFraction, if_pos hcond, hstop.1, hstop.2, nanosOf]
      have htake : (d :: ds).take 9 = d :: ds := by
        apply List.take_of_length_le; omega
      rw [htake]
      have : 9 - (d :: ds).length = k := by omega
      rw [this, hval]
      simp [hd]

theorem getnum2_two (a b : Nat) (rest : GoString) (ha : isDigit a = true) (hb : isDigit b = true) :
    getnum2 (a :: b :: rest) = some ((a - 48) * 10 + (b - 48), rest) := by
  simp [getnum2, ha, hb]

theorem getnum12_two (a b : Nat) (rest : GoString) (ha : isDigit a = true)
    (hb : isDigit b = true) :
    getnum12 (a :: b :: rest) = some ((a - 48) * 10 + (b - 48), rest) := by
  simp [getnum12, ha, hb]

/-- The zone `appendZone` wrote is read back. -/
theorem parseZone_appendZone (offset : Int) (hmin : offset % 60 = 0) (hlo : -86400 < offset)
    (hhi : offset < 86400) : parseZone (appendZone offset) = some offset := by
  by_cases h0 : offset = 0
  · subst h0; rfl
  · have hdvd : (60 : Int) ∣ offset := Int.dvd_of_emod_eq_zero hmin
    have htd : Int.tdiv offset 60 = offset / 60 := Int.tdiv_eq_ediv_of_dvd hdvd
    have hh : (offset / 60).natAbs / 60 < 100 := by omega
    have hm : (offset / 60).natAbs % 60 < 100 := by omega
    obtain ⟨a, b, hab, ha, hb, hv1⟩ := appendInt_two _ hh
    obtain ⟨c, d, hcd, hc, hd, hv2⟩ := appendInt_two _ hm
    simp only [appendZone, if_neg h0, htd, hab, hcd]
    by_cases hneg : offset / 60 < 0
    · simp only [if_pos hneg, List.cons_append, List.nil_append, List.singleton_append, parseZone]
      simp only [getnum2_two _ _ _ ha hb, getnum2_two _ _ _ hc hd, hv1, hv2]
      have hr : (offset / 60).natAbs / 60 ≤ 24 ∧ (offset / 60).natAbs % 60 ≤ 60 := by omega
      simp only [true_or, or_true, and_self, if_true, if_pos hr, Option.some.injEq]
      omega
    · simp only [if_neg hneg, List.cons_append, List.nil_append, List.singleton_append, parseZone]
      simp only [getnum2_two _ _ _ ha hb, getnum2_two _ _ _ hc hd, hv1, hv2]
      have hr : (offset / 60).natAbs / 60 ≤ 24 ∧ (offset / 60).natAbs % 60 ≤ 60 := by omega
      have h45 : ¬ ((43 : Nat) = 45) := by decide
      simp only [true_or, or_true, and_self, if_true, if_pos hr, if_neg h45, Option.some.injEq]
      omega

theorem appendZone_head (offset : Int) :
    ∃ c zone, appendZone offset = c :: zone ∧ isDigit c = false ∧ c ≠ 46 ∧ c ≠ 44
      ∧ 32 ≤ c ∧ c ≠ 34 ∧ c ≠ 92 := by
  unfold appendZone
  split
  · exact ⟨90, [], rfl, by decide, by decide, by decide, by decide, by decide, by decide⟩
  · split
    · exact ⟨45, _, rfl, by decide, by decide, by decide, by decide, by decide, by decide⟩
    · exact ⟨43, _, rfl, by decide, by decide, by decide, by decide, by decide, by decide⟩

/-- The RFC 3339 text of a marshalable time parses back to that time. -/
theorem parseTime_appendFormat (t : Time) (h : t.marshalable) :
    parseTime (appendFormatRFC3339 t) = some t := by
  obtain ⟨⟨hm1, hm2, hd1, hd2, hh, hmi, hs, hn⟩, hy1, hy2, ho1, ho2, ho3⟩ := h
  obtain ⟨y1, y2, y3, y4, hy, e1, e2, e3, e4, hyv⟩ := appendInt_four t.year hy1 hy2
  obtain ⟨m1, m2, hmo, f1, f2, hmov⟩ := appendInt_two t.month (by omega)
  obtain ⟨d1, d2, hda, g1, g2, hdav⟩ := appendInt_two t.day (by
    have : daysIn t.month t.year ≤ 31 := by
      unfold daysIn; repeat' split
      all_goals omega
    omega)
  obtain ⟨p1, p2, hho, i1, i2, hhov⟩ := appendInt_two t.hour (by omega)
  obtain ⟨q1, q2, hmn, j1, j2, hmnv⟩ := appendInt_two t.minute (by omega)
  obtain ⟨r1, r2, hse, k1, k2, hsev⟩ := appendInt_two t.second (by omega)
  obtain ⟨c, zone, hz, hzc, hz1, hz2, _⟩ := appendZone_head t.offset
  have hfrac := parseFraction_appendNano t.nsec c zone hn hzc hz1 hz2
  have hzone := parseZone_appendZone t.offset ho1 ho2 ho3
  rw [hz] at hzone
  have hyear : getYear (y1 :: y2 :: y3 :: y4 :: 45 :: m1 :: m2 :: 45 :: d1 :: d2 :: 84 :: p1 :: p2
      :: 58 :: q1 :: q2 :: 58 :: r1 :: r2 :: (appendNano t.nsec ++ c :: zone))
      = some (t.year, 45 :: m1 :: m2 :: 45 :: d1 :: d2 :: 84 :: p1 :: p2
      :: 58 :: q1 :: q2 :: 58 :: r1 :: r2 :: (appendNano t.nsec ++ c :: zone)) := by
    simp only [getYear, e1, e2, e3, e4, Bool.and_self, if_true, hyv]
  have hcond : 1 ≤ t.month ∧ t.month ≤ 12 ∧ t.hour < 24 ∧ t.minute < 60 ∧ t.second < 60
      ∧ 1 ≤ t.day ∧ t.day ≤ daysIn t.month t.year := ⟨hm1, hm2, hh, hmi, hs, hd1, hd2⟩
  simp only [appendFormatRFC3339, hy, hmo, hda, hho, hmn, hse, hz, List.cons_append,
    List.nil_append, List.append_assoc, parseTime, hyear, expectByte, if_true,
    getnum2_two _ _ _ f1 f2, getnum2_two _ _ _ g1 g2, getnum12_two _ _ _ i1 i2,
    getnum2_two _ _ _ j1 j2, getnum2_two _ _ _ k1 k2, hfrac, hzone, hmov, hdav, hhov, hmnv,
    hsev, if_pos hcond]

/-! ### The JSON grammar on the text `MarshalIndent` writes -/

theorem parseJson_value_string (f d : Nat) (s rest : GoString) (h : skipWs s = 34 :: rest) :
    parseJson (f + 1) d .value s
      = (scanString rest.length rest).map (fun p => (Json.str p.1, p.2)) := by
  rw [parseJson, h]
  simp

theorem parseJson_value_number (f d c : Nat) (s rest : GoString) (h : skipWs s = c :: rest)
    (hc : c = 45 ∨ isDigit c = true) :
    parseJson (f + 1) d .value s
      = (scanNumber (c :: rest)).map (fun p => (Json.num p.1, p.2)) := by
  have h1 : ¬ c = 123 := by
    rcases hc with h | h
    · omega
    · intro e; subst e; simp [isDigit] at h
  have h2 : ¬ c = 91 := by
    rcases hc with h | h
    · omega
    · intro e; subst e; simp [isDigit] at h
  have h3 : ¬ c = 34 := by
    rcases hc with h | h
    · omega
    · intro e; subst e; simp [isDigit] at h
  rw [parseJson, h]
  simp only [if_neg h1, if_neg h2, if_neg h3, if_pos hc]

theorem parseJson_value_object (f d : Nat) (s rest rest2 : GoString) (h : skipWs s = 123 :: rest)
    (h2 : skipWs rest = 34 :: rest2) (hd : d < maxNestingDepth) :
    parseJson (f + 1) d .value s = parseJson f (d + 1) (.members []) rest := by
  have hd' : ¬ maxNestingDepth ≤ d := by omega
  rw [parseJson, h]
  simp only [if_true, if_neg hd', h2]

theorem parseJson_value_array (f d : Nat) (s rest rest2 : GoString) (h : skipWs s = 91 :: rest)
    (h2 : skipWs rest = 123 :: rest2) (hd : d < maxNestingDepth) :
    parseJson (f + 1) d .value s = parseJson f (d + 1) (.elems []) rest := by
  have hd' : ¬ maxNestingDepth ≤ d := by omega
  have h1 : ¬ ((91 : Nat) = 123) := by decide
  rw [parseJson, h]
  simp only [if_neg h1, if_true, if_neg hd', h2]

theorem parseJson_members_more (f d : Nat) (acc : List (GoString × Json))
    (s rest key rest2 rest3 rest4 rest5 : GoString) (v : Json)
    (h1 : skipWs s = 34 :: rest) (h2 : scanString rest.length rest = some (key, rest2))
    (h3 : skipWs rest2 = 58 :: rest3) (h4 : parseJson f d .value rest3 = some (v, rest4))
    (h5 : skipWs rest4 = 44 :: rest5) :
    parseJson (f + 1) d (.members acc) s = parseJson f d (.members (acc ++ [(key, v)])) rest5 := by
  rw [parseJson, h1]
  simp only [h2, h3, h4, h5]

theorem parseJson_members_last (f d : Nat) (acc : List (GoString × Json))
    (s rest key rest2 rest3 rest4 rest5 : GoString) (v : Json)
    (h1 : skipWs s = 34 :: rest) (h2 : scanString rest.length rest = some (key, rest2))
    (h3 : skipWs rest2 = 58 :: rest3) (h4 : parseJson f d .value rest3 = some (v, rest4))
    (h5 : skipWs rest4 = 125 :: rest5) :
    parseJson (f + 1) d (.members acc) s = some (.obj (acc ++ [(key, v)]), rest5) := by
  rw [parseJson, h1]
  simp only [h2, h3, h4, h5]

theorem parseJson_elems_more (f d : Nat) (acc : List Json) (s rest rest2 : GoString) (v : Json)
    (h1 : parseJson f d .value s = some (v, rest)) (h2 : skipWs rest = 44 :: rest2) :
    parseJson (f + 1) d (.elems acc) s = parseJson f d (.elems (acc ++ [v])) rest2 := by
  rw [parseJson, h1]
  simp only [h2]

theorem parseJson_elems_last (f d : Nat) (acc : List Json) (s rest rest2 : GoString) (v : Json)
    (h1 : parseJson f d .value s = some (v, rest)) (h2 : skipWs rest = 93 :: rest2) :
    parseJson (f + 1) d (.elems acc) s = some (.arr (acc ++ [v]), rest2) := by
  rw [parseJson, h1]
  simp only [h2]

theorem appendInt_plain (x : Int) (w : Nat) : ∀ c ∈ appendInt x w, 32 ≤ c ∧ c ≠ 34 ∧ c ≠ 92 := by
  have hd : ∀ c, isDigit c = true → 32 ≤ c ∧ c ≠ 34 ∧ c ≠ 92 := by
    intro c hc
    simp only [isDigit, Bool.and_eq_true, decide_eq_true_eq] at hc
    omega
  intro c hc
  unfold appendInt at hc
  split at hc
  · rcases List.mem_cons.mp hc with h | h
    · subst h; decide
    · exact hd c (padZero_all_digits w _ c h)
  · exact hd c (padZero_all_digits w _ c hc)

theorem appendNano_plain (n : Nat) : ∀ c ∈ appendNano n, 32 ≤ c ∧ c ≠ 34 ∧ c ≠ 92 := by
  intro c hc
  unfold appendNano at hc
  split at hc
  · simp at hc
  · rcases List.mem_cons.mp hc with h | h
    · subst h; decide
    · have := trimZeros_all_digits _ (padZero_all_digits 9 n) c h
      simp only [isDigit, Bool.and_eq_true, decide_eq_true_eq] at this
      omega

theorem appendZone_plain (offset : Int) : ∀ c ∈ appendZone offset, 32 ≤ c ∧ c ≠ 34 ∧ c ≠ 92 := by
  intro c hc
  unfold appendZone at hc
  split at hc
  · simp only [List.mem_singleton] at hc
    subst hc; decide
  · simp only [List.mem_append, List.mem_singleton] at hc
    rcases hc with ((h | h) | h) | h
    · split at h <;> simp only [List.mem_singleton] at h <;> subst h <;> decide
    · exact appendInt_plain _ _ c h
    · subst h; decide
    · exact appendInt_plain _ _ c h

theorem plain_append (a b : GoString) (ha : ∀ c ∈ a, 32 ≤ c ∧ c ≠ 34 ∧ c ≠ 92)
    (hb : ∀ c ∈ b, 32 ≤ c ∧ c ≠ 34 ∧ c ≠ 92) : ∀ c ∈ a ++ b, 32 ≤ c ∧ c ≠ 34 ∧ c ≠ 92 := by
  intro c hc
  rcases List.mem_append.mp hc with h | h
  · exact ha c h
  · exact hb c h

theorem plain_singleton (x : Nat) (h : 32 ≤ x ∧ x ≠ 34 ∧ x ≠ 92) :
    ∀ c ∈ [x], 32 ≤ c ∧ c ≠ 34 ∧ c ≠ 92 := by
  intro c hc
  simp only [List.mem_singleton] at hc
  subst hc
  exact h

theorem appendFormatRFC3339_plain (t : Time) :
    ∀ c ∈ appendFormatRFC3339 t, 32 ≤ c ∧ c ≠ 34 ∧ c ≠ 92 := by
  unfold appendFormatRFC3339
  refine plain_append _ _ (plain_append _ _ (plain_append _ _ (plain_append _ _ (plain_append _ _
    (plain_append _ _ (plain_append _ _ (plain_append _ _ (plain_append _ _ (plain_append _ _
    (plain_append _ _ (plain_append _ _ (appendInt_plain _ _) (plain_singleton _ (by decide)))
    (appendInt_plain _ _)) (plain_singleton _ (by decide))) (appendInt_plain _ _))
    (plain_singleton _ (by decide))) (appendInt_plain _ _)) (plain_singleton _ (by decide)))
    (appendInt_plain _ _)) (plain_singleton _ (by decide))) (appendInt_plain _ _))
    (appendNano_plain _)) (appendZone_plain _)

theorem skipWs_of_not_ws (c : Nat) (rest : GoString) (h : isWs c = false) :
    skipWs (c :: rest) = c :: rest := by
  simp [skipWs, h]

theorem skipWs_space (rest : GoString) : skipWs (32 :: rest) = skipWs rest := by
  simp [skipWs, isWs]

/-- A plain string body between quotes scans as itself. -/
theorem scanString_plain_quoted (body tail : GoString)
    (h : ∀ c ∈ body, 32 ≤ c ∧ c ≠ 34 ∧ c ≠ 92) :
    scanString (body ++ 34 :: tail).length (body ++ 34 :: tail) = some (body, tail) := by
  have hlen : (body ++ 34 :: tail).length = (tail.length + 1) + body.length := by
    simp only [List.length_append, List.length_cons]; omega
  rw [hlen, scanString_plain body _ _ h, scanString_quote]
  simp

theorem parseJson_plain_string (f d : Nat) (body tail : GoString)
    (h : ∀ c ∈ body, 32 ≤ c ∧ c ≠ 34 ∧ c ≠ 92) :
    parseJson (f + 1) d .value (32 :: 34 :: (body ++ 34 :: tail)) = some (.str body, tail) := by
  rw [parseJson_value_string f d (32 :: 34 :: (body ++ 34 :: tail)) (body ++ 34 :: tail) rfl,
    scanString_plain_quoted body tail h]
  rfl

theorem parseJson_appendString (f d : Nat) (s tail : GoString) :
    parseJson (f + 1) d .value (32 :: 34 :: (appendStringAux s.length s ++ 34 :: tail))
      = some (.str (appendStringAux s.length s), tail) := by
  rw [parseJson_value_string f d (32 :: 34 :: (appendStringAux s.length s ++ 34 :: tail))
      (appendStringAux s.length s ++ 34 :: tail) rfl,
    scanString_appendStringAux s.length s _ tail (Nat.le_refl _)
      (by simp only [List.length_append, List.length_cons]; omega)]
  rfl

theorem fmtInt_head (i : Int) : ∃ c rest, fmtInt i = c :: rest ∧ (c = 45 ∨ isDigit c = true) := by
  unfold fmtInt
  split
  · exact ⟨45, _, rfl, Or.inl rfl⟩
  · cases h : natDec i.natAbs with
    | nil => exact absurd h (natDec_ne_nil _)
    | cons c rest =>
      exact ⟨c, rest, rfl, Or.inr (natDec_all_digits i.natAbs c (by rw [h]; simp))⟩

theorem parseJson_fmtInt (f d : Nat) (i : Int) (tail : GoString) :
    parseJson (f + 1) d .value (32 :: (fmtInt i ++ 44 :: tail))
      = some (.num (fmtInt i), 44 :: tail) := by
  obtain ⟨c, rest, hcr, hc⟩ := fmtInt_head i
  have hsk : skipWs (32 :: (fmtInt i ++ 44 :: tail)) = c :: (rest ++ 44 :: tail) := by
    rw [hcr]
    have hws : isWs c = false := by
      rcases hc with h | h
      · subst h; decide
      · simp only [isDigit, Bool.and_eq_true, decide_eq_true_eq] at h
        simp only [isWs, Bool.or_eq_false_iff, decide_eq_false_iff_not]
        omega
    rw [skipWs_space, List.cons_append, skipWs_of_not_ws c _ hws]
  rw [parseJson_value_number f d c _ _ hsk hc]
  have : c :: (rest ++ 44 :: tail) = fmtInt i ++ 44 :: tail := by rw [hcr]; rfl
  rw [this, scanNumber_fmtInt]
  rfl

theorem marshalTime_eq (t : Time) (h : t.marshalable) :
    marshalTime t = some ([34] ++ appendFormatRFC3339 t ++ [34]) := by
  obtain ⟨_, hy1, hy2, ho1, ho2, ho3⟩ := h
  have hz : t.offset = 0 ∨ (Int.tdiv t.offset 60).natAbs / 60 < 24 := by
    right
    rw [Int.tdiv_eq_ediv_of_dvd (Int.dvd_of_emod_eq_zero ho1)]
    omega
  rw [marshalTime, if_pos ⟨hy1, hy2, hz⟩]

theorem marshalTask_text (t : Task) (hc : t.CreatedAt.marshalable) (hu : t.UpdatedAt.marshalable) :
    ∃ x, marshalTask t = some x ∧ ∀ tail, x ++ tail = taskText t tail := by
  refine ⟨_, by rw [marshalTask, marshalTime_eq _ hc, marshalTime_eq _ hu], ?_⟩
  intro tail
  have l1 : lit "\x7b\n    \"id\": " = 123 :: 10 :: 32 :: 32 :: 32 :: 32 :: 34 :: (lit "id" ++ [34, 58, 32]) := by
    decide
  have l2 : lit ",\n    \"description\": "
      = 44 :: 10 :: 32 :: 32 :: 32 :: 32 :: 34 :: (lit "description" ++ [34, 58, 32]) := by decide
  have l3 : lit ",\n    \"status\": "
      = 44 :: 10 :: 32 :: 32 :: 32 :: 32 :: 34 :: (lit "status" ++ [34, 58, 32]) := by decide
  have l4 : lit ",\n    \"created_at\": "
      = 44 :: 10 :: 32 :: 32 :: 32 :: 32 :: 34 :: (lit "created_at" ++ [34, 58, 32]) := by decide
  have l5 : lit ",\n    \"updated_at\": "
      = 44 :: 10 :: 32 :: 32 :: 32 :: 32 :: 34 :: (lit "updated_at" ++ [34, 58, 32]) := by decide
  have l6 : lit "\n  \x7d" = [10, 32, 32, 125] := by decide
  simp only [l1, l2, l3, l4, l5, l6, taskText, memberText, appendString, List.append_assoc,
    List.cons_append, List.nil_append]

theorem parseJson_member_more (f d : Nat) (acc : List (GoString × Json))
    (key vtext rest5 : GoString) (v : Json)
    (hkey : ∀ c ∈ key, 32 ≤ c ∧ c ≠ 34 ∧ c ≠ 92)
    (h4 : parseJson f d .value (32 :: vtext) = some (v, 44 :: rest5)) :
    parseJson (f + 1) d (.members acc) (memberText key vtext)
      = parseJson f d (.members (acc ++ [(key, v)])) rest5 :=
  parseJson_members_more f d acc (memberText key vtext) (key ++ 34 :: 58 :: 32 :: vtext) key
    (58 :: 32 :: vtext) (32 :: vtext) (44 :: rest5) rest5 v rfl
    (scanString_plain_quoted key _ hkey) rfl h4 rfl

theorem parseJson_member_last (f d : Nat) (acc : List (GoString × Json))
    (key vtext rest5 : GoString) (v : Json)
    (hkey : ∀ c ∈ key, 32 ≤ c ∧ c ≠ 34 ∧ c ≠ 92)
    (h4 : parseJson f d .value (32 :: vtext) = some (v, 10 :: 32 :: 32 :: 125 :: rest5)) :
    parseJson (f + 1) d (.members acc) (memberText key vtext)
      = some (.obj (acc ++ [(key, v)]), rest5) :=
  parseJson_members_last f d acc (memberText key vtext) (key ++ 34 :: 58 :: 32 :: vtext) key
    (58 :: 32 :: vtext) (32 :: vtext) (10 :: 32 :: 32 :: 125 :: rest5) rest5 v rfl
    (scanString_plain_quoted key _ hkey) rfl h4 rfl

/-- The scanner delimits the text of one task as `taskJson`. -/
theorem parseJson_taskText (t : Task) (g : Nat) (s tail : GoString)
    (hs : skipWs s = taskText t tail) :
    parseJson (g + 7) 1 .value s = some (taskJson t, tail) := by
  rw [parseJson_value_object (g + 6) 1 s _ _ hs rfl (by decide)]
  rw [parseJson_member_more (g + 5) 2 [] (lit "id") _ _ _ (by decide)
    (parseJson_fmtInt (g + 4) 2 t.ID _)]
  rw [parseJson_member_more (g + 4) 2 _ (lit "description") _ _ _ (by decide)
    (parseJson_appendString (g + 3) 2 t.Description _)]
  rw [parseJson_member_more (g + 3) 2 _ (lit "status") _ _ _ (by decide)
    (parseJson_appendString (g + 2) 2 t.Status _)]
  rw [parseJson_member_more (g + 2) 2 _ (lit "created_at") _ _ _ (by decide)
    (parseJson_plain_string (g + 1) 2 _ _ (appendFormatRFC3339_plain t.CreatedAt))]
  rw [parseJson_member_last (g + 1) 2 _ (lit "updated_at") _ _ _ (by decide)
    (parseJson_plain_string g 2 _ _ (appendFormatRFC3339_plain t.UpdatedAt))]
  rfl

/-- Decoding the members `marshalTask` wrote gives the task back. -/
theorem decodeElem_taskJson (t : Task) (h : t.portable) : decodeElem (taskJson t) = some t := by
  obtain ⟨hlo, hhi, hd, hs, hc, hu⟩ := h
  have k1 : unquote (lit "id") = some (lit "id") := by decide
  have k2 : unquote (lit "description") = some (lit "description") := by decide
  have k3 : unquote (lit "status") = some (lit "status") := by decide
  have k4 : unquote (lit "created_at") = some (lit "created_at") := by decide
  have k5 : unquote (lit "updated_at") = some (lit "updated_at") := by decide
  have f1 : fieldOf (lit "id") = some .id := by decide
  have f2 : fieldOf (lit "description") = some .description := by decide
  have f3 : fieldOf (lit "status") = some .status := by decide
  have f4 : fieldOf (lit "created_at") = some .createdAt := by decide
  have f5 : fieldOf (lit "updated_at") = some .updatedAt := by decide
  simp only [decodeElem, taskJson, decodeMembers, k1, k2, k3, k4, k5, f1, f2, f3, f4, f5, setField,
    parseIntLit_fmtInt t.ID hlo hhi, unquote_appendString _ hd, unquote_appendString _ hs,
    parseTime_appendFormat _ hc, parseTime_appendFormat _ hu, Option.map_some']

theorem decodeElems_taskJson (ts : List Task) (h : ∀ t ∈ ts, t.portable) :
    decodeElems (ts.map taskJson) = some ts := by
  induction ts with
  | nil => rfl
  | cons t rest ih =>
    rw [List.map_cons, decodeElems, decodeElem_taskJson t (h t (List.mem_cons_self _ _)),
      ih (fun u hu => h u (List.mem_cons_of_mem _ hu))]

theorem marshalElems_text (ts : List Task) (h : ∀ t ∈ ts, t.portable) :
    ∃ x, marshalElems ts = some x ∧ ∀ tail, x ++ tail = elemsText ts tail := by
  induction ts with
  | nil => exact ⟨[], rfl, fun tail => rfl⟩
  | cons t rest ih =>
    have ht := h t (List.mem_cons_self _ _)
    obtain ⟨a, ha, hat⟩ := marshalTask_text t ht.2.2.2.2.1 ht.2.2.2.2.2
    cases rest with
    | nil => exact ⟨a, by rw [marshalElems, ha], fun tail => by rw [hat]; rfl⟩
    | cons t2 r =>
      obtain ⟨b, hb, hbt⟩ := ih (fun u hu => h u (List.mem_cons_of_mem _ hu))
      refine ⟨a ++ lit ",\n  " ++ b, by rw [marshalElems, ha, hb]; simp, ?_⟩
      intro tail
      have l : lit ",\n  " = [44, 10, 32, 32] := by decide
      rw [List.append_assoc, List.append_assoc, hat, l, hbt]
      rfl

theorem taskText_length (t : Task) (tail : GoString) :
    tail.length + 8 ≤ (taskText t tail).length := by
  simp only [taskText, memberText, List.length_cons, List.length_append]
  omega

theorem elemsText_length (ts : List Task) (tail : GoString) :
    tail.length + 8 * ts.length ≤ (elemsText ts tail).length := by
  induction ts with
  | nil => simp [elemsText]
  | cons t rest ih =>
    cases rest with
    | nil =>
      have := taskText_length t tail
      simp only [elemsText, List.length_cons, List.length_nil]
      omega
    | cons t2 r =>
      have := taskText_length t (44 :: 10 :: 32 :: 32 :: elemsText (t2 :: r) tail)
      simp only [elemsText, List.length_cons] at ih this ⊢
      omega

theorem skipWs_elemsText (t : Task) (rest : List Task) (tail : GoString) :
    skipWs (10 :: 32 :: 32 :: elemsText (t :: rest) tail) = elemsText (t :: rest) tail := by
  cases rest <;> rfl

/-- The scanner delimits the elements `marshalElems` wrote, up to the closing bracket. -/
theorem parseJson_elemsText (ts : List Task) : ∀ (g : Nat) (acc : List Json) (s tail : GoString),
    ts ≠ [] → skipWs s = elemsText ts (10 :: 93 :: tail) →
    parseJson (g + ts.length + 7) 1 (.elems acc) s
      = some (.arr (acc ++ ts.map taskJson), tail) := by
  induction ts with
  | nil => intro g acc s tail h; exact absurd rfl h
  | cons t rest ih =>
    intro g acc s tail _ hs
    cases rest with
    | nil =>
      have hv := parseJson_taskText t g s (10 :: 93 :: tail) hs
      have := parseJson_elems_last (g + 7) 1 acc s (10 :: 93 :: tail) tail (taskJson t) hv rfl
      simpa using this
    | cons t2 r =>
      have hs' : skipWs s = taskText t (44 :: 10 :: 32 :: 32 :: elemsText (t2 :: r) (10 :: 93 :: tail)) :=
        hs
      have hv := parseJson_taskText t (g + (t2 :: r).length) s _ hs'
      have hstep := parseJson_elems_more (g + (t2 :: r).length + 7) 1 acc s _
        (10 :: 32 :: 32 :: elemsText (t2 :: r) (10 :: 93 :: tail)) (taskJson t) hv rfl
      have hrec := ih g (acc ++ [taskJson t])
        (10 :: 32 :: 32 :: elemsText (t2 :: r) (10 :: 93 :: tail)) tail (by simp)
        (skipWs_elemsText t2 r _)
      have e : g + (t :: t2 :: r).length + 7 = g + (t2 :: r).length + 7 + 1 := by
        simp only [List.length_cons]; omega
      rw [e, hstep, hrec]
      simp

/-- The document `MarshalIndent` writes for a non-empty store decodes to the store. -/
theorem unmarshal_marshal_nonempty (t : Task) (rest : List Task)
    (h : ∀ u ∈ t :: rest, u.portable) :
    ∃ b, marshalElems (t :: rest) = some b
      ∧ unmarshalTasks (lit "[\n  " ++ b ++ lit "\n]") = some (some (t :: rest)) := by
  obtain ⟨b, hb, hbt⟩ := marshalElems_text (t :: rest) h
  refine ⟨b, hb, ?_⟩
  have l1 : lit "[\n  " = [91, 10, 32, 32] := by decide
  have l2 : lit "\n]" = [10, 93] := by decide
  have hdata : lit "[\n  " ++ b ++ lit "\n]"
      = 91 :: 10 :: 32 :: 32 :: elemsText (t :: rest) [10, 93] := by
    rw [l1, l2, List.append_assoc, hbt]
    rfl
  have hlen := elemsText_length (t :: rest) [10, 93]
  have hhead : ∃ X, elemsText (t :: rest) [10, 93] = 123 :: X := by
    cases rest <;> exact ⟨_, rfl⟩
  obtain ⟨X, hX⟩ := hhead
  have hsk2 : skipWs (10 :: 32 :: 32 :: elemsText (t :: rest) [10, 93]) = 123 :: X := by
    rw [skipWs_elemsText, hX]
  obtain ⟨g, hg⟩ : ∃ g, (lit "[\n  " ++ b ++ lit "\n]").length = g + (t :: rest).length + 7 := by
    refine ⟨(lit "[\n  " ++ b ++ lit "\n]").length - (t :: rest).length - 7, ?_⟩
    rw [hdata]
    simp only [List.length_cons, List.length_nil] at hlen ⊢
    omega
  have hparse : parseJson ((lit "[\n  " ++ b ++ lit "\n]").length + 1) 0 .value
      (lit "[\n  " ++ b ++ lit "\n]") = some (.arr ((t :: rest).map taskJson), []) := by
    rw [hg, hdata]
    rw [parseJson_value_array (g + (t :: rest).length + 7) 0
      (91 :: 10 :: 32 :: 32 :: elemsText (t :: rest) [10, 93])
      (10 :: 32 :: 32 :: elemsText (t :: rest) [10, 93]) X rfl hsk2 (by decide)]
    have := parseJson_elemsText (t :: rest) g [] (10 :: 32 :: 32 :: elemsText (t :: rest) [10, 93]) []
      (by simp) (skipWs_elemsText t rest _)
    simpa using this
  rw [unmarshalTasks, parseDocument, hparse]
  simp only [skipWs, if_true, decodeElems_taskJson (t :: rest) h, Option.map_some']

set_option maxRecDepth 100000 in
/-- C5 (counterexample): a store whose one task has the description made of the
single byte 0xFF (what `add` stores for such an argument) is saved, and loading
the written snapshot gives the description U+FFFD (bytes EF BF BD) instead. -/
theorem roundtrip_loses_invalid_utf8 :
    (LoadTasks (SaveTasks ⟨[⟨1, [0xFF], lit "todo", ⟨2024, 1, 2, 10, 0, 0, 0, 0⟩,
          ⟨2024, 1, 2, 10, 0, 0, 0, 0⟩⟩], false, 2⟩ none).1).map (fun r => r.2.tasks)
      = some [⟨1, [0xEF, 0xBF, 0xBD], lit "todo", ⟨2024, 1, 2, 10, 0, 0, 0, 0⟩,
          ⟨2024, 1, 2, 10, 0, 0, 0, 0⟩⟩]
    ∧ (LoadTasks (SaveTasks ⟨[⟨1, [0xFF], lit "todo", ⟨2024, 1, 2, 10, 0, 0, 0, 0⟩,
          ⟨2024, 1, 2, 10, 0, 0, 0, 0⟩⟩], false, 2⟩ none).1).map (fun r => r.2.tasks)
      ≠ some [⟨1, [0xFF], lit "todo", ⟨2024, 1, 2, 10, 0, 0, 0, 0⟩, ⟨2024, 1, 2, 10, 0, 0, 0, 0⟩⟩] := by
  decide

/-- C5 (amended): for every store whose tasks are portable (id within `int`,
description and status valid UTF-8, timestamps with a year in 0..9999 and a
zone offset of whole minutes within a day), `SaveTasks` succeeds, and
`LoadTasks` on the snapshot it wrote yields the same tasks, with the same ids,
descriptions, statuses and timestamps, in the same order (and the counter
recomputed from them). -/
theorem save_load_roundtrip (s : State) (file : Option GoString)
    (hnil : s.isNil = true → s.tasks = []) (hp : ∀ t ∈ s.tasks, t.portable) :
    ∃ data, SaveTasks s file = (some data, true)
      ∧ LoadTasks (some data)
          = some (some data,
              { tasks := s.tasks, isNil := s.isNil, nextID := recomputeNextID s.tasks }) := by
  obtain ⟨tasks, isNil, nextID⟩ := s
  cases tasks with
  | nil =>
    cases isNil with
    | true =>
      refine ⟨lit "null", rfl, ?_⟩
      have : unmarshalTasks (lit "null") = some none := by decide
      simp only [LoadTasks, this]
    | false =>
      refine ⟨lit "[]", rfl, ?_⟩
      have : unmarshalTasks (lit "[]") = some (some []) := by decide
      simp only [LoadTasks, this]
  | cons t rest =>
    have hfalse : isNil = false := by
      cases isNil with
      | true => exact absurd (hnil rfl) (by simp)
      | false => rfl
    subst hfalse
    obtain ⟨b, hb, hu⟩ := unmarshal_marshal_nonempty t rest hp
    refine ⟨lit "[\n  " ++ b ++ lit "\n]", ?_, ?_⟩
    · simp only [SaveTasks, marshalIndent, hb]
    · simp only [LoadTasks, hu]

/-- C5 (witness): a store of two tasks, one with a non-ASCII description. -/
theorem save_load_roundtrip_witness :
    ∃ data,
      SaveTasks ⟨[⟨1, lit "buy <milk> & \"eggs\"", lit "todo", ⟨2024, 1, 2, 10, 0, 0, 120000, 19800⟩,
                   ⟨2024, 1, 2, 10, 0, 0, 120500, 19800⟩⟩,
                  ⟨2, [0xE2, 0x82, 0xAC, 0x35], lit "done", ⟨2024, 2, 29, 23, 59, 59, 0, 0⟩,
                   ⟨2024, 3, 1, 0, 0, 1, 999999999, -3600⟩⟩], false, 3⟩ none = (some data, true)
      ∧ LoadTasks (some data)
          = some (some data,
              ⟨[⟨1, lit "buy <milk> & \"eggs\"", lit "todo", ⟨2024, 1, 2, 10, 0, 0, 120000, 19800⟩,
                 ⟨2024, 1, 2, 10, 0, 0, 120500, 19800⟩⟩,
                ⟨2, [0xE2, 0x82, 0xAC, 0x35], lit "done", ⟨2024, 2, 29, 23, 59, 59, 0, 0⟩,
                 ⟨2024, 3, 1, 0, 0, 1, 999999999, -3600⟩⟩], false, 3⟩) :=
  save_load_roundtrip _ none (by decide) (by decide)

theorem LoadTasks_nextID (file file1 : Option GoString) (s : State)
    (h : LoadTasks file = some (file1, s)) : s.nextID = recomputeNextID s.tasks := by
  unfold LoadTasks at h
  split at h
  · simp only [Option.some.injEq, Prod.mk.injEq] at h
    rw [← h.2]
    decide
  · split at h
    · cases h
    · simp only [Option.some.injEq, Prod.mk.injEq] at h
      rw [← h.2]
    · simp only [Option.some.injEq, Prod.mk.injEq] at h
      rw [← h.2]

theorem main_loaded (file : Option GoString) (cmd : Command) (c1 c2 : Time) (s : State)
    (h : (main file cmd c1 c2).loaded = some s) :
    ∃ file1, LoadTasks file = some (file1, s)
      ∧ (main file cmd c1 c2).outcome = some (runCommand s cmd c1 c2) := by
  unfold main at h ⊢
  cases hl : LoadTasks file with
  | none => simp [hl] at h
  | some p =>
    obtain ⟨file1, s1⟩ := p
    simp only [hl] at h ⊢
    have hs : s1 = s := by
      cases cmd <;> simp only at h <;> (try split at h) <;> simpa using h
    subst hs
    refine ⟨file1, rfl, ?_⟩
    cases cmd <;> simp only <;> (try split) <;> rfl

theorem runAll_getElem (cmds : List (Command × Time × Time)) :
    ∀ (file : Option GoString) (j : Nat) (r : Invocation) (cmd : Command) (c1 c2 : Time),
    (runAll file cmds)[j]? = some r → cmds[j]? = some (cmd, c1, c2) →
    ∃ f, r = main f cmd c1 c2 := by
  induction cmds with
  | nil => intro file j r cmd c1 c2 h; simp [runAll] at h
  | cons a rest ih =>
    intro file j r cmd c1 c2 hr hc
    obtain ⟨cmd0, d1, d2⟩ := a
    cases j with
    | zero =>
      simp only [runAll, List.getElem?_cons_zero, Option.some.injEq, Prod.mk.injEq] at hr hc
      obtain ⟨e1, e2, e3⟩ := hc
      subst e1; subst e2; subst e3
      exact ⟨file, hr.symm⟩
    | succ j =>
      simp only [runAll, List.getElem?_cons_succ] at hr hc
      exact ih _ j r cmd c1 c2 hr hc

theorem assigned_eq_nextID (file : Option GoString) (cmd : Command) (c1 c2 : Time) (s : State)
    (X : Int) (hl : (main file cmd c1 c2).loaded = some s)
    (ha : (main file cmd c1 c2).assigned cmd = some X) : X = recomputeNextID s.tasks := by
  obtain ⟨file1, hload, hout⟩ := main_loaded file cmd c1 c2 s hl
  have hn := LoadTasks_nextID file file1 s hload
  cases cmd with
  | add d =>
    simp only [Invocation.assigned, hout, runCommand, Outcome.lastID, addCmd,
      List.getLast?_append, List.getLast?_singleton, Option.or, Option.map_some',
      Option.some.injEq] at ha
    rw [← ha, hn]
  | update _ _ => simp [Invocation.assigned] at ha
  | delete _ => simp [Invocation.assigned] at ha
  | markInProgress _ => simp [Invocation.assigned] at ha
  | markDone _ => simp [Invocation.assigned] at ha
  | list _ => simp [Invocation.assigned] at ha

set_option maxRecDepth 100000 in
/-- C7 (counterexample): starting without a snapshot, `add a` assigns id 1,
`delete 1` removes that task, and the next `add b` assigns id 1 again. -/
theorem id_reused_after_delete :
    (runAll none
        [(.add (lit "a"), ⟨2024, 1, 2, 10, 0, 0, 0, 0⟩, ⟨2024, 1, 2, 10, 0, 0, 0, 0⟩),
         (.delete (lit "1"), ⟨2024, 1, 2, 11, 0, 0, 0, 0⟩, ⟨2024, 1, 2, 11, 0, 0, 0, 0⟩),
         (.add (lit "b"), ⟨2024, 1, 2, 12, 0, 0, 0, 0⟩, ⟨2024, 1, 2, 12, 0, 0, 0, 0⟩)]).map
      (fun r => r.outcome.map (fun o => (o.stdout, o.lastID)))
      = [some ([lit "Task added successfully (ID: 1)\n"], some 1),
         some ([lit "Task 1 deleted successfully\n"], none),
         some ([lit "Task added successfully (ID: 1)\n"], some 1)] := by
  decide

/-- C7 (amended): in every sequence of invocations (each being load, one
command, save), once `add` has assigned an id `X`, no later `add` assigns `X`
again as long as the store that later invocation loads still holds a task with
an id of at least `X` (such as the task with id `X` itself), no stored id being
the largest `int`; an id is assigned again only after that task and every task
with a larger id have been deleted. -/
theorem id_not_reused_while_stored (file : Option GoString)
    (cmds : List (Command × Time × Time)) (i j : Nat) (X : Int)
    (ci cj : Command × Time × Time) (sj : State)
    (_hij : i < j)
    (_hci : cmds[i]? = some ci) (hcj : cmds[j]? = some cj)
    (_hassigned : ((runAll file cmds)[i]?).bind (fun r => r.assigned ci.1) = some X)
    (hloaded : ((runAll file cmds)[j]?).bind (fun r => r.loaded) = some sj)
    (hbelow : ∀ t ∈ sj.tasks, t.ID < maxInt)
    (hstored : ∃ t ∈ sj.tasks, X ≤ t.ID) :
    ((runAll file cmds)[j]?).bind (fun r => r.assigned cj.1) ≠ some X := by
  intro hagain
  obtain ⟨cmd, c1, c2⟩ := cj
  cases hrj : (runAll file cmds)[j]? with
  | none => simp [hrj] at hagain
  | some rj =>
    rw [hrj] at hagain hloaded
    simp only [Option.some_bind] at hagain hloaded
    obtain ⟨f, hf⟩ := runAll_getElem cmds file j rj cmd c1 c2 hrj hcj
    subst hf
    have hX := assigned_eq_nextID f cmd c1 c2 sj X hloaded hagain
    obtain ⟨t, ht, htX⟩ := hstored
    have hmaxlt : maxIDLoop 0 sj.tasks < maxInt := by
      rcases maxIDLoop_attained 0 sj.tasks with h | ⟨u, hu, h⟩
      · rw [h]; decide
      · rw [← h]; exact hbelow u hu
    have hge0 := maxIDLoop_ge_start 0 sj.tasks
    have hge := maxIDLoop_ge_mem 0 sj.tasks t ht
    have hw : recomputeNextID sj.tasks = maxIDLoop 0 sj.tasks + 1 := by
      rw [recomputeNextID]
      apply wrapInt_of_range
      · unfold minInt; omega
      · omega
    omega

set_option maxRecDepth 100000 in
/-- C7 (witness): three adds in a row; the third does not assign id 1 again. -/
theorem id_not_reused_while_stored_witness :
    ((runAll none
        [(.add (lit "a"), ⟨2024, 1, 2, 10, 0, 0, 0, 0⟩, ⟨2024, 1, 2, 10, 0, 0, 0, 0⟩),
         (.add (lit "b"), ⟨2024, 1, 2, 11, 0, 0, 0, 0⟩, ⟨2024, 1, 2, 11, 0, 0, 0, 0⟩),
         (.add (lit "c"), ⟨2024, 1, 2, 12, 0, 0, 0, 0⟩, ⟨2024, 1, 2, 12, 0, 0, 0, 0⟩)])[2]?).bind
      (fun r => r.assigned (Command.add (lit "c"))) ≠ some 1 :=
  id_not_reused_while_stored none
    [(.add (lit "a"), ⟨2024, 1, 2, 10, 0, 0, 0, 0⟩, ⟨2024, 1, 2, 10, 0, 0, 0, 0⟩),
     (.add (lit "b"), ⟨2024, 1, 2, 11, 0, 0, 0, 0⟩, ⟨2024, 1, 2, 11, 0, 0, 0, 0⟩),
     (.add (lit "c"), ⟨2024, 1, 2, 12, 0, 0, 0, 0⟩, ⟨2024, 1, 2, 12, 0, 0, 0, 0⟩)]
    0 2 1
    (.add (lit "a"), ⟨2024, 1, 2, 10, 0, 0, 0, 0⟩, ⟨2024, 1, 2, 10, 0, 0, 0, 0⟩)
    (.add (lit "c"), ⟨2024, 1, 2, 12, 0, 0, 0, 0⟩, ⟨2024, 1, 2, 12, 0, 0, 0, 0⟩)
    ⟨[⟨1, lit "a", lit "todo", ⟨2024, 1, 2, 10, 0, 0, 0, 0⟩, ⟨2024, 1, 2, 10, 0, 0, 0, 0⟩⟩,
      ⟨2, lit "b", lit "todo", ⟨2024, 1, 2, 11, 0, 0, 0, 0⟩, ⟨2024, 1, 2, 11, 0, 0, 0, 0⟩⟩],
     false, 3⟩
    (by decide) (by decide) (by decide) (by decide) (by decide) (by decide) (by decide)

/-! ### Argument scanning, listing, bootstrap, first match -/

theorem unscannable_id_is_fatal (s : State) (idArg d : GoString) (now : Time) (e : ScanError)
    (h : scanInt idArg = .error e) :
    updateCmd s idArg d now = ⟨s, [], some e⟩ ∧ deleteCmd s idArg = ⟨s, [], some e⟩
    ∧ markInProgressCmd s idArg now = ⟨s, [], some e⟩
    ∧ markDoneCmd s idArg now = ⟨s, [], some e⟩ := by
  simp only [updateCmd, deleteCmd, markInProgressCmd, markDoneCmd, updateTaskStatus, h, and_self]

/-- C12 (the code at the failing input): the arguments `12abc` and `1.5` are
not integer literals, yet no command ends fatally on them: `delete 12abc`
removes the task with id 12, `update 1.5 x`, `mark-done 1.5` and
`mark-in-progress 12abc` rewrite the tasks with ids 1 and 12; an argument
without a leading integer, such as `abc`, is fatal. -/
theorem non_integer_id_is_accepted :
    scanInt (lit "12abc") = .ok 12 ∧ scanInt (lit "1.5") = .ok 1
    ∧ deleteCmd ⟨[⟨1, lit "a", lit "todo", ⟨2024, 1, 1, 0, 0, 0, 0, 0⟩, ⟨2024, 1, 1, 0, 0, 0, 0, 0⟩⟩,
                  ⟨12, lit "b", lit "todo", ⟨2024, 1, 1, 0, 0, 0, 0, 0⟩, ⟨2024, 1, 1, 0, 0, 0, 0, 0⟩⟩],
                 false, 13⟩ (lit "12abc")
        = ⟨⟨[⟨1, lit "a", lit "todo", ⟨2024, 1, 1, 0, 0, 0, 0, 0⟩, ⟨2024, 1, 1, 0, 0, 0, 0, 0⟩⟩],
            false, 13⟩, [lit "Task 12 deleted successfully\n"], none⟩
    ∧ updateCmd ⟨[⟨1, lit "a", lit "todo", ⟨2024, 1, 1, 0, 0, 0, 0, 0⟩, ⟨2024, 1, 1, 0, 0, 0, 0, 0⟩⟩,
                  ⟨12, lit "b", lit "todo", ⟨2024, 1, 1, 0, 0, 0, 0, 0⟩, ⟨2024, 1, 1, 0, 0, 0, 0, 0⟩⟩],
                 false, 13⟩ (lit "1.5") (lit "x") ⟨2024, 1, 2, 0, 0, 0, 0, 0⟩
        = ⟨⟨[⟨1, lit "x", lit "todo", ⟨2024, 1, 1, 0, 0, 0, 0, 0⟩, ⟨2024, 1, 2, 0, 0, 0, 0, 0⟩⟩,
             ⟨12, lit "b", lit "todo", ⟨2024, 1, 1, 0, 0, 0, 0, 0⟩, ⟨2024, 1, 1, 0, 0, 0, 0, 0⟩⟩],
            false, 13⟩, [lit "Task 1 updated successfully\n"], none⟩
    ∧ markDoneCmd ⟨[⟨1, lit "a", lit "todo", ⟨2024, 1, 1, 0, 0, 0, 0, 0⟩, ⟨2024, 1, 1, 0, 0, 0, 0, 0⟩⟩,
                    ⟨12, lit "b", lit "todo", ⟨2024, 1, 1, 0, 0, 0, 0, 0⟩, ⟨2024, 1, 1, 0, 0, 0, 0, 0⟩⟩],
                   false, 13⟩ (lit "1.5") ⟨2024, 1, 2, 0, 0, 0, 0, 0⟩
        = ⟨⟨[⟨1, lit "a", lit "done", ⟨2024, 1, 1, 0, 0, 0, 0, 0⟩, ⟨2024, 1, 2, 0, 0, 0, 0, 0⟩⟩,
             ⟨12, lit "b", lit "todo", ⟨2024, 1, 1, 0, 0, 0, 0, 0⟩, ⟨2024, 1, 1, 0, 0, 0, 0, 0⟩⟩],
            false, 13⟩, [lit "Task 1 marked as done\n"], none⟩
    ∧ (markInProgressCmd
          ⟨[⟨1, lit "a", lit "todo", ⟨2024, 1, 1, 0, 0, 0, 0, 0⟩, ⟨2024, 1, 1, 0, 0, 0, 0, 0⟩⟩,
            ⟨12, lit "b", lit "todo", ⟨2024, 1, 1, 0, 0, 0, 0, 0⟩, ⟨2024, 1, 1, 0, 0, 0, 0, 0⟩⟩],
           false, 13⟩ (lit "12abc") ⟨2024, 1, 2, 0, 0, 0, 0, 0⟩).fatal = none
    ∧ (deleteCmd ⟨[⟨12, lit "b", lit "todo", ⟨2024, 1, 1, 0, 0, 0, 0, 0⟩, ⟨2024, 1, 1, 0, 0, 0, 0, 0⟩⟩],
                  false, 13⟩ (lit "abc")).fatal = some .expectedInteger := by
  decide

/-- C13 (counterexample): the store holds one task with status `todo`; `list
done` has no task to render, yet it prints the header, the separator and the
closing blank line, and not `No tasks found`. -/
theorem empty_listing_prints_header :
    (listCmd ⟨[⟨1, lit "a", lit "todo", ⟨2024, 1, 1, 0, 0, 0, 0, 0⟩, ⟨2024, 1, 1, 0, 0, 0, 0, 0⟩⟩],
              false, 2⟩ [lit "done"]).stdout
      = [lit "\nID\tStatus\t\tCreated\t\t\tDescription\n",
         lit "--\t------\t\t-------\t\t\t-----------\n", lit "\n"]
    ∧ (listCmd ⟨[⟨1, lit "a", lit "todo", ⟨2024, 1, 1, 0, 0, 0, 0, 0⟩, ⟨2024, 1, 1, 0, 0, 0, 0, 0⟩⟩],
                false, 2⟩ [lit "done"]).stdout ≠ [lit "No tasks found\n"] := by
  decide

theorem listLoop_no_match (f : GoString) (ts : List Task) (hf : f ≠ [])
    (h : ∀ t ∈ ts, t.Status ≠ f) : listLoop f ts = [] := by
  induction ts with
  | nil => rfl
  | cons t rest ih =>
    have ht : ¬ (f = [] ∨ t.Status = f) := by
      intro hc
      rcases hc with hc | hc
      · exact hf hc
      · exact h t (List.mem_cons_self _ _) hc
    rw [listLoop, if_neg ht, ih (fun u hu => h u (List.mem_cons_of_mem _ hu))]

/-- C13 (amended): for every filter, if the store itself is empty, `list`
prints the single `No tasks found` line and no header, separator or table
rows; if the store is not empty and no task matches the filter, it prints the
header, the separator and the closing blank line, with no rows between them. -/
theorem empty_listing (s : State) (args : List GoString) (f : GoString) :
    (s.tasks = [] → (listCmd s args).stdout = [lit "No tasks found\n"])
    ∧ (s.tasks ≠ [] → f ≠ [] → (∀ t ∈ s.tasks, t.Status ≠ f) →
        (listCmd s [f]).stdout
          = [lit "\nID\tStatus\t\tCreated\t\t\tDescription\n",
             lit "--\t------\t\t-------\t\t\t-----------\n", lit "\n"]) := by
  constructor
  · intro h
    simp [listCmd, h]
  · intro h hf hno
    have hlen : ¬ s.tasks.length = 0 := by simpa using h
    simp only [listCmd, if_neg hlen, listLoop_no_match f s.tasks hf hno]
    rfl

/-- C13 (witness): the empty store, and a store of one `todo` task listed with
the filter `done`. -/
theorem empty_listing_witness :
    (listCmd initState [lit "done"]).stdout = [lit "No tasks found\n"]
    ∧ (listCmd ⟨[⟨1, lit "a", lit "todo", ⟨2024, 1, 1, 0, 0, 0, 0, 0⟩, ⟨2024, 1, 1, 0, 0, 0, 0, 0⟩⟩],
                false, 2⟩ [lit "done"]).stdout
      = [lit "\nID\tStatus\t\tCreated\t\t\tDescription\n",
         lit "--\t------\t\t-------\t\t\t-----------\n", lit "\n"] :=
  ⟨(empty_listing initState [lit "done"] (lit "done")).1 (by decide),
   (empty_listing
      ⟨[⟨1, lit "a", lit "todo", ⟨2024, 1, 1, 0, 0, 0, 0, 0⟩, ⟨2024, 1, 1, 0, 0, 0, 0, 0⟩⟩], false, 2⟩
      [] (lit "done")).2 (by decide) (by decide) (by decide)⟩

set_option maxRecDepth 100000 in
/-- C15: without a snapshot file `LoadTasks` succeeds, writes the snapshot `[]`
and leaves the store empty with the counter at 1; the snapshot `[]` loads as
the empty store with the counter at 1; and `list`, with any filter, then prints
`No tasks found` only, in the same process run and in the next one. -/
theorem empty_store_bootstrap :
    LoadTasks none = some (some (lit "[]"), initState)
    ∧ initState.tasks = [] ∧ initState.nextID = 1
    ∧ LoadTasks (some (lit "[]")) = some (some (lit "[]"), ⟨[], false, 1⟩)
    ∧ (∀ (args : List GoString) (c1 c2 : Time),
        main none (.list args) c1 c2
          = ⟨some initState, some ⟨initState, [lit "No tasks found\n"], none⟩, some (lit "[]"),
              true, 0⟩
        ∧ main (some (lit "[]")) (.list args) c1 c2
          = ⟨some ⟨[], false, 1⟩, some ⟨⟨[], false, 1⟩, [lit "No tasks found\n"], none⟩,
              some (lit "[]"), true, 0⟩) := by
  have h1 : LoadTasks none = some (some (lit "[]"), initState) := rfl
  have h2 : LoadTasks (some (lit "[]")) = some (some (lit "[]"), ⟨[], false, 1⟩) := by decide
  refine ⟨h1, rfl, rfl, h2, ?_⟩
  intro args c1 c2
  constructor
  · simp [main, h1, runCommand, listCmd, initState]
  · simp [main, h2, runCommand, listCmd]

theorem exists_first_match_of_count (X : Int) (ts : List Task)
    (h : 2 ≤ ts.countP (fun t => decide (t.ID = X))) :
    ∃ pre t post, ts = pre ++ t :: post ∧ (∀ u ∈ pre, u.ID ≠ X) ∧ t.ID = X
      ∧ ∃ u ∈ post, u.ID = X := by
  have hex : ∃ t ∈ ts, t.ID = X := by
    have hpos : 0 < ts.countP (fun t => decide (t.ID = X)) := by omega
    obtain ⟨t, ht, hp⟩ := List.countP_pos_iff.mp hpos
    exact ⟨t, ht, by simpa using hp⟩
  obtain ⟨pre, t, post, hsplit, hpre, ht⟩ := exists_first_match X ts hex
  refine ⟨pre, t, post, hsplit, hpre, ht, ?_⟩
  have hpre0 : pre.countP (fun t => decide (t.ID = X)) = 0 := by
    apply List.countP_eq_zero.mpr
    intro u hu
    simpa using hpre u hu
  rw [hsplit, List.countP_append, hpre0, List.countP_cons_of_pos _ _ (by simpa using ht)] at h
  have hpos : 0 < post.countP (fun t => decide (t.ID = X)) := by omega
  obtain ⟨u, hu, hp⟩ := List.countP_pos_iff.mp hpos
  exact ⟨u, hu, by simpa using hp⟩

/-- C17: for every store in which at least two tasks carry the id `X`, the
store splits as `pre ++ t :: post` with `t` the first task with id `X` and a
further task with id `X` in `post`; `update`, `mark-in-progress` and
`mark-done` with `X` rewrite `t` only and leave `pre` and `post` as they are,
and `delete` with `X` leaves `pre ++ post`: the store is shorter by exactly one
element and a task with id `X` remains. -/
theorem first_match_only (s : State) (idArg d : GoString) (now : Time) (X : Int)
    (harg : scanInt idArg = .ok X)
    (hseveral : 2 ≤ s.tasks.countP (fun t => decide (t.ID = X))) :
    ∃ pre t post, s.tasks = pre ++ t :: post ∧ (∀ u ∈ pre, u.ID ≠ X) ∧ t.ID = X
      ∧ (∃ u ∈ post, u.ID = X)
      ∧ (updateCmd s idArg d now).state.tasks
          = pre ++ ⟨t.ID, d, t.Status, t.CreatedAt, now⟩ :: post
      ∧ (markInProgressCmd s idArg now).state.tasks
          = pre ++ ⟨t.ID, t.Description, lit "in-progress", t.CreatedAt, now⟩ :: post
      ∧ (markDoneCmd s idArg now).state.tasks
          = pre ++ ⟨t.ID, t.Description, lit "done", t.CreatedAt, now⟩ :: post
      ∧ (deleteCmd s idArg).state.tasks = pre ++ post
      ∧ (deleteCmd s idArg).state.tasks.length + 1 = s.tasks.length
      ∧ ∃ u ∈ (deleteCmd s idArg).state.tasks, u.ID = X := by
  obtain ⟨pre, t, post, hsplit, hpre, ht, u, hu, huX⟩ :=
    exists_first_match_of_count X s.tasks hseveral
  have hup := updateLoop_first_match X d now pre post t hpre ht
  have hst1 := updateTaskStatus_found s idArg (lit "in-progress") now X harg pre post t hsplit hpre ht
  have hst2 := updateTaskStatus_found s idArg (lit "done") now X harg pre post t hsplit hpre ht
  have hdel := deleteLoop_first_match X pre post t hpre ht
  rw [← hsplit] at hup hdel
  have hdt : (deleteCmd s idArg).state.tasks = pre ++ post := by
    simp only [deleteCmd, harg, hdel]
  refine ⟨pre, t, post, hsplit, hpre, ht, ⟨u, hu, huX⟩, ?_, ?_, ?_, hdt, ?_, ?_⟩
  · simp only [updateCmd, harg, hup]
  · rw [markInProgressCmd, hst1]
  · rw [markDoneCmd, hst2]
  · rw [hdt, hsplit]
    simp only [List.length_append, List.length_cons]
    omega
  · rw [hdt]
    exact ⟨u, List.mem_append_right _ hu, huX⟩

/-- C17 (witness): the store with ids 1, 2, 1, and the commands with id 1. -/
theorem first_match_only_witness :
    ∃ pre t post,
      [(⟨1, lit "a", lit "todo", ⟨2024, 1, 1, 0, 0, 0, 0, 0⟩, ⟨2024, 1, 1, 0, 0, 0, 0, 0⟩⟩ : Task),
       ⟨2, lit "b", lit "todo", ⟨2024, 1, 1, 0, 0, 0, 0, 0⟩, ⟨2024, 1, 1, 0, 0, 0, 0, 0⟩⟩,
       ⟨1, lit "c", lit "done", ⟨2024, 1, 1, 0, 0, 0, 0, 0⟩, ⟨2024, 1, 1, 0, 0, 0, 0, 0⟩⟩]
        = pre ++ t :: post
      ∧ (deleteCmd
          ⟨[⟨1, lit "a", lit "todo", ⟨2024, 1, 1, 0, 0, 0, 0, 0⟩, ⟨2024, 1, 1, 0, 0, 0, 0, 0⟩⟩,
            ⟨2, lit "b", lit "todo", ⟨2024, 1, 1, 0, 0, 0, 0, 0⟩, ⟨2024, 1, 1, 0, 0, 0, 0, 0⟩⟩,
            ⟨1, lit "c", lit "done", ⟨2024, 1, 1, 0, 0, 0, 0, 0⟩, ⟨2024, 1, 1, 0, 0, 0, 0, 0⟩⟩],
           false, 3⟩ (lit "1")).state.tasks = pre ++ post := by
  obtain ⟨pre, t, post, h1, _, _, _, _, _, _, h2, _⟩ :=
    first_match_only
      ⟨[⟨1, lit "a", lit "todo", ⟨2024, 1, 1, 0, 0, 0, 0, 0⟩, ⟨2024, 1, 1, 0, 0, 0, 0, 0⟩⟩,
        ⟨2, lit "b", lit "todo", ⟨2024, 1, 1, 0, 0, 0, 0, 0⟩, ⟨2024, 1, 1, 0, 0, 0, 0, 0⟩⟩,
        ⟨1, lit "c", lit "done", ⟨2024, 1, 1, 0, 0, 0, 0, 0⟩, ⟨2024, 1, 1, 0, 0, 0, 0, 0⟩⟩],
       false, 3⟩ (lit "1") (lit "z") ⟨2024, 1, 5, 0, 0, 0, 0, 0⟩ 1 (by decide) (by decide)
  exact ⟨pre, t, post, h1, h2⟩

theorem updateLoop_mem (id : Int) (d : GoString) (now : Time) (ts r : List Task)
    (h : updateLoop id d now ts = some r) :
    ∀ u ∈ r, u ∈ ts ∨ ∃ t ∈ ts, u = ⟨t.ID, d, t.Status, t.CreatedAt, now⟩ := by
  have hex : ∃ t ∈ ts, t.ID = id := by
    by_contra hne
    rw [updateLoop_eq_none id d now ts (fun t ht hid => hne ⟨t, ht, hid⟩)] at h
    cases h
  obtain ⟨pre, t, post, hsplit, hpre, ht⟩ := exists_first_match id ts hex
  rw [hsplit, updateLoop_first_match id d now pre post t hpre ht] at h
  cases h
  intro u hu
  rw [hsplit]
  rcases List.mem_append.mp hu with h1 | h1
  · exact Or.inl (List.mem_append_left _ h1)
  · rcases List.mem_cons.mp h1 with h2 | h2
    · exact Or.inr ⟨t, by simp, h2⟩
    · exact Or.inl (List.mem_append_right _ (List.mem_cons_of_mem _ h2))

theorem statusLoop_mem (id : Int) (st : GoString) (now : Time) (ts r : List Task)
    (h : statusLoop id st now ts = some r) :
    ∀ u ∈ r, u ∈ ts ∨ ∃ t ∈ ts, u = ⟨t.ID, t.Description, st, t.CreatedAt, now⟩ := by
  have hex : ∃ t ∈ ts, t.ID = id := by
    by_contra hne
    rw [statusLoop_eq_none id st now ts (fun t ht hid => hne ⟨t, ht, hid⟩)] at h
    cases h
  obtain ⟨pre, t, post, hsplit, hpre, ht⟩ := exists_first_match id ts hex
  rw [hsplit, statusLoop_first_match id st now pre post t hpre ht] at h
  cases h
  intro u hu
  rw [hsplit]
  rcases List.mem_append.mp hu with h1 | h1
  · exact Or.inl (List.mem_append_left _ h1)
  · rcases List.mem_cons.mp h1 with h2 | h2
    · exact Or.inr ⟨t, by simp, h2⟩
    · exact Or.inl (List.mem_append_right _ (List.mem_cons_of_mem _ h2))

theorem updateCmd_mem (s : State) (a d : GoString) (now : Time) :
    ∀ u ∈ (updateCmd s a d now).state.tasks,
      u ∈ s.tasks ∨ ∃ t ∈ s.tasks, u = ⟨t.ID, d, t.Status, t.CreatedAt, now⟩ := by
  unfold updateCmd
  split
  · exact fun u hu => Or.inl hu
  · split
    · next ts hts => exact updateLoop_mem _ _ _ _ _ hts
    · exact fun u hu => Or.inl hu

theorem updateTaskStatus_mem (s : State) (a st : GoString) (now : Time) :
    ∀ u ∈ (updateTaskStatus s a st now).state.tasks,
      u ∈ s.tasks ∨ ∃ t ∈ s.tasks, u = ⟨t.ID, t.Description, st, t.CreatedAt, now⟩ := by
  unfold updateTaskStatus
  split
  · exact fun u hu => Or.inl hu
  · split
    · next ts hts => exact statusLoop_mem _ _ _ _ _ hts
    · exact fun u hu => Or.inl hu

theorem deleteCmd_mem (s : State) (a : GoString) :
    ∀ u ∈ (deleteCmd s a).state.tasks, u ∈ s.tasks := by
  unfold deleteCmd
  split
  · exact fun u hu => hu
  · split
    · next ts hts => exact fun u hu => (deleteLoop_sublist _ _ _ hts).subset hu
    · exact fun u hu => hu

/-- C14: for every store in which every task has `updated_at >= created_at`,
the same holds after `add` when its second clock reading is not before its
first (the new last task then satisfies it too), and after `update`,
`mark-in-progress` and `mark-done`, with any arguments, when the clock reading
is not before any stored created_at. -/
theorem updated_at_not_before_created_at (s : State) (a d : GoString) (c1 c2 now : Time)
    (hinv : s.updatedAfterCreated) :
    (c1.instant ≤ c2.instant →
        (addCmd s d c1 c2).state.updatedAfterCreated
        ∧ ∃ t, (addCmd s d c1 c2).state.tasks = s.tasks ++ [t] ∧ t.CreatedAt = c1
            ∧ t.UpdatedAt = c2 ∧ t.CreatedAt.instant ≤ t.UpdatedAt.instant)
    ∧ ((∀ t ∈ s.tasks, t.CreatedAt.instant ≤ now.instant) →
        (updateCmd s a d now).state.updatedAfterCreated
        ∧ (markInProgressCmd s a now).state.updatedAfterCreated
        ∧ (markDoneCmd s a now).state.updatedAfterCreated) := by
  constructor
  · intro hc
    refine ⟨?_, ⟨_, rfl, rfl, rfl, hc⟩⟩
    intro t ht
    simp only [addCmd, List.mem_append, List.mem_singleton] at ht
    rcases ht with h | h
    · exact hinv t h
    · subst h; exact hc
  · intro hnow
    refine ⟨?_, ?_, ?_⟩
    · intro u hu
      rcases updateCmd_mem s a d now u hu with h | ⟨t, ht, h⟩
      · exact hinv u h
      · subst h; exact hnow t ht
    · intro u hu
      rcases updateTaskStatus_mem s a _ now u hu with h | ⟨t, ht, h⟩
      · exact hinv u h
      · subst h; exact hnow t ht
    · intro u hu
      rcases updateTaskStatus_mem s a _ now u hu with h | ⟨t, ht, h⟩
      · exact hinv u h
      · subst h; exact hnow t ht

/-- C14 (witness): a store of one task; `add` with two readings a microsecond
apart, `mark-done` an hour later. -/
theorem updated_at_not_before_created_at_witness :
    (addCmd ⟨[⟨1, lit "a", lit "todo", ⟨2024, 1, 2, 10, 0, 0, 0, 3600⟩, ⟨2024, 1, 2, 10, 0, 0, 5, 3600⟩⟩],
             false, 2⟩ (lit "b") ⟨2024, 1, 2, 11, 0, 0, 0, 3600⟩
        ⟨2024, 1, 2, 11, 0, 0, 1000, 3600⟩).state.updatedAfterCreated
    ∧ (markDoneCmd
        ⟨[⟨1, lit "a", lit "todo", ⟨2024, 1, 2, 10, 0, 0, 0, 3600⟩, ⟨2024, 1, 2, 10, 0, 0, 5, 3600⟩⟩],
         false, 2⟩ (lit "1") ⟨2024, 1, 2, 11, 0, 0, 0, 3600⟩).state.updatedAfterCreated :=
  ⟨((updated_at_not_before_created_at _ (lit "1") (lit "b") ⟨2024, 1, 2, 11, 0, 0, 0, 3600⟩
      ⟨2024, 1, 2, 11, 0, 0, 1000, 3600⟩ ⟨2024, 1, 2, 11, 0, 0, 0, 3600⟩ (by decide)).1
      (by decide)).1,
   ((updated_at_not_before_created_at _ (lit "1") (lit "b") ⟨2024, 1, 2, 11, 0, 0, 0, 3600⟩
      ⟨2024, 1, 2, 11, 0, 0, 1000, 3600⟩ ⟨2024, 1, 2, 11, 0, 0, 0, 3600⟩ (by decide)).2
      (by decide)).2.2⟩

set_option maxRecDepth 100000 in
/-- C16 (counterexample): the snapshot holding one task with id 2^63-1 decodes,
and `LoadTasks` leaves the counter at -2^63: it is below 1 and below the id in
the store. -/
theorem next_id_wraps_on_load :
    (LoadTasks (some (lit "[\x7b\"id\": 9223372036854775807\x7d]"))).map
        (fun r => (r.2.tasks.map (fun t => t.ID), r.2.nextID))
      = some ([9223372036854775807], -9223372036854775808)
    ∧ ¬ ((1 : Int) ≤ -9223372036854775808)
    ∧ ¬ ((9223372036854775807 : Int) < -9223372036854775808) := by
  decide

theorem recomputeNextID_dominates (ts : List Task) (hbelow : ∀ t ∈ ts, t.ID < maxInt) :
    1 ≤ recomputeNextID ts ∧ ∀ t ∈ ts, t.ID < recomputeNextID ts := by
  have hmaxlt : maxIDLoop 0 ts < maxInt := by
    rcases maxIDLoop_attained 0 ts with h | ⟨u, hu, h⟩
    · rw [h]; decide
    · rw [← h]; exact hbelow u hu
  have hge0 := maxIDLoop_ge_start 0 ts
  have hw : recomputeNextID ts = maxIDLoop 0 ts + 1 := by
    rw [recomputeNextID]
    apply wrapInt_of_range
    · unfold minInt; omega
    · omega
  rw [hw]
  refine ⟨by omega, ?_⟩
  intro t ht
  have := maxIDLoop_ge_mem 0 ts t ht
  omega

/-- C16 (amended): after `LoadTasks` on any snapshot it accepts (ids may be
zero, negative or duplicated) in which no id is the largest `int`, 2^63-1, the
counter is at least 1 and strictly greater than every id in the store; and for
every state with that property and a counter below 2^63-1, `add` keeps the
property, and the id it gives the new task is the id of no task already in the
store. -/
theorem next_id_dominates (file file1 : Option GoString) (s : State)
    (hload : LoadTasks file = some (file1, s)) (hbelow : ∀ t ∈ s.tasks, t.ID < maxInt) :
    s.nextIDDominates
    ∧ ∀ (s2 : State) (d : GoString) (c1 c2 : Time), s2.nextIDDominates → s2.nextID < maxInt →
        (addCmd s2 d c1 c2).state.nextIDDominates
        ∧ (addCmd s2 d c1 c2).lastID = some s2.nextID
        ∧ ∀ t ∈ s2.tasks, t.ID ≠ s2.nextID := by
  constructor
  · rw [State.nextIDDominates, LoadTasks_nextID file file1 s hload]
    exact recomputeNextID_dominates s.tasks hbelow
  · intro s2 d c1 c2 hdom hlt
    obtain ⟨h1, h2⟩ := hdom
    have hw : wrapInt (s2.nextID + 1) = s2.nextID + 1 := by
      apply wrapInt_of_range
      · unfold minInt; omega
      · omega
    refine ⟨⟨?_, ?_⟩, ?_, ?_⟩
    · simp only [addCmd, hw]; omega
    · intro t ht
      simp only [addCmd, hw, List.mem_append, List.mem_singleton] at ht ⊢
      rcases ht with h | h
      · have := h2 t h; omega
      · subst h; simp
    · simp [addCmd, Outcome.lastID]
    · intro t ht hEq
      have := h2 t ht
      omega

set_option maxRecDepth 100000 in
/-- C16 (witness): a snapshot with the ids 0, -3, 5 and 5. -/
theorem next_id_dominates_witness :
    State.nextIDDominates
      ⟨[⟨0, [], [], zeroTime, zeroTime⟩, ⟨-3, [], [], zeroTime, zeroTime⟩,
        ⟨5, [], [], zeroTime, zeroTime⟩, ⟨5, [], [], zeroTime, zeroTime⟩], false, 6⟩ :=
  (next_id_dominates
    (some (lit "[\x7b\"id\": 0\x7d, \x7b\"id\": -3\x7d, \x7b\"id\": 5\x7d, \x7b\"id\": 5\x7d]"))
    (some (lit "[\x7b\"id\": 0\x7d, \x7b\"id\": -3\x7d, \x7b\"id\": 5\x7d, \x7b\"id\": 5\x7d]"))
    ⟨[⟨0, [], [], zeroTime, zeroTime⟩, ⟨-3, [], [], zeroTime, zeroTime⟩,
      ⟨5, [], [], zeroTime, zeroTime⟩, ⟨5, [], [], zeroTime, zeroTime⟩], false, 6⟩
    (by decide) (by decide)).1

/-! ### Statuses through the snapshot -/

theorem marshalTime_of_some (t : Time) (c : GoString) (h : marshalTime t = some c) :
    c = [34] ++ appendFormatRFC3339 t ++ [34] := by
  unfold marshalTime at h
  split at h
  · exact (Option.some.inj h).symm
  · cases h

theorem marshalTask_text_of_some (t : Task) (x : GoString) (h : marshalTask t = some x) :
    ∀ tail, x ++ tail = taskText t tail := by
  unfold marshalTask at h
  split at h
  · next c u hc hu =>
    have ec := marshalTime_of_some _ c hc
    have eu := marshalTime_of_some _ u hu
    subst ec; subst eu
    have hx := (Option.some.inj h).symm
    subst hx
    intro tail
    have l1 : lit "\x7b\n    \"id\": "
        = 123 :: 10 :: 32 :: 32 :: 32 :: 32 :: 34 :: (lit "id" ++ [34, 58, 32]) := by decide
    have l2 : lit ",\n    \"description\": "
        = 44 :: 10 :: 32 :: 32 :: 32 :: 32 :: 34 :: (lit "description" ++ [34, 58, 32]) := by decide
    have l3 : lit ",\n    \"status\": "
        = 44 :: 10 :: 32 :: 32 :: 32 :: 32 :: 34 :: (lit "status" ++ [34, 58, 32]) := by decide
    have l4 : lit ",\n    \"created_at\": "
        = 44 :: 10 :: 32 :: 32 :: 32 :: 32 :: 34 :: (lit "created_at" ++ [34, 58, 32]) := by decide
    have l5 : lit ",\n    \"updated_at\": "
        = 44 :: 10 :: 32 :: 32 :: 32 :: 32 :: 34 :: (lit "updated_at" ++ [34, 58, 32]) := by decide
    have l6 : lit "\n  \x7d" = [10, 32, 32, 125] := by decide
    simp only [l1, l2, l3, l4, l5, l6, taskText, memberText, appendString, List.append_assoc,
      List.cons_append, List.nil_append]
  · cases h

theorem marshalElems_text_of_some (ts : List Task) :
    ∀ b, marshalElems ts = some b → ∀ tail, b ++ tail = elemsText ts tail := by
  induction ts with
  | nil =>
    intro b h tail
    have : b = [] := (Option.some.inj h).symm
    subst this
    rfl
  | cons t rest ih =>
    intro b h tail
    cases rest with
    | nil =>
      rw [marshalElems] at h
      rw [marshalTask_text_of_some t b h tail]
      rfl
    | cons t2 r =>
      rw [marshalElems] at h
      rotate_left
      · intro hh
        cases hh
      cases ha : marshalTask t with
      | none => simp [ha] at h
      | some a =>
        cases hb : marshalElems (t2 :: r) with
        | none => simp [ha, hb] at h
        | some b2 =>
          simp only [ha, hb, Option.some.injEq] at h
          subst h
          have l : lit ",\n  " = [44, 10, 32, 32] := by decide
          rw [List.append_assoc, List.append_assoc, marshalTask_text_of_some t a ha, l,
            ih b2 hb tail]
          rfl

/-- The scanner delimits the document `MarshalIndent` wrote for a non-empty store. -/
theorem parseDocument_marshalElems (t : Task) (rest : List Task) (b : GoString)
    (hb : marshalElems (t :: rest) = some b) :
    parseDocument (lit "[\n  " ++ b ++ lit "\n]") = some (.arr ((t :: rest).map taskJson)) := by
  have hbt := marshalElems_text_of_some (t :: rest) b hb
  have l1 : lit "[\n  " = [91, 10, 32, 32] := by decide
  have l2 : lit "\n]" = [10, 93] := by decide
  have hdata : lit "[\n  " ++ b ++ lit "\n]"
      = 91 :: 10 :: 32 :: 32 :: elemsText (t :: rest) [10, 93] := by
    rw [l1, l2, List.append_assoc, hbt]
    rfl
  have hlen := elemsText_length (t :: rest) [10, 93]
  have hhead : ∃ X, elemsText (t :: rest) [10, 93] = 123 :: X := by
    cases rest <;> exact ⟨_, rfl⟩
  obtain ⟨X, hX⟩ := hhead
  have hsk2 : skipWs (10 :: 32 :: 32 :: elemsText (t :: rest) [10, 93]) = 123 :: X := by
    rw [skipWs_elemsText, hX]
  obtain ⟨g, hg⟩ : ∃ g, (lit "[\n  " ++ b ++ lit "\n]").length = g + (t :: rest).length + 7 := by
    refine ⟨(lit "[\n  " ++ b ++ lit "\n]").length - (t :: rest).length - 7, ?_⟩
    rw [hdata]
    simp only [List.length_cons, List.length_nil] at hlen ⊢
    omega
  have hparse : parseJson ((lit "[\n  " ++ b ++ lit "\n]").length + 1) 0 .value
      (lit "[\n  " ++ b ++ lit "\n]") = some (.arr ((t :: rest).map taskJson), []) := by
    rw [hg, hdata]
    rw [parseJson_value_array (g + (t :: rest).length + 7) 0
      (91 :: 10 :: 32 :: 32 :: elemsText (t :: rest) [10, 93])
      (10 :: 32 :: 32 :: elemsText (t :: rest) [10, 93]) X rfl hsk2 (by decide)]
    have := parseJson_elemsText (t :: rest) g [] (10 :: 32 :: 32 :: elemsText (t :: rest) [10, 93]) []
      (by simp) (skipWs_elemsText t rest _)
    simpa using this
  rw [parseDocument, hparse]
  simp [skipWs]

theorem closedStatus_valid (st : GoString) (h : closedStatus st) : validUTF8 st = true := by
  rcases h with h | h | h <;> subst h <;> decide

/-- Decoding what `marshalTask` wrote keeps a status of the closed set, whatever
becomes of the other fields. -/
theorem decodeElem_status (t t2 : Task) (hst : closedStatus t.Status)
    (h : decodeElem (taskJson t) = some t2) : t2.Status = t.Status := by
  have k1 : unquote (lit "id") = some (lit "id") := by decide
  have k2 : unquote (lit "description") = some (lit "description") := by decide
  have k3 : unquote (lit "status") = some (lit "status") := by decide
  have k4 : unquote (lit "created_at") = some (lit "created_at") := by decide
  have k5 : unquote (lit "updated_at") = some (lit "updated_at") := by decide
  have f1 : fieldOf (lit "id") = some .id := by decide
  have f2 : fieldOf (lit "description") = some .description := by decide
  have f3 : fieldOf (lit "status") = some .status := by decide
  have f4 : fieldOf (lit "created_at") = some .createdAt := by decide
  have f5 : fieldOf (lit "updated_at") = some .updatedAt := by decide
  have hs := unquote_appendString t.Status (closedStatus_valid _ hst)
  simp only [decodeElem, taskJson, decodeMembers, k1, k2, k3, k4, k5, f1, f2, f3, f4, f5,
    setField, hs, Option.map_some'] at h
  cases hi : parseIntLit (fmtInt t.ID) with
  | none => simp [hi] at h
  | some n =>
    cases hd : unquote (appendStringAux t.Description.length t.Description) with
    | none => simp [hi, hd] at h
    | some d =>
      cases hc : parseTime (appendFormatRFC3339 t.CreatedAt) with
      | none => simp [hi, hd, hc] at h
      | some c =>
        cases hu : parseTime (appendFormatRFC3339 t.UpdatedAt) with
        | none => simp [hi, hd, hc, hu] at h
        | some u =>
          simp only [hi, hd, hc, hu, Option.map_some', Option.some.injEq] at h
          rw [← h]

theorem decodeElems_status (ts : List Task) : ∀ ts2, (∀ t ∈ ts, closedStatus t.Status) →
    decodeElems (ts.map taskJson) = some ts2 → ∀ t2 ∈ ts2, closedStatus t2.Status := by
  induction ts with
  | nil =>
    intro ts2 _ h t2 ht2
    have : ts2 = [] := (Option.some.inj h).symm
    subst this
    simp at ht2
  | cons t rest ih =>
    intro ts2 hcl h t2 ht2
    rw [List.map_cons, decodeElems] at h
    cases he : decodeElem (taskJson t) with
    | none => simp [he] at h
    | some u =>
      cases hr : decodeElems (rest.map taskJson) with
      | none => simp [he, hr] at h
      | some us =>
        simp only [he, hr, Option.some.injEq] at h
        subst h
        rcases List.mem_cons.mp ht2 with h1 | h1
        · subst h1
          rw [decodeElem_status t _ (hcl t (List.mem_cons_self _ _)) he]
          exact hcl t (List.mem_cons_self _ _)
        · exact ih us (fun x hx => hcl x (List.mem_cons_of_mem _ hx)) hr t2 h1

/-- A snapshot `SaveTasks` wrote for a state with closed statuses loads, if it
loads, to a state with closed statuses. -/
theorem fileStatusesClosed_marshalIndent (s : State) (data : GoString)
    (hcl : s.statusesClosed) (h : marshalIndent s = some data) :
    fileStatusesClosed (some data) := by
  obtain ⟨tasks, isNil, nextID⟩ := s
  cases tasks with
  | nil =>
    cases isNil with
    | true =>
      have : data = lit "null" := (Option.some.inj h).symm
      subst this
      decide
    | false =>
      have : data = lit "[]" := (Option.some.inj h).symm
      subst this
      decide
  | cons t rest =>
    simp only [marshalIndent] at h
    cases hb : marshalElems (t :: rest) with
    | none => simp [hb] at h
    | some b =>
      simp only [hb, Option.some.injEq] at h
      subst h
      have hp := parseDocument_marshalElems t rest b hb
      unfold fileStatusesClosed
      simp only [LoadTasks, unmarshalTasks, hp]
      cases hd : decodeElems ((t :: rest).map taskJson) with
      | none => simp
      | some ts2 =>
        simp only [Option.map_some']
        exact decodeElems_status (t :: rest) ts2 hcl hd

/-! ### Statuses through the commands and across process runs -/

theorem runCommand_statusesClosed (s : State) (cmd : Command) (c1 c2 : Time)
    (h : s.statusesClosed) : (runCommand s cmd c1 c2).state.statusesClosed := by
  have hin : closedStatus (lit "in-progress") := Or.inr (Or.inl rfl)
  have hdone : closedStatus (lit "done") := Or.inr (Or.inr rfl)
  cases cmd with
  | add d =>
    intro t ht
    simp only [runCommand, addCmd, List.mem_append, List.mem_singleton] at ht
    rcases ht with ht | ht
    · exact h t ht
    · subst ht
      exact Or.inl rfl
  | update id d =>
    intro t ht
    rcases updateCmd_mem s id d c1 t ht with h1 | ⟨u, hu, e⟩
    · exact h t h1
    · subst e
      exact h u hu
  | delete id =>
    intro t ht
    exact h t (deleteCmd_mem s id t ht)
  | markInProgress id =>
    intro t ht
    rcases updateTaskStatus_mem s id (lit "in-progress") c1 t ht with h1 | ⟨u, _, e⟩
    · exact h t h1
    · subst e
      exact hin
  | markDone id =>
    intro t ht
    rcases updateTaskStatus_mem s id (lit "done") c1 t ht with h1 | ⟨u, _, e⟩
    · exact h t h1
    · subst e
      exact hdone
  | list args =>
    intro t ht
    simp only [runCommand, listCmd_state] at ht
    exact h t ht

theorem LoadTasks_statusesClosed (file file1 : Option GoString) (s : State)
    (hfile : fileStatusesClosed file) (hl : LoadTasks file = some (file1, s)) :
    s.statusesClosed ∧ fileStatusesClosed file1 := by
  have hs : s.statusesClosed := by
    unfold fileStatusesClosed at hfile
    rw [hl] at hfile
    exact hfile
  refine ⟨hs, ?_⟩
  cases file with
  | none =>
    simp only [LoadTasks, Option.some.injEq, Prod.mk.injEq] at hl
    rw [← hl.1]
    decide
  | some data =>
    have : file1 = some data := by
      simp only [LoadTasks] at hl
      split at hl
      · cases hl
      · simp only [Option.some.injEq, Prod.mk.injEq] at hl
        exact hl.1.symm
      · simp only [Option.some.injEq, Prod.mk.injEq] at hl
        exact hl.1.symm
    rw [this]
    exact hfile

theorem SaveTasks_statusesClosed (s : State) (file : Option GoString)
    (hs : s.statusesClosed) (hfile : fileStatusesClosed file) :
    fileStatusesClosed (SaveTasks s file).1 := by
  unfold SaveTasks
  cases hm : marshalIndent s with
  | none => exact hfile
  | some data => exact fileStatusesClosed_marshalIndent s data hs hm

/-- One process run keeps the statuses closed: in the store it loads, in the
store its command leaves, and in the file it leaves. -/
theorem main_statusesClosed (file : Option GoString) (cmd : Command) (c1 c2 : Time)
    (hfile : fileStatusesClosed file) :
    (∀ s, (main file cmd c1 c2).loaded = some s → s.statusesClosed)
    ∧ (∀ o, (main file cmd c1 c2).outcome = some o → o.state.statusesClosed)
    ∧ fileStatusesClosed (main file cmd c1 c2).file := by
  unfold main
  cases hl : LoadTasks file with
  | none =>
    refine ⟨?_, ?_, hfile⟩
    · intro s h
      cases h
    · intro o h
      cases h
  | some p =>
    obtain ⟨file1, s⟩ := p
    obtain ⟨hs, hf1⟩ := LoadTasks_statusesClosed file file1 s hfile hl
    have ho := runCommand_statusesClosed s cmd c1 c2 hs
    have hsave := SaveTasks_statusesClosed (runCommand s cmd c1 c2).state file1 ho hf1
    cases cmd <;> simp only <;> (try split) <;>
      exact ⟨fun s2 h => (Option.some.inj h) ▸ hs, fun o h => (Option.some.inj h) ▸ ho,
        by first | exact hf1 | exact hsave⟩

theorem runAll_statusesClosed (cmds : List (Command × Time × Time)) :
    ∀ file, fileStatusesClosed file → ∀ r ∈ runAll file cmds,
      (∀ s, r.loaded = some s → s.statusesClosed)
      ∧ (∀ o, r.outcome = some o → o.state.statusesClosed)
      ∧ fileStatusesClosed r.file := by
  induction cmds with
  | nil =>
    intro file _ r hr
    simp [runAll] at hr
  | cons a rest ih =>
    intro file hfile r hr
    obtain ⟨cmd, c1, c2⟩ := a
    have hm := main_statusesClosed file cmd c1 c2 hfile
    simp only [runAll, List.mem_cons] at hr
    rcases hr with hr | hr
    · subst hr
      exact hm
    · exact ih _ hm.2.2 r hr

set_option maxRecDepth 100000 in
/-- C11 (counterexample): `LoadTasks` decodes a snapshot whose one task has id 1
and status blocked without looking at the status, so the store that `list` (or
any other command) starts from holds a task whose status is none of todo,
in-progress, done. -/
theorem loaded_status_outside_set :
    (LoadTasks (some (lit "[\x7b\"id\": 1, \"status\": \"blocked\"\x7d]"))).map
        (fun r => r.2.tasks.map (fun t => (t.ID, t.Status)))
      = some [(1, lit "blocked")]
    ∧ ¬ closedStatus (lit "blocked")
    ∧ ((main (some (lit "[\x7b\"id\": 1, \"status\": \"blocked\"\x7d]")) (.list [])
          ⟨2024, 1, 1, 0, 0, 0, 0, 0⟩ ⟨2024, 1, 1, 0, 0, 0, 0, 0⟩).outcome.map
        (fun o => decide o.state.statusesClosed)) = some false := by
  decide

/-- C11 (amended): when the snapshot the first process loads holds only statuses
of the set todo, in-progress, done (an absent file is such a snapshot), then for
every sequence of the six commands with any arguments, in every process run the
loaded store, the store the command leaves and the store the file left behind
loads to hold only statuses of that set; and within one process every command
keeps a store with such statuses so. -/
theorem statuses_stay_closed (file : Option GoString) (cmds : List (Command × Time × Time))
    (hfile : fileStatusesClosed file) :
    (∀ r ∈ runAll file cmds,
      (∀ s, r.loaded = some s → s.statusesClosed)
      ∧ (∀ o, r.outcome = some o → o.state.statusesClosed)
      ∧ fileStatusesClosed r.file)
    ∧ (∀ s cmd c1 c2, s.statusesClosed → (runCommand s cmd c1 c2).state.statusesClosed) := by
  exact ⟨runAll_statusesClosed cmds file hfile,
    fun s cmd c1 c2 h => runCommand_statusesClosed s cmd c1 c2 h⟩

set_option maxRecDepth 100000 in
/-- C11 (witness): from the absent file, `add`, `mark-done 1`, `list`. -/
theorem statuses_stay_closed_witness :
    fileStatusesClosed none
    ∧ (runAll none
        [(.add (lit "a"), ⟨2024, 1, 1, 0, 0, 0, 0, 0⟩, ⟨2024, 1, 1, 0, 0, 0, 0, 0⟩),
         (.markDone (lit "1"), ⟨2024, 1, 2, 0, 0, 0, 0, 0⟩, ⟨2024, 1, 2, 0, 0, 0, 0, 0⟩),
         (.list [], ⟨2024, 1, 3, 0, 0, 0, 0, 0⟩, ⟨2024, 1, 3, 0, 0, 0, 0, 0⟩)]).length = 3
    ∧ ∀ r ∈ runAll none
        [(.add (lit "a"), ⟨2024, 1, 1, 0, 0, 0, 0, 0⟩, ⟨2024, 1, 1, 0, 0, 0, 0, 0⟩),
         (.markDone (lit "1"), ⟨2024, 1, 2, 0, 0, 0, 0, 0⟩, ⟨2024, 1, 2, 0, 0, 0, 0, 0⟩),
         (.list [], ⟨2024, 1, 3, 0, 0, 0, 0, 0⟩, ⟨2024, 1, 3, 0, 0, 0, 0, 0⟩)],
      (∀ s, r.loaded = some s → s.statusesClosed)
      ∧ (∀ o, r.outcome = some o → o.state.statusesClosed)
      ∧ fileStatusesClosed r.file :=
  ⟨by decide, rfl,
    (statuses_stay_closed none
      [(.add (lit "a"), ⟨2024, 1, 1, 0, 0, 0, 0, 0⟩, ⟨2024, 1, 1, 0, 0, 0, 0, 0⟩),
       (.markDone (lit "1"), ⟨2024, 1, 2, 0, 0, 0, 0, 0⟩, ⟨2024, 1, 2, 0, 0, 0, 0, 0⟩),
       (.list [], ⟨2024, 1, 3, 0, 0, 0, 0, 0⟩, ⟨2024, 1, 3, 0, 0, 0, 0, 0⟩)]
      (by decide)).1⟩

end TaskTracker
